import Mathlib

/-!
# Image_processor: the bitmap codec and the grid transformations

A shallow embedding of `Shahin_main.cpp`.

* A C++ `int` is a Lean `Int`; every arithmetic result is reduced to the
  32-bit two's-complement range by `wrap32`. Division and remainder are the
  truncating `Int.tdiv` and `Int.tmod`, as in C++.
* A file is a `List Byte`. An input `fstream` is modelled by its contents, its
  get position and its sticky failure flag: once a read or a seek has failed,
  every later `get()` yields the end-of-file value `-1` and every later
  `seekg` is ignored.
* Functions whose C++ body can throw (`vector` constructed with a negative
  size, `.at()` out of range) or read outside a vector return `Option`;
  `none` stands for that abnormal end.
* The `double` arithmetic of the transformations is a parameter, a
  `FloatModel`. Statements that depend on computed values assume `Faithful`:
  ints are converted exactly, no operation rounds across an `int`, and the
  conversion to `int` truncates toward zero.
-/

namespace ImageProcessor

/-! ## Machine integers -/

/-- Reduction of an integer to the 32-bit two's-complement range. -/
def wrap32 (x : Int) : Int := (x + 2147483648) % 4294967296 - 2147483648

/-- One byte of a file or of an `unsigned char` array. -/
abbrev Byte := Fin 256

/-- The conversion `(unsigned char) x` of an `int`. -/
def toUChar (x : Int) : Byte := ⟨(x % 256).toNat, by omega⟩

/-! ## Loops -/

/-- The loop `for (int k = 0; k < n; k++) st = body k st`. -/
def forUp {σ : Type} (n : Nat) (body : Nat → σ → σ) (st : σ) : σ :=
  (List.range n).foldl (fun acc k => body k acc) st

/-- The loop `for (int k = n - 1; k >= 0; k--) st = body k st`. -/
def forDown {σ : Type} : Nat → (Nat → σ → σ) → σ → σ
  | 0, _, st => st
  | k + 1, body, st => forDown k body (body k st)

/-- An ascending loop whose body can end the run abnormally. -/
def forUpM {σ : Type} (n : Nat) (body : Nat → σ → Option σ) (st : σ) : Option σ :=
  (List.range n).foldlM (fun acc k => body k acc) st

/-- A descending loop whose body can end the run abnormally. -/
def forDownM {σ : Type} : Nat → (Nat → σ → Option σ) → σ → Option σ
  | 0, _, st => some st
  | k + 1, body, st =>
    match body k st with
    | some st1 => forDownM k body st1
    | none => none

/-! ## Data model -/

/-- The `Pixel` structure: three `int` channels. -/
structure Pixel where
  red : Int
  green : Int
  blue : Int
deriving DecidableEq

/-- An image, `vector<vector<Pixel>>`, indexed `[row][col]`. -/
abbrev Grid := List (List Pixel)

/-- The value-initialised pixel that `vector<Pixel>(n)` is filled with. -/
def Pixel.zero : Pixel := ⟨0, 0, 0⟩

/-- The image `vector<vector<Pixel>>(rows, vector<Pixel>(cols))`. -/
def newImage (rows cols : Nat) : Grid :=
  List.replicate rows (List.replicate cols Pixel.zero)

/-- The element `image[i][j]`, when it exists. -/
def pixelAt (image : Grid) (i j : Nat) : Option Pixel :=
  match image[i]? with
  | some row => row[j]?
  | none => none

/-- The assignment through `image[i][j]`: the pixel there is replaced by `f` of it. -/
def updPixel (image : Grid) (i j : Nat) (f : Pixel → Pixel) : Grid :=
  match image[i]? with
  | some row =>
    match row[j]? with
    | some p => image.set i (row.set j (f p))
    | none => image
  | none => image

/-! ## Input stream -/

/-- An `fstream` opened for reading: file contents, get position, failure flag. -/
structure IStream where
  data : List Byte
  pos : Nat
  fail : Bool

/-- The call `stream.open(filename, ios::in | ios::binary)`; `none` is a file
that cannot be opened, which leaves the stream failed. -/
def IStream.openFile : Option (List Byte) → IStream
  | some bytes => ⟨bytes, 0, false⟩
  | none => ⟨[], 0, true⟩

/-- The call `stream.seekg(offset)`: ignored on a failed stream, fails on a
negative offset, and may go past the end of the file. -/
def IStream.seekg (s : IStream) (offset : Int) : IStream :=
  if s.fail then s
  else if offset < 0 then { s with fail := true }
  else { s with pos := offset.toNat }

/-- The call `stream.seekg(offset, ios::cur)`. -/
def IStream.seekgCur (s : IStream) (offset : Int) : IStream :=
  if s.fail then s
  else if (s.pos : Int) + offset < 0 then { s with fail := true }
  else { s with pos := ((s.pos : Int) + offset).toNat }

/-- The call `stream.get()`: the next byte, or `-1` at the end of the file or on
a failed stream; reading at the end of the file fails the stream. -/
def IStream.get (s : IStream) : Int × IStream :=
  if s.fail then (-1, s)
  else
    match s.data[s.pos]? with
    | some b => ((b.val : Int), { s with pos := s.pos + 1 })
    | none => (-1, { s with fail := true })

/-! ## Decoder -/

/-- Loop state of `get_int`. -/
structure GetIntState where
  result : Int
  base : Int
  stream : IStream

/-- The body of the loop of `get_int`. -/
def get_int_step (st : GetIntState) : GetIntState :=
  let r := st.stream.get
  { result := wrap32 (st.result + wrap32 (r.1 * st.base)),
    base := wrap32 (st.base * 256),
    stream := r.2 }

/-- The function `get_int`: the integer and the stream after the reads. -/
def get_int (stream : IStream) (offset : Int) (bytes : Int) : Int × IStream :=
  let st := forUp bytes.toNat (fun _ st => get_int_step st)
    { result := 0, base := 1, stream := stream.seekg offset }
  (st.result, st.stream)

/-- Loop state of the pixel loops of `read_image`. -/
structure ReadState where
  stream : IStream
  pos : Int
  image : Grid

/-- The body of the column loop of `read_image` at `[i][j]`. -/
def read_pixel (bits_per_pixel : Int) (i j : Nat) (st : ReadState) : ReadState :=
  let s0 := st.stream.seekg st.pos
  let b := s0.get
  let image1 := updPixel st.image i j (fun p => { p with blue := b.1 })
  let g := b.2.get
  let image2 := updPixel image1 i j (fun p => { p with green := g.1 })
  let r := g.2.get
  let image3 := updPixel image2 i j (fun p => { p with red := r.1 })
  { stream := r.2, pos := wrap32 (st.pos + Int.tdiv bits_per_pixel 8), image := image3 }

/-- The body of the row loop of `read_image` at row `i`. -/
def read_row (bits_per_pixel padding : Int) (width : Nat) (i : Nat) (st : ReadState) :
    ReadState :=
  let st1 := forUp width (fun j acc => read_pixel bits_per_pixel i j acc) st
  { stream := st1.stream.seekgCur padding, pos := wrap32 (st1.pos + padding),
    image := st1.image }

/-- The scan-line padding that `read_image` computes. -/
def read_padding (scanline_size : Int) : Int :=
  if Int.tmod scanline_size 4 ≠ 0 then 4 - Int.tmod scanline_size 4 else 0

/-- The function `read_image` on the file behind `filename` (`none`: the file
cannot be opened). The result is `none` when a `vector` constructor throws for
a negative size. -/
def read_image (file : Option (List Byte)) : Option Grid :=
  let stream := IStream.openFile file
  let r1 := get_int stream 2 4
  let file_size := r1.1
  let r2 := get_int r1.2 10 4
  let start := r2.1
  let r3 := get_int r2.2 18 4
  let width := r3.1
  let r4 := get_int r3.2 22 4
  let height := r4.1
  let r5 := get_int r4.2 28 2
  let bits_per_pixel := r5.1
  let scanline_size := wrap32 (width * Int.tdiv bits_per_pixel 8)
  let padding := read_padding scanline_size
  if file_size ≠ wrap32 (start + wrap32 (wrap32 (scanline_size + padding) * height)) then
    some []
  else if width < 0 ∨ height < 0 then
    none
  else
    let image := newImage height.toNat width.toNat
    let st := forDown height.toNat (read_row bits_per_pixel padding width.toNat)
      { stream := r5.2, pos := start, image := image }
    some st.image

/-! ## Encoder -/

/-- The function `set_bytes` on an `unsigned char` array. -/
def set_bytes (arr : List Byte) (offset : Int) (bytes : Int) (value : Int) : List Byte :=
  forUp bytes.toNat
    (fun i a => a.set (offset + (i : Int)).toNat (toUChar (value >>> (i * 8)))) arr

/-- The 14-byte container header that `write_image` builds. -/
def bmp_header (array_bytes : Int) : List Byte :=
  let h0 : List Byte := List.replicate 14 0
  let h1 := set_bytes h0 0 1 66
  let h2 := set_bytes h1 1 1 77
  let h3 := set_bytes h2 2 4 (wrap32 (wrap32 (14 + 40) + array_bytes))
  let h4 := set_bytes h3 6 2 0
  let h5 := set_bytes h4 8 2 0
  set_bytes h5 10 4 (wrap32 (14 + 40))

/-- The 40-byte format header that `write_image` builds. -/
def dib_header (width_pixels height_pixels array_bytes : Int) : List Byte :=
  let d0 : List Byte := List.replicate 40 0
  let d1 := set_bytes d0 0 4 40
  let d2 := set_bytes d1 4 4 width_pixels
  let d3 := set_bytes d2 8 4 height_pixels
  let d4 := set_bytes d3 12 2 1
  let d5 := set_bytes d4 14 2 24
  let d6 := set_bytes d5 16 4 0
  let d7 := set_bytes d6 20 4 array_bytes
  let d8 := set_bytes d7 24 4 2835
  let d9 := set_bytes d8 28 4 2835
  let d10 := set_bytes d9 32 4 0
  set_bytes d10 36 4 0

/-- The padding count that `write_image` computes from the row length. -/
def padding_bytes (image : Grid) : Int :=
  let width_pixels := wrap32 ((image.headD []).length : Int)
  let width_bytes := wrap32 (width_pixels * 3)
  Int.tmod (4 - Int.tmod width_bytes 4) 4

/-- The body of the column loop of `write_image` at `[h][w]`: three bytes are
appended; reading outside the vectors ends the run. -/
def write_pixel (image : Grid) (h w : Nat) (out : List Byte) : Option (List Byte) :=
  match pixelAt image h w with
  | some p => some (out ++ [toUChar p.blue, toUChar p.green, toUChar p.red])
  | none => none

/-- The body of the row loop of `write_image` at row `h`. -/
def write_row (image : Grid) (width : Nat) (padding : Int) (h : Nat) (out : List Byte) :
    Option (List Byte) :=
  match forUpM width (write_pixel image h) out with
  | some o => some (o ++ List.replicate padding.toNat (0 : Byte))
  | none => none

/-- The function `write_image`: the bytes written to a destination that opens.
The result is `none` when the C++ reads outside a vector (an empty image, a row
shorter than row 0). -/
def write_image (image : Grid) : Option (List Byte) :=
  match image with
  | [] => none
  | row0 :: _ =>
    let width_pixels := wrap32 (row0.length : Int)
    let height_pixels := wrap32 (image.length : Int)
    let width_bytes := wrap32 (width_pixels * 3)
    let padding := padding_bytes image
    let width_bytes := wrap32 (width_bytes + padding)
    let array_bytes := wrap32 (width_bytes * height_pixels)
    let headers := bmp_header array_bytes ++ dib_header width_pixels height_pixels array_bytes
    forDownM height_pixels.toNat (write_row image width_pixels.toNat padding) headers

/-! ## Rotation -/

/-- The body of the inner loop of `rotate_90` and of `proc4`: `.at()` throws
outside the vectors. -/
def rotate_step (image : Grid) (height_pixels : Int) (row col : Nat) (newimg : Grid) :
    Option Grid :=
  match pixelAt image row col with
  | some p =>
    match pixelAt newimg col (wrap32 (wrap32 (height_pixels - 1) - (row : Int))).toNat with
    | some _ =>
      some (updPixel newimg col (wrap32 (wrap32 (height_pixels - 1) - (row : Int))).toNat
        (fun _ => p))
    | none => none
  | none => none

/-- The function `rotate_90`. -/
def rotate_90 (image : Grid) : Option Grid :=
  match image with
  | [] => none
  | row0 :: _ =>
    let width_pixels := wrap32 (row0.length : Int)
    let height_pixels := wrap32 (image.length : Int)
    if width_pixels < 0 ∨ height_pixels < 0 then none
    else
      forUpM height_pixels.toNat
        (fun row acc => forUpM width_pixels.toNat
          (fun col acc1 => rotate_step image height_pixels row col acc1) acc)
        (newImage width_pixels.toNat height_pixels.toNat)

/-- The function `proc4`: the image is read from the file, then turned. -/
def proc4 (file : Option (List Byte)) : Option Grid :=
  match read_image file with
  | none => none
  | some image =>
    match image with
    | [] => none
    | row0 :: _ =>
      let width_pixels := wrap32 (row0.length : Int)
      let height_pixels := wrap32 (image.length : Int)
      if width_pixels < 0 ∨ height_pixels < 0 then none
      else
        forUpM height_pixels.toNat
          (fun row acc => forUpM width_pixels.toNat
            (fun col acc1 => rotate_step image height_pixels row col acc1) acc)
          (newImage width_pixels.toNat height_pixels.toNat)


/-! ## Floating point -/

/-- An interpretation of the `double` arithmetic of the transformations: the
conversion of an `int`, the operations of `<cmath>` that the code uses, and the
conversion back to `int`. The transformations are embedded over any such
interpretation. -/
structure FloatModel where
  D : Type
  ofInt : Int → D
  add : D → D → D
  sub : D → D → D
  mul : D → D → D
  div : D → D → D
  pow : D → D → D
  sqrt : D → D
  toInt : D → Int

/-! ## Transformations -/

/-- The body of the nested loops of a transformation: `newimg[row][col]` is
assigned the pixel `body row col`, which ends the run when it is `none`. -/
def fill_step (body : Nat → Nat → Option Pixel) (row col : Nat) (newimg : Grid) : Option Grid :=
  match body row col with
  | some p => some (updPixel newimg row col (fun _ => p))
  | none => none

/-- A new image of `rows` by `cols` pixels filled by the nested loops
`for (row < rows) for (col < cols) newimg[row][col] = body row col`. -/
def fillImage (rows cols : Nat) (body : Nat → Nat → Option Pixel) : Option Grid :=
  forUpM rows (fun row acc => forUpM cols (fun col acc1 => fill_step body row col acc1) acc)
    (newImage rows cols)

/-- The frame shared by `proc1`, `proc2`, `proc3`, `proc7`, `proc8`, `proc9` and
`proc10` after the image is read: the sizes are taken from the image, a new
image of the same sizes is made, and every pixel `image[row][col]` is replaced
by `rule width_pixels height_pixels row col` of it. The result is `none` when
the image is empty, a size is negative as an `int`, or a row is too short. -/
def pointwise (rule : Int → Int → Nat → Nat → Pixel → Pixel) (image : Grid) : Option Grid :=
  match image with
  | [] => none
  | row0 :: _ =>
    let width_pixels := wrap32 (row0.length : Int)
    let height_pixels := wrap32 (image.length : Int)
    if width_pixels < 0 ∨ height_pixels < 0 then none
    else
      fillImage height_pixels.toNat width_pixels.toNat
        (fun row col =>
          match pixelAt image row col with
          | some p => some (rule width_pixels height_pixels row col p)
          | none => none)

/-- The pixel that the loop body of `proc1` (vignette) computes. -/
def proc1_pixel (F : FloatModel) (width_pixels height_pixels : Int) (row col : Nat)
    (p : Pixel) : Pixel :=
  let distance := F.sqrt (F.add
    (F.pow (F.ofInt (wrap32 ((col : Int) - Int.tdiv width_pixels 2))) (F.ofInt 2))
    (F.pow (F.ofInt (wrap32 ((row : Int) - Int.tdiv height_pixels 2))) (F.ofInt 2)))
  let scaling_factor := F.div (F.sub (F.ofInt height_pixels) distance) (F.ofInt height_pixels)
  { red := F.toInt (F.mul (F.ofInt p.red) scaling_factor),
    green := F.toInt (F.mul (F.ofInt p.green) scaling_factor),
    blue := F.toInt (F.mul (F.ofInt p.blue) scaling_factor) }

/-- The grid computation of `proc1`. -/
def proc1_image (F : FloatModel) (image : Grid) : Option Grid :=
  pointwise (fun width_pixels height_pixels row col p =>
    proc1_pixel F width_pixels height_pixels row col p) image

/-- The function `proc1` (vignette). -/
def proc1 (F : FloatModel) (file : Option (List Byte)) : Option Grid :=
  match read_image file with
  | none => none
  | some image => proc1_image F image

/-- The pixel that the loop body of `proc2` (clarendon) computes. -/
def proc2_pixel (F : FloatModel) (scaling_factor : F.D) (p : Pixel) : Pixel :=
  let red := p.red
  let blue := p.blue
  let green := p.green
  let average := Int.tdiv (wrap32 (wrap32 (red + green) + blue)) 3
  if average ≥ 170 then
    let newred := F.toInt (F.sub (F.ofInt 255) (F.mul (F.ofInt (wrap32 (255 - red))) scaling_factor))
    let newblue := F.toInt (F.sub (F.ofInt 255) (F.mul (F.ofInt (wrap32 (255 - blue))) scaling_factor))
    let newgreen := F.toInt (F.sub (F.ofInt 255) (F.mul (F.ofInt (wrap32 (255 - green))) scaling_factor))
    { red := newred, green := newgreen, blue := newblue }
  else if average < 90 then
    let newred := F.toInt (F.mul (F.ofInt red) scaling_factor)
    let newblue := F.toInt (F.mul (F.ofInt blue) scaling_factor)
    let newgreen := F.toInt (F.mul (F.ofInt green) scaling_factor)
    { red := newred, green := newgreen, blue := newblue }
  else
    { red := red, green := green, blue := blue }

/-- The grid computation of `proc2`. -/
def proc2_image (F : FloatModel) (scaling_factor : F.D) (image : Grid) : Option Grid :=
  pointwise (fun _ _ _ _ p => proc2_pixel F scaling_factor p) image

/-- The function `proc2` (clarendon). -/
def proc2 (F : FloatModel) (file : Option (List Byte)) (scaling_factor : F.D) : Option Grid :=
  match read_image file with
  | none => none
  | some image => proc2_image F scaling_factor image

/-- The pixel that the loop body of `proc3` (grayscale) computes; the new pixel
is initialised in the order `newred, newblue, newgreen`. -/
def proc3_pixel (p : Pixel) : Pixel :=
  let red := p.red
  let blue := p.blue
  let green := p.green
  let gray_pixel := Int.tdiv (wrap32 (wrap32 (red + blue) + green)) 3
  let newred := gray_pixel
  let newblue := gray_pixel
  let newgreen := gray_pixel
  { red := newred, green := newblue, blue := newgreen }

/-- The grid computation of `proc3`. -/
def proc3_image (image : Grid) : Option Grid :=
  pointwise (fun _ _ _ _ p => proc3_pixel p) image

/-- The function `proc3` (grayscale). -/
def proc3 (file : Option (List Byte)) : Option Grid :=
  match read_image file with
  | none => none
  | some image => proc3_image image

/-- The grid computation of `proc5` for the rotation count `number`. -/
def proc5_image (image : Grid) (number : Int) : Option Grid :=
  let angle := wrap32 (number * 90)
  if Int.tmod angle 90 ≠ 0 then some image
  else if Int.tmod angle 360 = 0 then some image
  else if Int.tmod angle 360 = 90 then rotate_90 image
  else if Int.tmod angle 360 = 180 then (rotate_90 image).bind rotate_90
  else ((rotate_90 image).bind rotate_90).bind rotate_90

/-- The function `proc5` (rotation by a multiple of 90 degrees). -/
def proc5 (file : Option (List Byte)) (number : Int) : Option Grid :=
  match read_image file with
  | none => none
  | some image => proc5_image image number

/-- The condition of the first branch of `proc5`, under which it prints
"number must be a multiple of 90 degrees" and returns the image as read. -/
def proc5_error (number : Int) : Prop :=
  Int.tmod (wrap32 (number * 90)) 90 ≠ 0

instance (number : Int) : Decidable (proc5_error number) := by
  unfold proc5_error; infer_instance

/-- The grid computation of `proc6`: the two error returns, then the enlarged
image; `image.at(row / yscale).at(col / xscale)` throws outside the image. -/
def proc6_image (image : Grid) (xscale yscale : Int) : Option Grid :=
  match image with
  | [] => some image
  | row0 :: _ =>
    if xscale ≤ 0 ∨ yscale ≤ 0 then some image
    else
      let width_pixels := wrap32 (row0.length : Int)
      let height_pixels := wrap32 (image.length : Int)
      if wrap32 (width_pixels * xscale) < 0 ∨ wrap32 (height_pixels * yscale) < 0 then none
      else
        fillImage (wrap32 (height_pixels * yscale)).toNat (wrap32 (width_pixels * xscale)).toNat
          (fun row col =>
            pixelAt image (Int.tdiv (row : Int) yscale).toNat (Int.tdiv (col : Int) xscale).toNat)

/-- The function `proc6` (enlargement). -/
def proc6 (file : Option (List Byte)) (xscale yscale : Int) : Option Grid :=
  match read_image file with
  | none => none
  | some image => proc6_image image xscale yscale

/-- The pixel that the loop body of `proc7` (high contrast) computes. -/
def proc7_pixel (p : Pixel) : Pixel :=
  let red := p.red
  let blue := p.blue
  let green := p.green
  let gray := Int.tdiv (wrap32 (wrap32 (red + green) + blue)) 3
  if gray ≥ Int.tdiv 255 2 then { red := 255, green := 255, blue := 255 }
  else { red := 0, green := 0, blue := 0 }

/-- The grid computation of `proc7`. -/
def proc7_image (img : Grid) : Option Grid :=
  pointwise (fun _ _ _ _ p => proc7_pixel p) img

/-- The function `proc7` (high contrast). -/
def proc7 (file : Option (List Byte)) : Option Grid :=
  match read_image file with
  | none => none
  | some img => proc7_image img

/-- The pixel that the loop body of `proc8` (lighten) computes. -/
def proc8_pixel (F : FloatModel) (scaling_factor : F.D) (p : Pixel) : Pixel :=
  let red := p.red
  let green := p.green
  let blue := p.blue
  let newred := F.toInt (F.sub (F.ofInt 255) (F.mul (F.ofInt (wrap32 (255 - red))) scaling_factor))
  let newgreen := F.toInt (F.sub (F.ofInt 255) (F.mul (F.ofInt (wrap32 (255 - green))) scaling_factor))
  let newblue := F.toInt (F.sub (F.ofInt 255) (F.mul (F.ofInt (wrap32 (255 - blue))) scaling_factor))
  { red := newred, green := newgreen, blue := newblue }

/-- The grid computation of `proc8`. -/
def proc8_image (F : FloatModel) (scaling_factor : F.D) (img : Grid) : Option Grid :=
  pointwise (fun _ _ _ _ p => proc8_pixel F scaling_factor p) img

/-- The function `proc8` (lighten). -/
def proc8 (F : FloatModel) (file : Option (List Byte)) (scaling_factor : F.D) : Option Grid :=
  match read_image file with
  | none => none
  | some img => proc8_image F scaling_factor img

/-- The pixel that the loop body of `proc9` (darken) computes. -/
def proc9_pixel (F : FloatModel) (scaling_factor : F.D) (p : Pixel) : Pixel :=
  let red := p.red
  let green := p.green
  let blue := p.blue
  let newred := F.toInt (F.mul (F.ofInt red) scaling_factor)
  let newgreen := F.toInt (F.mul (F.ofInt green) scaling_factor)
  let newblue := F.toInt (F.mul (F.ofInt blue) scaling_factor)
  { red := newred, green := newgreen, blue := newblue }

/-- The grid computation of `proc9`. -/
def proc9_image (F : FloatModel) (scaling_factor : F.D) (image : Grid) : Option Grid :=
  pointwise (fun _ _ _ _ p => proc9_pixel F scaling_factor p) image

/-- The function `proc9` (darken). -/
def proc9 (F : FloatModel) (file : Option (List Byte)) (scaling_factor : F.D) : Option Grid :=
  match read_image file with
  | none => none
  | some image => proc9_image F scaling_factor image

/-- The pixel that the loop body of `proc10` (palette reduction) computes. -/
def proc10_pixel (p : Pixel) : Pixel :=
  let red := p.red
  let green := p.green
  let blue := p.blue
  let max_color := max red (max green blue)
  let sum_color := wrap32 (wrap32 (red + green) + blue)
  if sum_color ≥ 550 then { red := 255, green := 255, blue := 255 }
  else if sum_color ≤ 150 then { red := 0, green := 0, blue := 0 }
  else if max_color = red then { red := 255, green := 0, blue := 0 }
  else if max_color = green then { red := 0, green := 255, blue := 0 }
  else { red := 0, green := 0, blue := 255 }

/-- The grid computation of `proc10`. -/
def proc10_image (image : Grid) : Option Grid :=
  pointwise (fun _ _ _ _ p => proc10_pixel p) image

/-- The function `proc10` (palette reduction). -/
def proc10 (file : Option (List Byte)) : Option Grid :=
  match read_image file with
  | none => none
  | some image => proc10_image image

/-! ## Spec-side readings of a byte sequence -/

/-- The byte at position `p`, or the end-of-file value `-1` past the end. -/
def byteOrEof (bs : List Byte) (p : Nat) : Int :=
  match bs[p]? with
  | some b => (b.val : Int)
  | none => -1

/-- The little-endian sum of the `n` bytes from position `o`. -/
def leSum (bs : List Byte) (o : Nat) : Nat → Int
  | 0 => 0
  | n + 1 => leSum bs o n + byteOrEof bs (o + n) * 256 ^ n


/-- The stream reads `bs`, and is either at position `m` or has failed with the
file ending before `m`. -/
def StreamAt (bs : List Byte) (m : Nat) (s : IStream) : Prop :=
  s.data = bs ∧ (s.fail = true → bs.length < m) ∧ (s.fail = false → s.pos = m)

/-- The stream reads `bs`, and if it has failed the file ends before `m`. -/
def StreamOk (bs : List Byte) (m : Nat) (s : IStream) : Prop :=
  s.data = bs ∧ (s.fail = true → bs.length < m)


/-! ## The header of a file -/

/-- The integer that `get_int` reads from a freshly opened file. -/
def field (bs : List Byte) (offset bytes : Int) : Int :=
  (get_int (IStream.openFile (some bs)) offset bytes).1

/-- The five header fields that `read_image` uses. -/
structure Header where
  file_size : Int
  start : Int
  width : Int
  height : Int
  bits_per_pixel : Int

/-- The header fields of a file: file size at offset 2, pixel-array offset at
10, width at 18, height at 22 (four bytes each), bits per pixel at 28 (two). -/
def header (bs : List Byte) : Header :=
  { file_size := field bs 2 4, start := field bs 10 4, width := field bs 18 4,
    height := field bs 22 4, bits_per_pixel := field bs 28 2 }

/-- The scan-line length `width * (bits_per_pixel / 8)` in `int` arithmetic. -/
def Header.scanline_size (hd : Header) : Int :=
  wrap32 (hd.width * Int.tdiv hd.bits_per_pixel 8)

/-- The padding computed from the header fields. -/
def Header.padding (hd : Header) : Int := read_padding hd.scanline_size

/-- The size `start + (scanline_size + padding) * height` computed from the
header fields in `int` arithmetic. -/
def Header.layout_size (hd : Header) : Int :=
  wrap32 (hd.start + wrap32 (wrap32 (hd.scanline_size + hd.padding) * hd.height))

/-- The pixel loops of `read_image`, run on a stream `s` left by the header reads. -/
def read_pixels (hd : Header) (s : IStream) : Grid :=
  (forDown hd.height.toNat (read_row hd.bits_per_pixel hd.padding hd.width.toNat)
    { stream := s, pos := hd.start, image := newImage hd.height.toNat hd.width.toNat }).image

/-- A 1 x 1 bitmap whose header declares 58 bytes, cut after 56 bytes. -/
def truncatedFile : List Byte :=
  [66, 77, 58, 0, 0, 0, 0, 0, 0, 0, 54, 0, 0, 0, 40, 0, 0, 0, 1, 0, 0, 0, 1, 0, 0, 0, 1, 0, 24, 0,
   0, 0, 0, 0, 4, 0, 0, 0, 19, 11, 0, 0, 19, 11, 0, 0, 0, 0, 0, 0, 0, 0, 0, 0, 3, 2]

/-- A complete 58-byte 1 x 1 bitmap whose header declares 57 bytes. -/
def misdeclaredFile : List Byte :=
  [66, 77, 57, 0, 0, 0, 0, 0, 0, 0, 54, 0, 0, 0, 40, 0, 0, 0, 1, 0, 0, 0, 1, 0, 0, 0, 1, 0, 24, 0,
   0, 0, 0, 0, 4, 0, 0, 0, 19, 11, 0, 0, 19, 11, 0, 0, 0, 0, 0, 0, 0, 0, 0, 0, 3, 2, 1, 0]

/-- A 58-byte file whose header declares 58 bytes and a 2 x 1 image of 24 bits
per pixel, for which the layout takes 62 bytes. -/
def shortFile : List Byte :=
  [66, 77, 58, 0, 0, 0, 0, 0, 0, 0, 54, 0, 0, 0, 40, 0, 0, 0, 2, 0, 0, 0, 1, 0, 0, 0, 1, 0, 24, 0,
   0, 0, 0, 0, 8, 0, 0, 0, 19, 11, 0, 0, 19, 11, 0, 0, 0, 0, 0, 0, 0, 0, 0, 0, 3, 2, 1, 0]

/-! ## Rectangular grids -/

/-- The grid has `h` rows of `w` pixels each. -/
def Shape (g : Grid) (h w : Nat) : Prop :=
  g.length = h ∧ ∀ row ∈ g, row.length = w

instance (g : Grid) (h w : Nat) : Decidable (Shape g h w) := by
  unfold Shape; infer_instance

/-! ## Decoding positions -/

/-- The stream reads `bs` and has not failed. -/
def Live (bs : List Byte) (s : IStream) : Prop :=
  s.data = bs ∧ s.fail = false

/-- The pixel made of the three bytes at positions `p`, `p + 1`, `p + 2`, in
blue, green, red order. -/
def pixelFrom (bs : List Byte) (p : Nat) : Pixel :=
  { red := byteOrEof bs (p + 2), green := byteOrEof bs (p + 1), blue := byteOrEof bs p }

/-- The file position `start + (height - 1 - i) * (width * (b / 8) + padding) + j * (b / 8)`
of pixel `[i][j]`, as an unbounded integer. -/
def Header.pixelPos (hd : Header) (i j : Nat) : Int :=
  hd.start +
    (hd.height - 1 - (i : Int)) * (hd.width * Int.tdiv hd.bits_per_pixel 8 + hd.padding) +
    (j : Int) * Int.tdiv hd.bits_per_pixel 8

/-- Every pixel position computed from the header lies inside a file of `len`
bytes, together with the two bytes after it, and below `2 ^ 31`. -/
def Header.InFile (hd : Header) (len : Nat) : Prop :=
  ∀ i j : Nat, (i : Int) < hd.height → (j : Int) < hd.width →
    0 ≤ hd.pixelPos i j ∧ hd.pixelPos i j + 2 < (len : Int) ∧ hd.pixelPos i j < 2147483648

/-- The 2 x 2 grid with rows red, green and blue, white. -/
def sampleGrid : Grid :=
  [[⟨255, 0, 0⟩, ⟨0, 255, 0⟩], [⟨0, 0, 255⟩, ⟨255, 255, 255⟩]]

/-- The 70-byte bitmap of `sampleGrid`. -/
def sampleFile : List Byte :=
  [66, 77, 70, 0, 0, 0, 0, 0, 0, 0, 54, 0, 0, 0, 40, 0, 0, 0, 2, 0, 0, 0, 2, 0, 0, 0, 1, 0, 24, 0,
   0, 0, 0, 0, 16, 0, 0, 0, 19, 11, 0, 0, 19, 11, 0, 0, 0, 0, 0, 0, 0, 0, 0, 0,
   255, 0, 0, 255, 255, 255, 0, 0,
   0, 0, 255, 0, 255, 0, 0, 0]

/-! ## The layout of an encoded file -/

/-- The padding `(4 - (3 w mod 4)) mod 4` of a row of `w` pixels. -/
def padNat (w : Nat) : Nat := (4 - 3 * w % 4) % 4

/-- The byte `n mod 256`. -/
def byteOf (n : Nat) : Byte := ⟨n % 256, Nat.mod_lt _ (by decide)⟩

/-- The four bytes of `n` as an unsigned 32-bit little-endian field. -/
def u32le (n : Nat) : List Byte :=
  [byteOf n, byteOf (n / 256), byteOf (n / 65536), byteOf (n / 16777216)]

/-- The two bytes of `n` as an unsigned 16-bit little-endian field. -/
def u16le (n : Nat) : List Byte := [byteOf n, byteOf (n / 256)]

/-- The bytes of the pixels of a row, three per pixel in blue, green, red order. -/
def pixelBytes : List Pixel → List Byte
  | [] => []
  | p :: ps => toUChar p.blue :: toUChar p.green :: toUChar p.red :: pixelBytes ps

/-- The bytes of a sequence of rows, each followed by `pad` zero bytes. -/
def rowsBytes (pad : Nat) : List (List Pixel) → List Byte
  | [] => []
  | r :: rs => pixelBytes r ++ List.replicate pad (0 : Byte) ++ rowsBytes pad rs

/-- The two headers that `write_image` writes for an image of `h` rows of `w`
pixels, when no size overflows. -/
def headerBytes (h w : Nat) : List Byte :=
  [66, 77] ++ u32le (54 + (3 * w + padNat w) * h) ++ [0, 0, 0, 0] ++ u32le 54 ++
    u32le 40 ++ u32le w ++ u32le h ++ u16le 1 ++ u16le 24 ++ u32le 0 ++
    u32le ((3 * w + padNat w) * h) ++ u32le 2835 ++ u32le 2835 ++ u32le 0 ++ u32le 0

/-- A grid of one row of `2 ^ 31` pixels: its width does not fit an `int`. -/
def wideGrid : Grid := [List.replicate 2147483648 ⟨1, 1, 1⟩]

/-- A grid of one row of three pixels. -/
def rowGrid : Grid := [[⟨10, 20, 30⟩, ⟨40, 50, 60⟩, ⟨70, 80, 90⟩]]

/-! ## Valid grids and valid files -/

/-- The three channels of the pixel are in `[0, 255]`. -/
def Pixel.InRange (p : Pixel) : Prop :=
  (0 ≤ p.red ∧ p.red ≤ 255) ∧ (0 ≤ p.green ∧ p.green ≤ 255) ∧ (0 ≤ p.blue ∧ p.blue ≤ 255)

instance (p : Pixel) : Decidable p.InRange := by
  unfold Pixel.InRange; infer_instance

/-- Every channel of every pixel of the grid is in `[0, 255]`. -/
def ChannelsInRange (g : Grid) : Prop :=
  ∀ row ∈ g, ∀ p ∈ row, Pixel.InRange p

instance (g : Grid) : Decidable (ChannelsInRange g) := by
  unfold ChannelsInRange; infer_instance

/-- A valid 24-bit bottom-up bitmap: 24 bits per pixel, width and height at least
1, the pixel array starts after the two headers, the declared file size is the
pixel-array offset plus the padded array, and the file has the declared length. -/
def Valid24 (f : List Byte) : Prop :=
  (header f).bits_per_pixel = 24 ∧ 1 ≤ (header f).width ∧ 1 ≤ (header f).height ∧
    54 ≤ (header f).start ∧
    (header f).file_size =
      (header f).start +
        (3 * (header f).width + (padNat (header f).width.toNat : Int)) * (header f).height ∧
    (f.length : Int) = (header f).file_size

instance (f : List Byte) : Decidable (Valid24 f) := by
  unfold Valid24; infer_instance

/-! ## Decoded images -/

/-- Every channel of the pixel is a byte value or the end-of-file value `-1`. -/
def Pixel.Decoded (p : Pixel) : Prop :=
  (-1 ≤ p.red ∧ p.red ≤ 255) ∧ (-1 ≤ p.green ∧ p.green ≤ 255) ∧ (-1 ≤ p.blue ∧ p.blue ≤ 255)

/-- Every pixel of the grid satisfies `B`. -/
def AllPixels (B : Pixel → Prop) (g : Grid) : Prop :=
  ∀ i j p, pixelAt g i j = some p → B p

/-- The grid obtained from `g` by `n` applications of `rotate_90`. -/
def rotate_n : Nat → Grid → Option Grid
  | 0, g => some g
  | k + 1, g => (rotate_90 g).bind (rotate_n k)

/-- The interpretation of the `double` arithmetic by exact rational arithmetic
(exponents and square roots rounded down), with truncation toward zero as the
conversion to `int`. -/
def exactModel : FloatModel :=
  { D := ℚ,
    ofInt := fun n => (n : ℚ),
    add := fun x y => x + y,
    sub := fun x y => x - y,
    mul := fun x y => x * y,
    div := fun x y => x / y,
    pow := fun x y => x ^ (Rat.floor y).toNat,
    sqrt := fun x => (Nat.sqrt (x.num.toNat * x.den) : ℚ) / (x.den : ℚ),
    toInt := fun x => Int.tdiv x.num (x.den : Int) }

/-- A complete 58-byte 1 x 1 bitmap whose pixel is the grey (127, 127, 127). -/
def grayFile : List Byte :=
  [66, 77, 58, 0, 0, 0, 0, 0, 0, 0, 54, 0, 0, 0, 40, 0, 0, 0, 1, 0, 0, 0, 1, 0, 0, 0, 1, 0, 24, 0,
   0, 0, 0, 0, 4, 0, 0, 0, 19, 11, 0, 0, 19, 11, 0, 0, 0, 0, 0, 0, 0, 0, 0, 0, 127, 127, 127, 0]

/-- A grid of 65537 rows of one pixel each. -/
def tallGrid : Grid := [⟨1, 1, 1⟩] :: List.replicate 65536 [⟨1, 1, 1⟩]

/-- A 54-byte file, headers only, that declares 54 bytes, a pixel-array offset
of 54 and one row of `2 ^ 30` pixels of 32 bits: the scan-line size
`2 ^ 30 * 4` is 0 as an `int`. -/
def overflowFile : List Byte :=
  [66, 77, 54, 0, 0, 0, 0, 0, 0, 0, 54, 0, 0, 0, 40, 0, 0, 0, 0, 0, 0, 64, 1, 0, 0, 0, 1, 0, 32, 0,
   0, 0, 0, 0, 0, 0, 0, 0, 19, 11, 0, 0, 19, 11, 0, 0, 0, 0, 0, 0, 0, 0, 0, 0]

/-! ## Faithful floating point -/

/-- The conversion of a rational value to `int`: truncation toward zero. -/
def truncQ (q : ℚ) : Int := Int.tdiv q.num (q.den : Int)

/-- What the `double` arithmetic of IEEE 754 guarantees for values of `int`
size, stated for an interpretation `F` through the value `val x` of each
`double`: an `int` is converted exactly; no operation rounds across an `int`
(when the exact result of an operation lies between two `int` values, so does
the computed result); and the conversion to `int` truncates toward zero. -/
structure Faithful (F : FloatModel) (val : F.D → ℚ) : Prop where
  ofInt_val : ∀ n : Int, -2147483648 ≤ n → n < 2147483648 → val (F.ofInt n) = (n : ℚ)
  add_between : ∀ (x y : F.D) (a b : Int), -2147483648 ≤ a → b < 2147483648 →
    (a : ℚ) ≤ val x + val y → val x + val y ≤ (b : ℚ) →
    (a : ℚ) ≤ val (F.add x y) ∧ val (F.add x y) ≤ (b : ℚ)
  sub_between : ∀ (x y : F.D) (a b : Int), -2147483648 ≤ a → b < 2147483648 →
    (a : ℚ) ≤ val x - val y → val x - val y ≤ (b : ℚ) →
    (a : ℚ) ≤ val (F.sub x y) ∧ val (F.sub x y) ≤ (b : ℚ)
  mul_between : ∀ (x y : F.D) (a b : Int), -2147483648 ≤ a → b < 2147483648 →
    (a : ℚ) ≤ val x * val y → val x * val y ≤ (b : ℚ) →
    (a : ℚ) ≤ val (F.mul x y) ∧ val (F.mul x y) ≤ (b : ℚ)
  div_between : ∀ (x y : F.D) (a b : Int), -2147483648 ≤ a → b < 2147483648 →
    val y ≠ 0 → (a : ℚ) ≤ val x / val y → val x / val y ≤ (b : ℚ) →
    (a : ℚ) ≤ val (F.div x y) ∧ val (F.div x y) ≤ (b : ℚ)
  pow_two_between : ∀ (x y : F.D) (a b : Int), -2147483648 ≤ a → b < 2147483648 →
    val y = 2 → (a : ℚ) ≤ val x ^ 2 → val x ^ 2 ≤ (b : ℚ) →
    (a : ℚ) ≤ val (F.pow x y) ∧ val (F.pow x y) ≤ (b : ℚ)
  sqrt_between : ∀ (x : F.D) (a b : Int), 0 ≤ a → 0 ≤ b → b < 2147483648 →
    (a : ℚ) ^ 2 ≤ val x → val x ≤ (b : ℚ) ^ 2 →
    (a : ℚ) ≤ val (F.sqrt x) ∧ val (F.sqrt x) ≤ (b : ℚ)
  toInt_val : ∀ x : F.D, (-2147483648 : ℚ) ≤ val x → val x < 2147483648 →
    F.toInt x = truncQ (val x)

/-- Every channel of `p` is at most the same channel of `q`. -/
def Pixel.le (p q : Pixel) : Prop :=
  p.red ≤ q.red ∧ p.green ≤ q.green ∧ p.blue ≤ q.blue

/-- A row of ten white pixels. -/
def vignetteGrid : Grid :=
  [[⟨255, 255, 255⟩, ⟨255, 255, 255⟩, ⟨255, 255, 255⟩, ⟨255, 255, 255⟩, ⟨255, 255, 255⟩,
    ⟨255, 255, 255⟩, ⟨255, 255, 255⟩, ⟨255, 255, 255⟩, ⟨255, 255, 255⟩, ⟨255, 255, 255⟩]]

/-- The 86-byte bitmap of `vignetteGrid`. -/
def vignetteFile : List Byte :=
  [66, 77, 86, 0, 0, 0, 0, 0, 0, 0, 54, 0, 0, 0, 40, 0, 0, 0, 10, 0, 0, 0, 1, 0, 0, 0, 1, 0, 24, 0,
   0, 0, 0, 0, 32, 0, 0, 0, 19, 11, 0, 0, 19, 11, 0, 0, 0, 0, 0, 0, 0, 0, 0, 0,
   255, 255, 255, 255, 255, 255, 255, 255, 255, 255, 255, 255, 255, 255, 255,
   255, 255, 255, 255, 255, 255, 255, 255, 255, 255, 255, 255, 255, 255, 255, 0, 0]

/-! ## More sample files -/

/-- A 54-byte file, headers only, that declares 54 bytes, a pixel-array offset
of 54, one row of `2 ^ 20` pixels and 32768 bits per pixel: the scan-line size
`2 ^ 20 * 4096` is 0 as an `int`. -/
def wrapFile : List Byte :=
  [66, 77, 54, 0, 0, 0, 0, 0, 0, 0, 54, 0, 0, 0, 40, 0, 0, 0, 0, 0, 16, 0, 1, 0, 0, 0, 1, 0, 0, 128,
   0, 0, 0, 0, 0, 0, 0, 0, 19, 11, 0, 0, 19, 11, 0, 0, 0, 0, 0, 0, 0, 0, 0, 0]

/-- A 60-byte file: a complete 1 x 1 bitmap, laid out on 58 bytes, whose header
declares 57 bytes, followed by two more bytes. -/
def misdeclaredLongFile : List Byte :=
  [66, 77, 57, 0, 0, 0, 0, 0, 0, 0, 54, 0, 0, 0, 40, 0, 0, 0, 1, 0, 0, 0, 1, 0, 0, 0, 1, 0, 24, 0,
   0, 0, 0, 0, 4, 0, 0, 0, 19, 11, 0, 0, 19, 11, 0, 0, 0, 0, 0, 0, 0, 0, 0, 0, 3, 2, 1, 0, 9, 9]

/-- A 60-byte file: a complete 58-byte 1 x 1 bitmap that declares 58 bytes,
followed by two trailing bytes. -/
def trailingFile : List Byte :=
  [66, 77, 58, 0, 0, 0, 0, 0, 0, 0, 54, 0, 0, 0, 40, 0, 0, 0, 1, 0, 0, 0, 1, 0, 0, 0, 1, 0, 24, 0,
   0, 0, 0, 0, 4, 0, 0, 0, 19, 11, 0, 0, 19, 11, 0, 0, 0, 0, 0, 0, 0, 0, 0, 0, 3, 2, 1, 0, 9, 9]

/-- A 66-byte 1 x 3 bitmap: a light grey, a dark grey and a middle grey pixel. -/
def toneFile : List Byte :=
  [66, 77, 66, 0, 0, 0, 0, 0, 0, 0, 54, 0, 0, 0, 40, 0, 0, 0, 3, 0, 0, 0, 1, 0, 0, 0, 1, 0, 24, 0,
   0, 0, 0, 0, 12, 0, 0, 0, 19, 11, 0, 0, 19, 11, 0, 0, 0, 0, 0, 0, 0, 0, 0, 0,
   201, 201, 201, 40, 40, 40, 127, 127, 127, 0, 0, 0]

/-- The image of `toneFile`. -/
def toneGrid : Grid := [[⟨201, 201, 201⟩, ⟨40, 40, 40⟩, ⟨127, 127, 127⟩]]
/-! ## Lemmas: machine integers and loops -/

theorem wrap32_of_range {x : Int} (h1 : -2147483648 ≤ x) (h2 : x < 2147483648) :
    wrap32 x = x := by
  unfold wrap32; omega

theorem wrap32_emod (x : Int) : wrap32 x % 4294967296 = x % 4294967296 := by
  unfold wrap32; omega

theorem wrap32_congr {a b : Int} (h : a % 4294967296 = b % 4294967296) :
    wrap32 a = wrap32 b := by
  unfold wrap32; omega

theorem wrap32_range (x : Int) : -2147483648 ≤ wrap32 x ∧ wrap32 x < 2147483648 := by
  unfold wrap32; omega

theorem wrap32_add_left (a b : Int) : wrap32 (wrap32 a + b) = wrap32 (a + b) := by
  unfold wrap32; omega

theorem wrap32_add_right (a b : Int) : wrap32 (a + wrap32 b) = wrap32 (a + b) := by
  unfold wrap32; omega

theorem wrap32_mul_left (a b : Int) : wrap32 (wrap32 a * b) = wrap32 (a * b) := by
  apply wrap32_congr
  rw [Int.mul_emod, wrap32_emod, ← Int.mul_emod]

theorem wrap32_mul_right (a b : Int) : wrap32 (a * wrap32 b) = wrap32 (a * b) := by
  apply wrap32_congr
  rw [Int.mul_emod, wrap32_emod, ← Int.mul_emod]

theorem tmod_eq_ite (x : Int) (d : Nat) :
    Int.tmod x (d : Int) = if 0 ≤ x then x % (d : Int) else -((-x) % (d : Int)) := by
  cases x with
  | ofNat m =>
    have h : (0 : Int) ≤ Int.ofNat m := Int.ofNat_nonneg m
    rw [if_pos h]
    exact Int.tmod_eq_emod h (Int.ofNat_nonneg d)
  | negSucc m =>
    have h : ¬ (0 : Int) ≤ Int.negSucc m := by simp
    rw [if_neg h]
    rfl

theorem tmod_four (x : Int) :
    Int.tmod x 4 = if 0 ≤ x then x % 4 else -((-x) % 4) := tmod_eq_ite x 4

theorem forUp_zero {σ : Type} (body : Nat → σ → σ) (st : σ) : forUp 0 body st = st := rfl

theorem forUp_succ {σ : Type} (n : Nat) (body : Nat → σ → σ) (st : σ) :
    forUp (n + 1) body st = body n (forUp n body st) := by
  simp [forUp, List.range_succ, List.foldl_append]

theorem forUpM_zero {σ : Type} (body : Nat → σ → Option σ) (st : σ) :
    forUpM 0 body st = some st := rfl

theorem forUpM_succ {σ : Type} (n : Nat) (body : Nat → σ → Option σ) (st : σ) :
    forUpM (n + 1) body st = (forUpM n body st).bind (body n) := by
  simp [forUpM, List.range_succ, List.foldlM_append]

/-! ## Lemmas: the input stream -/

theorem StreamAt.ok {bs : List Byte} {m : Nat} {s : IStream} (h : StreamAt bs m s) :
    StreamOk bs m s := ⟨h.1, h.2.1⟩

theorem StreamOk.mono {bs : List Byte} {m n : Nat} {s : IStream} (h : StreamOk bs m s)
    (hmn : m ≤ n) : StreamOk bs n s := ⟨h.1, fun hf => Nat.lt_of_lt_of_le (h.2 hf) hmn⟩

theorem streamOk_openFile (bs : List Byte) : StreamOk bs 0 (IStream.openFile (some bs)) := by
  simp [StreamOk, IStream.openFile]

theorem streamAt_seekg {bs : List Byte} {m o : Nat} {s : IStream} (h : StreamOk bs m s)
    (hmo : m ≤ o) : StreamAt bs o (s.seekg (o : Int)) := by
  obtain ⟨hd, hf⟩ := h
  unfold IStream.seekg
  have hneg : ¬ ((o : Int) < 0) := by omega
  cases hfail : s.fail
  · simp [StreamAt, hd, hneg]
  · simp only [if_true]
    exact ⟨hd, fun _ => Nat.lt_of_lt_of_le (hf hfail) hmo, fun h' => by simp [hfail] at h'⟩

theorem streamAt_get {bs : List Byte} {m : Nat} {s : IStream} (h : StreamAt bs m s) :
    s.get.1 = byteOrEof bs m ∧ StreamAt bs (m + 1) s.get.2 := by
  obtain ⟨hd, hf, hp⟩ := h
  unfold IStream.get
  cases hfail : s.fail
  · have hpos := hp hfail
    simp only [Bool.false_eq_true, if_false]
    subst hd hpos
    cases hb : s.data[s.pos]? with
    | some b => simp [byteOrEof, hb, StreamAt, hfail]
    | none =>
      have : s.data.length ≤ s.pos := by simpa using hb
      simp [byteOrEof, hb, StreamAt]; omega
  · have hlen := hf hfail
    have hnone : bs[m]? = none := by simp; omega
    simp only [if_true]
    refine ⟨by simp [byteOrEof, hnone], hd, fun _ => by omega, fun h' => by simp [hfail] at h'⟩

theorem get_int_loop (bs : List Byte) (o : Nat) (s : IStream) (hs : StreamAt bs o s) (n : Nat) :
    (forUp n (fun _ st => get_int_step st) ⟨0, 1, s⟩).result = wrap32 (leSum bs o n) ∧
    (forUp n (fun _ st => get_int_step st) ⟨0, 1, s⟩).base = wrap32 (256 ^ n) ∧
    StreamAt bs (o + n) (forUp n (fun _ st => get_int_step st) ⟨0, 1, s⟩).stream := by
  induction n with
  | zero => exact ⟨rfl, rfl, hs⟩
  | succ n ih =>
    rw [forUp_succ]
    generalize forUp n (fun _ st => get_int_step st) ⟨0, 1, s⟩ = st at ih
    obtain ⟨hr, hb, hst⟩ := ih
    obtain ⟨hg, hst1⟩ := streamAt_get hst
    refine ⟨?_, ?_, ?_⟩
    · simp only [get_int_step, hr, hb, hg, leSum]
      rw [wrap32_mul_right, wrap32_add_right, wrap32_add_left]
    · simp only [get_int_step, hb]
      rw [wrap32_mul_left, pow_succ]
    · simpa [get_int_step, Nat.add_assoc] using hst1

/-- What `get_int` returns on a stream that has not failed before `o`. -/
theorem get_int_eq {bs : List Byte} {m : Nat} {s : IStream} (hs : StreamOk bs m s)
    (o k : Nat) (hmo : m ≤ o) :
    (get_int s (o : Int) (k : Int)).1 = wrap32 (leSum bs o k) ∧
    StreamOk bs (o + k) (get_int s (o : Int) (k : Int)).2 := by
  have h := get_int_loop bs o (s.seekg (o : Int)) (streamAt_seekg hs hmo) k
  simp only [get_int, Int.toNat_ofNat]
  exact ⟨h.1, h.2.2.ok⟩

/-! ## Lemmas: the header reads of `read_image` -/

theorem field_eq (bs : List Byte) (o k : Nat) :
    field bs (o : Int) (k : Int) = wrap32 (leSum bs o k) :=
  (get_int_eq (streamOk_openFile bs) o k (Nat.zero_le o)).1

/-- The header reads of `read_image` agree with reads from a fresh stream, and
leave a stream that has failed only if the file has fewer than 30 bytes. -/
theorem read_image_eq (bs : List Byte) :
    ∃ s : IStream, StreamOk bs 30 s ∧
      read_image (some bs) =
        if (header bs).file_size ≠ (header bs).layout_size then some []
        else if (header bs).width < 0 ∨ (header bs).height < 0 then none
        else some (read_pixels (header bs) s) := by
  have h0 := streamOk_openFile bs
  have h1 := get_int_eq h0 2 4 (by omega)
  have h2 := get_int_eq h1.2 10 4 (by omega)
  have h3 := get_int_eq h2.2 18 4 (by omega)
  have h4 := get_int_eq h3.2 22 4 (by omega)
  have h5 := get_int_eq h4.2 28 2 (by omega)
  have f1 := field_eq bs 2 4
  have f2 := field_eq bs 10 4
  have f3 := field_eq bs 18 4
  have f4 := field_eq bs 22 4
  have f5 := field_eq bs 28 2
  simp only [Nat.cast_ofNat] at h1 h2 h3 h4 h5 f1 f2 f3 f4 f5
  refine ⟨_, h5.2, ?_⟩
  simp only [read_image, header, Header.layout_size, Header.scanline_size, Header.padding,
    read_pixels, f1, f2, f3, f4, f5, h1.1, h2.1, h3.1, h4.1, h5.1]

/-! ## Lemmas: the little-endian integer codec -/

theorem leSum_eq_sum (bs : List Byte) (o k : Nat) :
    leSum bs o k = ∑ i ∈ Finset.range k, byteOrEof bs (o + i) * 256 ^ i := by
  induction k with
  | zero => simp [leSum]
  | succ k ih => rw [leSum, ih, Finset.sum_range_succ]

theorem byteOrEof_of_lt {bs : List Byte} {p : Nat} (h : p < bs.length) :
    byteOrEof bs p = ((bs.getD p 0).val : Int) := by
  simp [byteOrEof, List.getD, List.getElem?_eq_getElem h]

theorem byteOrEof_of_le {bs : List Byte} {p : Nat} (h : bs.length ≤ p) :
    byteOrEof bs p = -1 := by
  simp [byteOrEof, List.getElem?_eq_none h]

theorem byteOrEof_of_getElem? {bs : List Byte} {p : Nat} {b : Byte} (h : bs[p]? = some b) :
    byteOrEof bs p = (b.val : Int) := by
  simp [byteOrEof, h]

theorem byteOrEof_range {bs : List Byte} {p : Nat} (h : p < bs.length) :
    0 ≤ byteOrEof bs p ∧ byteOrEof bs p < 256 := by
  rw [byteOrEof_of_lt h]; omega

theorem set_bytes_succ (arr : List Byte) (o k : Nat) (v : Int) :
    set_bytes arr (o : Int) ((k + 1 : Nat) : Int) v =
      (set_bytes arr (o : Int) (k : Int) v).set (o + k) (toUChar (v >>> (k * 8))) := by
  simp only [set_bytes, Int.toNat_ofNat, forUp_succ]
  congr 1

theorem length_set_bytes (arr : List Byte) (o k : Nat) (v : Int) :
    (set_bytes arr (o : Int) (k : Int) v).length = arr.length := by
  induction k with
  | zero => simp [set_bytes, forUp_zero]
  | succ k ih => rw [set_bytes_succ, List.length_set, ih]

theorem getElem?_set_bytes (arr : List Byte) (o k : Nat) (v : Int) (j : Nat) :
    (set_bytes arr (o : Int) (k : Int) v)[j]? =
      if o ≤ j ∧ j < o + k ∧ j < arr.length then some (toUChar (v >>> ((j - o) * 8)))
      else arr[j]? := by
  induction k with
  | zero =>
    have : ¬ (o ≤ j ∧ j < o ∧ j < arr.length) := by omega
    simp [set_bytes, forUp_zero, this]
  | succ k ih =>
    rw [set_bytes_succ, List.getElem?_set, length_set_bytes, ih]
    by_cases hj : o + k = j
    · subst hj
      by_cases hl : o + k < arr.length
      · have : o ≤ o + k ∧ o + k < o + (k + 1) ∧ o + k < arr.length := by omega
        simp [hl, this]
      · have h1 : ¬ (o ≤ o + k ∧ o + k < o + (k + 1) ∧ o + k < arr.length) := by omega
        have h2 : arr[o + k]? = none := List.getElem?_eq_none (by omega)
        simp [hl, h1, h2]
    · have : (o ≤ j ∧ j < o + (k + 1) ∧ j < arr.length) ↔ (o ≤ j ∧ j < o + k ∧ j < arr.length) := by
        omega
      simp [hj, this]

theorem toUChar_shift_nat (n s : Nat) :
    ((toUChar ((n : Int) >>> (s * 8))).val : Int) = ((n / 256 ^ s % 256 : Nat) : Int) := by
  have hp : (2 : Nat) ^ (s * 8) = 256 ^ s := by
    rw [Nat.mul_comm, pow_mul]; norm_num
  simp only [toUChar, Int.shiftRight_eq_div_pow, hp]
  norm_cast

theorem sum_digits (n k : Nat) :
    ∑ i ∈ Finset.range k, ((n / 256 ^ i % 256 : Nat) : Int) * 256 ^ i = ((n % 256 ^ k : Nat) : Int) := by
  induction k with
  | zero => simp [Nat.mod_one]
  | succ k ih =>
    rw [Finset.sum_range_succ, ih, Nat.mod_pow_succ]
    push_cast
    ring

/-- The little-endian sum of the bytes that `set_bytes` wrote is the value
reduced modulo `256 ^ k`. -/
theorem leSum_set_bytes (arr : List Byte) (o k n : Nat) (hlen : o + k ≤ arr.length) :
    leSum (set_bytes arr (o : Int) (k : Int) (n : Int)) o k = ((n % 256 ^ k : Nat) : Int) := by
  rw [leSum_eq_sum, ← sum_digits]
  apply Finset.sum_congr rfl
  intro i hi
  have hik : i < k := Finset.mem_range.mp hi
  have hc : o ≤ o + i ∧ o + i < o + k ∧ o + i < arr.length := by omega
  have hg := getElem?_set_bytes arr o k (n : Int) (o + i)
  rw [if_pos hc] at hg
  rw [byteOrEof_of_getElem? hg]
  have : o + i - o = i := by omega
  rw [this, toUChar_shift_nat]

/-! ## Lemmas: grids -/

theorem pixelAt_updPixel (g : Grid) (i j : Nat) (f : Pixel → Pixel) (i' j' : Nat) :
    pixelAt (updPixel g i j f) i' j' =
      (pixelAt g i' j').map (fun p => if i' = i ∧ j' = j then f p else p) := by
  have key : ∀ (o : Option Pixel), (∀ p, o = some p → ¬ (i' = i ∧ j' = j)) →
      o = o.map (fun p => if i' = i ∧ j' = j then f p else p) := by
    intro o ho
    cases o with
    | none => rfl
    | some p => simp [ho p rfl]
  cases hi : g[i]? with
  | none =>
    simp only [updPixel, hi]
    apply key
    intro p hp hij
    obtain ⟨rfl, rfl⟩ := hij
    simp [pixelAt, hi] at hp
  | some row =>
    have hil : i < g.length := (List.getElem?_eq_some_iff.mp hi).1
    cases hj : row[j]? with
    | none =>
      simp only [updPixel, hi, hj]
      apply key
      intro p hp hij
      obtain ⟨rfl, rfl⟩ := hij
      simp [pixelAt, hi, hj] at hp
    | some p =>
      have hjl : j < row.length := (List.getElem?_eq_some_iff.mp hj).1
      simp only [updPixel, hi, hj, pixelAt, List.getElem?_set]
      by_cases hii : i = i'
      · subst hii
        simp only [if_true, hil, hi, List.getElem?_set]
        by_cases hjj : j = j'
        · subst hjj; simp [hjl, hj]
        · have : ¬ j' = j := fun h => hjj h.symm
          cases h2 : row[j']? <;> simp [hjj, this]
      · have : ¬ i' = i := fun h => hii h.symm
        simp only [hii, if_false]
        cases h1 : g[i']? with
        | none => simp
        | some row' => cases h2 : row'[j']? <;> simp [this]

theorem shape_updPixel {g : Grid} {h w : Nat} (hs : Shape g h w) (i j : Nat)
    (f : Pixel → Pixel) : Shape (updPixel g i j f) h w := by
  cases hi : g[i]? with
  | none => simp only [updPixel, hi]; exact hs
  | some row =>
    cases hj : row[j]? with
    | none => simp only [updPixel, hi, hj]; exact hs
    | some p =>
      simp only [updPixel, hi, hj]
      refine ⟨by simp [hs.1], ?_⟩
      intro r hr
      rcases List.mem_or_eq_of_mem_set hr with hmem | heq
      · exact hs.2 r hmem
      · subst heq
        rw [List.length_set]
        exact hs.2 row (List.getElem?_mem hi)

theorem shape_newImage (h w : Nat) : Shape (newImage h w) h w := by
  refine ⟨by simp [newImage], ?_⟩
  intro r hr
  rw [newImage, List.mem_replicate] at hr
  simp [hr.2]

theorem pixelAt_newImage (h w i j : Nat) :
    pixelAt (newImage h w) i j = if i < h ∧ j < w then some Pixel.zero else none := by
  simp only [pixelAt, newImage, List.getElem?_replicate]
  by_cases hi : i < h
  · by_cases hj : j < w
    · simp [hi, hj]
    · simp [hi, hj]; omega
  · simp [hi]

theorem pixelAt_isSome {g : Grid} {h w : Nat} (hs : Shape g h w) {i j : Nat} (hi : i < h)
    (hj : j < w) : ∃ p, pixelAt g i j = some p := by
  have hil : i < g.length := by rw [hs.1]; exact hi
  have hrow : (g[i]).length = w := hs.2 _ (List.getElem_mem _)
  refine ⟨(g[i])[j], ?_⟩
  simp [pixelAt, List.getElem?_eq_getElem hil, List.getElem?_eq_getElem (hrow ▸ hj)]

theorem pixelAt_eq_getElem {g : Grid} {i j : Nat} (hi : i < g.length) (hj : j < (g[i]).length) :
    pixelAt g i j = some ((g[i])[j]) := by
  simp [pixelAt, List.getElem?_eq_getElem hi, List.getElem?_eq_getElem hj]

/-- Two grids of one shape with the same pixels are equal. -/
theorem grid_ext {g g' : Grid} {h w : Nat} (hs : Shape g h w) (hs' : Shape g' h w)
    (hp : ∀ i j, i < h → j < w → pixelAt g i j = pixelAt g' i j) : g = g' := by
  apply List.ext_getElem (by rw [hs.1, hs'.1])
  intro i hi hi'
  have hr : (g[i]).length = w := hs.2 _ (List.getElem_mem _)
  have hr' : (g'[i]).length = w := hs'.2 _ (List.getElem_mem _)
  apply List.ext_getElem (by rw [hr, hr'])
  intro j hj hj'
  have := hp i j (by rw [← hs.1]; exact hi) (by rw [← hr]; exact hj)
  rw [pixelAt_eq_getElem hi hj, pixelAt_eq_getElem hi' hj'] at this
  exact Option.some.inj this

/-! ## Lemmas: the pixel loops of `read_image` -/

theorem seekg_live {bs : List Byte} {s : IStream} (hl : Live bs s) {off : Int} (h0 : 0 ≤ off) :
    s.seekg off = ⟨bs, off.toNat, false⟩ := by
  obtain ⟨hd, hf⟩ := hl
  have : ¬ off < 0 := by omega
  cases s
  simp_all [IStream.seekg]

theorem get_at (bs : List Byte) (p : Nat) (hp : p < bs.length) :
    (IStream.get ⟨bs, p, false⟩) = (byteOrEof bs p, ⟨bs, p + 1, false⟩) := by
  simp [IStream.get, byteOrEof, List.getElem?_eq_getElem hp]

theorem read_padding_range (x : Int) : 0 ≤ read_padding x ∧ read_padding x < 8 := by
  unfold read_padding
  rw [tmod_four]
  split <;> split <;> omega

theorem seekgCur_live {bs : List Byte} {s : IStream} (hl : Live bs s) {off : Int}
    (h0 : 0 ≤ off) : Live bs (s.seekgCur off) := by
  obtain ⟨hd, hf⟩ := hl
  have : ¬ ((s.pos : Int) + off < 0) := by omega
  simp [IStream.seekgCur, hf, this, Live, hd]

theorem pixelAt_some_lt {g : Grid} {h w : Nat} (hs : Shape g h w) {i j : Nat} {p : Pixel}
    (hp : pixelAt g i j = some p) : i < h ∧ j < w := by
  unfold pixelAt at hp
  cases hi : g[i]? with
  | none => simp [hi] at hp
  | some row =>
    simp only [hi] at hp
    have h1 := (List.getElem?_eq_some_iff.mp hi).1
    have h2 := (List.getElem?_eq_some_iff.mp hp).1
    have h3 := hs.2 row (List.getElem?_mem hi)
    rw [hs.1] at h1
    rw [h3] at h2
    exact ⟨h1, h2⟩

/-- One pixel read on a live stream whose three positions are inside the file. -/
theorem read_pixel_live {bs : List Byte} (b : Int) (i j : Nat) (st : ReadState)
    (hl : Live bs st.stream) (h0 : 0 ≤ st.pos) (h2 : st.pos + 2 < (bs.length : Int)) :
    Live bs (read_pixel b i j st).stream ∧
    (read_pixel b i j st).pos = wrap32 (st.pos + Int.tdiv b 8) ∧
    (∀ h w, Shape st.image h w → Shape (read_pixel b i j st).image h w) ∧
    ∀ i' j', pixelAt (read_pixel b i j st).image i' j' =
      (pixelAt st.image i' j').map
        (fun p => if i' = i ∧ j' = j then pixelFrom bs st.pos.toNat else p) := by
  have hs0 := seekg_live hl h0
  have g1 := get_at bs st.pos.toNat (by omega)
  have g2 := get_at bs (st.pos.toNat + 1) (by omega)
  have g3 := get_at bs (st.pos.toNat + 1 + 1) (by omega)
  refine ⟨?_, ?_, ?_, ?_⟩
  · simp [read_pixel, hs0, g1, g2, g3, Live]
  · simp [read_pixel]
  · intro h w hs
    simp only [read_pixel]
    exact shape_updPixel (shape_updPixel (shape_updPixel hs _ _ _) _ _ _) _ _ _
  · intro i' j'
    simp only [read_pixel, hs0, g1, g2, g3, pixelAt_updPixel, Option.map_map]
    congr 1
    funext p
    by_cases hc : i' = i ∧ j' = j
    · simp [hc, pixelFrom]
    · simp [hc]

/-- The column loop of `read_image` on a live stream, all positions of the row
inside the file. -/
theorem read_row_loop {bs : List Byte} (b : Int) (i w : Nat) (X : Int) (st : ReadState)
    (hl : Live bs st.stream) (hpos : st.pos = wrap32 X)
    (hb : ∀ j, j < w → 0 ≤ X + (j : Int) * Int.tdiv b 8 ∧
      X + (j : Int) * Int.tdiv b 8 + 2 < (bs.length : Int) ∧
      X + (j : Int) * Int.tdiv b 8 < 2147483648)
    (k : Nat) (hk : k ≤ w) :
    Live bs (forUp k (fun j acc => read_pixel b i j acc) st).stream ∧
    (forUp k (fun j acc => read_pixel b i j acc) st).pos = wrap32 (X + (k : Int) * Int.tdiv b 8) ∧
    (∀ h w', Shape st.image h w' →
      Shape (forUp k (fun j acc => read_pixel b i j acc) st).image h w') ∧
    ∀ i' j', pixelAt (forUp k (fun j acc => read_pixel b i j acc) st).image i' j' =
      (pixelAt st.image i' j').map
        (fun p => if i' = i ∧ j' < k then pixelFrom bs (X + (j' : Int) * Int.tdiv b 8).toNat
          else p) := by
  induction k with
  | zero =>
    refine ⟨hl, by simpa [forUp_zero] using hpos, fun h w' hs => hs, ?_⟩
    intro i' j'
    simp [forUp_zero]
  | succ k ih =>
    obtain ⟨il, ip, ish, ipx⟩ := ih (by omega)
    rw [forUp_succ]
    generalize forUp k (fun j acc => read_pixel b i j acc) st = sk at il ip ish ipx
    obtain ⟨hb0, hb2, hb3⟩ := hb k (by omega)
    have hsk : sk.pos = X + (k : Int) * Int.tdiv b 8 := by
      rw [ip]; exact wrap32_of_range (by omega) hb3
    obtain ⟨rl, rp, rsh, rpx⟩ := read_pixel_live b i k sk il (by omega) (by omega)
    refine ⟨rl, ?_, fun h w' hs => rsh h w' (ish h w' hs), ?_⟩
    · rw [rp, hsk]
      congr 1
      push_cast
      ring
    · intro i' j'
      rw [rpx, ipx, Option.map_map, hsk]
      congr 1
      funext p
      simp only [Function.comp]
      by_cases hi : i' = i
      · by_cases hj : j' = k
        · subst hj; simp [hi]
        · by_cases hj' : j' < k
          · have : j' < k + 1 := by omega
            simp [hi, hj, hj', this]
          · have : ¬ j' < k + 1 := by omega
            simp [hi, hj, hj', this]
      · simp [hi]

/-- One run of the row-loop body of `read_image` on a live stream. -/
theorem read_row_live {bs : List Byte} (b pad : Int) (i w : Nat) (X : Int) (st : ReadState)
    (hl : Live bs st.stream) (hpos : st.pos = wrap32 X) (hpad : 0 ≤ pad)
    (hb : ∀ j, j < w → 0 ≤ X + (j : Int) * Int.tdiv b 8 ∧
      X + (j : Int) * Int.tdiv b 8 + 2 < (bs.length : Int) ∧
      X + (j : Int) * Int.tdiv b 8 < 2147483648) :
    Live bs (read_row b pad w i st).stream ∧
    (read_row b pad w i st).pos = wrap32 (X + ((w : Int) * Int.tdiv b 8 + pad)) ∧
    (∀ h w', Shape st.image h w' → Shape (read_row b pad w i st).image h w') ∧
    ∀ i' j', pixelAt (read_row b pad w i st).image i' j' =
      (pixelAt st.image i' j').map
        (fun p => if i' = i ∧ j' < w then pixelFrom bs (X + (j' : Int) * Int.tdiv b 8).toNat
          else p) := by
  obtain ⟨il, ip, ish, ipx⟩ := read_row_loop b i w X st hl hpos hb w (Nat.le_refl w)
  refine ⟨?_, ?_, ?_, ?_⟩
  · exact seekgCur_live il hpad
  · simp only [read_row, ip]
    rw [wrap32_add_left, Int.add_assoc]
  · exact ish
  · exact ipx

theorem forDown_succ {σ : Type} (k : Nat) (body : Nat → σ → σ) (st : σ) :
    forDown (k + 1) body st = forDown k body (body k st) := rfl

theorem shape_read_pixel (b : Int) (i j : Nat) (st : ReadState) {h w : Nat}
    (hs : Shape st.image h w) : Shape (read_pixel b i j st).image h w := by
  simp only [read_pixel]
  exact shape_updPixel (shape_updPixel (shape_updPixel hs _ _ _) _ _ _) _ _ _

theorem shape_read_row (b pad : Int) (w i : Nat) (st : ReadState) {h w' : Nat}
    (hs : Shape st.image h w') : Shape (read_row b pad w i st).image h w' := by
  have key : ∀ k, Shape (forUp k (fun j acc => read_pixel b i j acc) st).image h w' := by
    intro k
    induction k with
    | zero => exact hs
    | succ k ih => rw [forUp_succ]; exact shape_read_pixel b i k _ ih
  exact key w

theorem shape_read_rows (b pad : Int) (w : Nat) {h w' : Nat} (k : Nat) (st : ReadState)
    (hs : Shape st.image h w') : Shape (forDown k (read_row b pad w) st).image h w' := by
  induction k generalizing st with
  | zero => exact hs
  | succ k ih => rw [forDown_succ]; exact ih _ (shape_read_row b pad w k st hs)

/-- The row loop of `read_image` on a live stream, every pixel position inside
the file: each pixel of the image is replaced by the three bytes at its position. -/
theorem read_rows_loop (bs : List Byte) (b pad S : Int) (w h : Nat) (img0 : Grid)
    (hs0 : Shape img0 h w) (hpad : 0 ≤ pad)
    (hb : ∀ i j, i < h → j < w →
      0 ≤ S + ((h : Int) - 1 - (i : Int)) * ((w : Int) * Int.tdiv b 8 + pad)
        + (j : Int) * Int.tdiv b 8 ∧
      S + ((h : Int) - 1 - (i : Int)) * ((w : Int) * Int.tdiv b 8 + pad)
        + (j : Int) * Int.tdiv b 8 + 2 < (bs.length : Int) ∧
      S + ((h : Int) - 1 - (i : Int)) * ((w : Int) * Int.tdiv b 8 + pad)
        + (j : Int) * Int.tdiv b 8 < 2147483648)
    (k : Nat) (hk : k ≤ h) (st : ReadState) (hl : Live bs st.stream)
    (hpos : st.pos = wrap32 (S + ((h : Int) - (k : Int)) * ((w : Int) * Int.tdiv b 8 + pad)))
    (hpx : ∀ i' j', pixelAt st.image i' j' =
      (pixelAt img0 i' j').map (fun p => if k ≤ i' then
        pixelFrom bs (S + ((h : Int) - 1 - (i' : Int)) * ((w : Int) * Int.tdiv b 8 + pad)
          + (j' : Int) * Int.tdiv b 8).toNat else p)) :
    ∀ i' j', pixelAt (forDown k (read_row b pad w) st).image i' j' =
      (pixelAt img0 i' j').map (fun _ =>
        pixelFrom bs (S + ((h : Int) - 1 - (i' : Int)) * ((w : Int) * Int.tdiv b 8 + pad)
          + (j' : Int) * Int.tdiv b 8).toNat) := by
  induction k generalizing st with
  | zero =>
    intro i' j'
    show pixelAt st.image i' j' = _
    rw [hpx]
    simp
  | succ k ih =>
    rw [forDown_succ]
    have hX : ((h : Int) - ((k + 1 : Nat) : Int)) = (h : Int) - 1 - (k : Int) := by
      push_cast; ring
    rw [hX] at hpos
    obtain ⟨rl, rp, -, rpx⟩ := read_row_live b pad k w _ st hl hpos hpad (hb k · (by omega))
    apply ih (by omega) _ rl
    · rw [rp]
      congr 1
      ring
    · intro i' j'
      rw [rpx, hpx]
      cases hp : pixelAt img0 i' j' with
      | none => rfl
      | some p =>
        have hlt := pixelAt_some_lt hs0 hp
        simp only [Option.map_some']
        congr 1
        by_cases hi : i' = k
        · subst hi
          have h1 : ¬ (i' + 1 ≤ i') := by omega
          simp [hlt.2]
        · by_cases hi' : k + 1 ≤ i'
          · have : k ≤ i' := by omega
            simp [hi, hi', this]
          · have : ¬ k ≤ i' := by omega
            simp [hi, hi', this]

theorem pixelFrom_bytes (bs : List Byte) (p : Nat) (h : p + 2 < bs.length) :
    ∃ b0 b1 b2 : Byte, bs[p]? = some b0 ∧ bs[p + 1]? = some b1 ∧ bs[p + 2]? = some b2 ∧
      pixelFrom bs p = ⟨(b2.val : Int), (b1.val : Int), (b0.val : Int)⟩ := by
  refine ⟨bs[p], bs[p + 1], bs[p + 2], List.getElem?_eq_getElem _, List.getElem?_eq_getElem _,
    List.getElem?_eq_getElem _, ?_⟩
  simp [pixelFrom, byteOrEof, List.getElem?_eq_getElem, h, show p < bs.length by omega,
    show p + 1 < bs.length by omega]

/-- The pixels that `read_image` builds from a file with a complete header whose
pixel positions all lie inside the file. -/
theorem read_pixels_eq {bs : List Byte} {s : IStream} (hs : StreamOk bs 30 s)
    (hlen : 30 ≤ bs.length) (hw : 0 ≤ (header bs).width) (hh : 0 ≤ (header bs).height)
    (hin : (header bs).InFile bs.length) (i j : Nat) (hi : (i : Int) < (header bs).height)
    (hj : (j : Int) < (header bs).width) :
    pixelAt (read_pixels (header bs) s) i j =
      some (pixelFrom bs ((header bs).pixelPos i j).toNat) := by
  have hl : Live bs s := by
    refine ⟨hs.1, ?_⟩
    cases hf : s.fail with
    | false => rfl
    | true => have := hs.2 hf; omega
  have hwn : (((header bs).width.toNat : Nat) : Int) = (header bs).width := Int.toNat_of_nonneg hw
  have hhn : (((header bs).height.toNat : Nat) : Int) = (header bs).height :=
    Int.toNat_of_nonneg hh
  have hpad := (read_padding_range (header bs).scanline_size).1
  have key := read_rows_loop bs (header bs).bits_per_pixel (header bs).padding
    (header bs).start (header bs).width.toNat (header bs).height.toNat
    (newImage (header bs).height.toNat (header bs).width.toNat) (shape_newImage _ _) hpad
    (by
      intro i' j' hi' hj'
      have := hin i' j' (by omega) (by omega)
      simpa [Header.pixelPos, hwn, hhn] using this)
    (header bs).height.toNat (Nat.le_refl _)
    { stream := s, pos := (header bs).start,
      image := newImage (header bs).height.toNat (header bs).width.toNat }
    hl
    (by
      have hr : (header bs).start = wrap32 (leSum bs 10 4) := by
        have := field_eq bs 10 4
        simpa [header] using this
      simp only [Int.sub_self, Int.zero_mul, Int.add_zero]
      rw [hr, wrap32_of_range (wrap32_range _).1 (wrap32_range _).2])
    (by
      intro i' j'
      cases hp : pixelAt (newImage (header bs).height.toNat (header bs).width.toNat) i' j' with
      | none => rfl
      | some p =>
        have hlt := pixelAt_some_lt (shape_newImage _ _) hp
        have : ¬ ((header bs).height.toNat ≤ i') := by omega
        simp [this])
    i j
  have hi' : i < (header bs).height.toNat := by omega
  have hj' : j < (header bs).width.toNat := by omega
  simp only [read_pixels]
  rw [key, pixelAt_newImage, if_pos ⟨hi', hj'⟩]
  simp [Header.pixelPos, hwn, hhn]

/-! ## Lemmas: the encoder -/

theorem bmp_header_eq (v : Int) :
    bmp_header v =
      [66, 77, toUChar (wrap32 (54 + v) >>> (0 : Nat)), toUChar (wrap32 (54 + v) >>> (8 : Nat)),
        toUChar (wrap32 (54 + v) >>> (16 : Nat)), toUChar (wrap32 (54 + v) >>> (24 : Nat)),
        0, 0, 0, 0, 54, 0, 0, 0] := by
  have h54 : wrap32 (14 + 40) = 54 := by decide
  simp only [bmp_header, h54]
  simp [set_bytes, forUp, List.range, List.range.loop, List.replicate]
  repeat' constructor

theorem dib_header_eq (w h v : Int) :
    dib_header w h v =
      [40, 0, 0, 0,
        toUChar (w >>> (0 : Nat)), toUChar (w >>> (8 : Nat)), toUChar (w >>> (16 : Nat)),
        toUChar (w >>> (24 : Nat)),
        toUChar (h >>> (0 : Nat)), toUChar (h >>> (8 : Nat)), toUChar (h >>> (16 : Nat)),
        toUChar (h >>> (24 : Nat)),
        1, 0, 24, 0, 0, 0, 0, 0,
        toUChar (v >>> (0 : Nat)), toUChar (v >>> (8 : Nat)), toUChar (v >>> (16 : Nat)),
        toUChar (v >>> (24 : Nat)),
        19, 11, 0, 0, 19, 11, 0, 0, 0, 0, 0, 0, 0, 0, 0, 0] := by
  simp [dib_header, set_bytes, forUp, List.range, List.range.loop, List.replicate]
  repeat' constructor

theorem toUChar_shift (n s : Nat) :
    toUChar ((n : Int) >>> (s * 8)) = byteOf (n / 256 ^ s) := by
  apply Fin.ext
  have := toUChar_shift_nat n s
  simp only [byteOf]
  exact_mod_cast this

theorem le4_eq (n : Nat) :
    [toUChar ((n : Int) >>> (0 : Nat)), toUChar ((n : Int) >>> (8 : Nat)),
      toUChar ((n : Int) >>> (16 : Nat)), toUChar ((n : Int) >>> (24 : Nat))] = u32le n := by
  have h0 := toUChar_shift n 0
  have h1 := toUChar_shift n 1
  have h2 := toUChar_shift n 2
  have h3 := toUChar_shift n 3
  norm_num at h0 h1 h2 h3
  simp only [u32le]
  norm_num
  exact ⟨h0, h1, h2, h3⟩

theorem padding_bytes_eq (image : Grid) (w : Nat) (h0 : (image.headD []).length = w) :
    padding_bytes image = ((padNat w : Nat) : Int) := by
  simp only [padding_bytes, h0, padNat, wrap32, tmod_four]
  split_ifs <;> omega

theorem padNat_lt (w : Nat) : padNat w < 4 := by
  unfold padNat; omega

theorem padNat_row (w : Nat) : (3 * w + padNat w) % 4 = 0 := by
  unfold padNat; omega

theorem pixelBytes_append (a b : List Pixel) :
    pixelBytes (a ++ b) = pixelBytes a ++ pixelBytes b := by
  induction a with
  | nil => rfl
  | cons p ps ih => simp [pixelBytes, ih]

theorem length_pixelBytes (row : List Pixel) : (pixelBytes row).length = 3 * row.length := by
  induction row with
  | nil => rfl
  | cons p ps ih => simp [pixelBytes, ih]; omega

theorem pixelAt_of_row {image : Grid} {r : Nat} {row : List Pixel} (hr : image[r]? = some row)
    (c : Nat) : pixelAt image r c = row[c]? := by
  simp [pixelAt, hr]

/-- The column loop of `write_image` over the first `k` pixels of row `r`. -/
theorem write_pixels_eq {image : Grid} {r : Nat} {row : List Pixel} (hr : image[r]? = some row)
    (out : List Byte) (k : Nat) (hk : k ≤ row.length) :
    forUpM k (write_pixel image r) out = some (out ++ pixelBytes (row.take k)) := by
  induction k with
  | zero => simp [forUpM_zero, pixelBytes]
  | succ k ih =>
    have hlt : k < row.length := by omega
    rw [forUpM_succ, ih (by omega)]
    simp only [Option.some_bind, write_pixel, pixelAt_of_row hr, List.getElem?_eq_getElem hlt]
    rw [List.take_succ, List.getElem?_eq_getElem hlt, pixelBytes_append]
    simp [pixelBytes]

theorem write_row_eq {image : Grid} {r : Nat} {row : List Pixel} (hr : image[r]? = some row)
    (out : List Byte) (pad : Nat) :
    write_row image row.length (pad : Int) r out =
      some (out ++ (pixelBytes row ++ List.replicate pad (0 : Byte))) := by
  simp [write_row, write_pixels_eq hr out row.length (Nat.le_refl _)]

/-- The row loop of `write_image` over the first `k` rows, last row first. -/
theorem write_rows_eq {image : Grid} {h w : Nat} (hs : Shape image h w) (pad : Nat) (k : Nat)
    (hk : k ≤ h) (out : List Byte) :
    forDownM k (write_row image w (pad : Int)) out =
      some (out ++ rowsBytes pad (image.take k).reverse) := by
  induction k generalizing out with
  | zero => simp [forDownM, rowsBytes]
  | succ k ih =>
    have hlt : k < image.length := by rw [hs.1]; omega
    have hr : image[k]? = some image[k] := List.getElem?_eq_getElem hlt
    have hw : (image[k]).length = w := hs.2 _ (List.getElem_mem _)
    have hrow := write_row_eq hr out pad
    rw [hw] at hrow
    have ht : (image.take (k + 1)).reverse = image[k] :: (image.take k).reverse := by
      rw [List.take_succ, hr, List.reverse_append]
      rfl
    simp only [forDownM, hrow]
    rw [ih (by omega), ht]
    simp only [rowsBytes, List.append_assoc]

/-- The bytes that `write_image` writes for an image of `h ≥ 1` rows of `w`
pixels whose dimensions are `int` values. -/
theorem write_image_eq {image : Grid} {h w : Nat} (hs : Shape image h w) (hh : 0 < h)
    (hhb : h < 2147483648) (hwb : w < 2147483648) :
    write_image image =
      some (bmp_header (wrap32 (wrap32 (wrap32 ((w : Int) * 3) + (padNat w : Int)) * (h : Int))) ++
        dib_header (w : Int) (h : Int)
          (wrap32 (wrap32 (wrap32 ((w : Int) * 3) + (padNat w : Int)) * (h : Int))) ++
        rowsBytes (padNat w) image.reverse) := by
  cases image with
  | nil => simp [Shape] at hs; omega
  | cons row0 rest =>
    have hw0 : row0.length = w := hs.2 row0 (List.mem_cons_self _ _)
    have hlen : (row0 :: rest).length = h := hs.1
    have hpad := padding_bytes_eq (row0 :: rest) w (by simpa using hw0)
    have e1 : wrap32 (w : Int) = (w : Int) := wrap32_of_range (by omega) (by omega)
    have e2 : wrap32 (h : Int) = (h : Int) := wrap32_of_range (by omega) (by omega)
    have hrows := write_rows_eq hs (padNat w) h (Nat.le_refl h)
    have htake : (row0 :: rest).take h = row0 :: rest := by
      rw [← hlen]; exact List.take_length _
    simp only [write_image, hw0, hlen, hpad, e1, e2, Int.toNat_ofNat, hrows, htake]

theorem headers_eq (h w : Nat) (hh : 0 < h)
    (hsz : 54 + (3 * w + padNat w) * h < 2147483648) :
    bmp_header (wrap32 (wrap32 (wrap32 ((w : Int) * 3) + (padNat w : Int)) * (h : Int))) ++
        dib_header (w : Int) (h : Int)
          (wrap32 (wrap32 (wrap32 ((w : Int) * 3) + (padNat w : Int)) * (h : Int))) =
      headerBytes h w := by
  have hrow : 3 * w + padNat w ≤ (3 * w + padNat w) * h := Nat.le_mul_of_pos_right _ hh
  have e1 : wrap32 ((w : Int) * 3) = ((3 * w : Nat) : Int) := by
    rw [wrap32_of_range (by omega) (by omega)]; push_cast; ring
  have e2 : wrap32 (((3 * w : Nat) : Int) + (padNat w : Int)) = ((3 * w + padNat w : Nat) : Int) := by
    rw [wrap32_of_range (by omega) (by omega)]; push_cast; ring
  have e3 : wrap32 (((3 * w + padNat w : Nat) : Int) * (h : Int)) =
      (((3 * w + padNat w) * h : Nat) : Int) := by
    have : ((3 * w + padNat w : Nat) : Int) * (h : Int) = (((3 * w + padNat w) * h : Nat) : Int) := by
      push_cast; ring
    rw [this, wrap32_of_range (by omega) (by omega)]
  have e4 : wrap32 (54 + (((3 * w + padNat w) * h : Nat) : Int)) =
      ((54 + (3 * w + padNat w) * h : Nat) : Int) := by
    rw [wrap32_of_range (by omega) (by omega)]; push_cast; ring
  rw [e1, e2, e3, bmp_header_eq, dib_header_eq, e4]
  have c1 : u32le 54 = [54, 0, 0, 0] := by decide
  have c2 : u32le 40 = [40, 0, 0, 0] := by decide
  have c3 : u16le 1 = [1, 0] := by decide
  have c4 : u16le 24 = [24, 0] := by decide
  have c5 : u32le 0 = [0, 0, 0, 0] := by decide
  have c6 : u32le 2835 = [19, 11, 0, 0] := by decide
  simp only [headerBytes, c1, c2, c3, c4, c5, c6, ← le4_eq]
  rfl

theorem length_headers (w h v : Int) : (bmp_header v ++ dib_header w h v).length = 54 := by
  rw [bmp_header_eq, dib_header_eq]; rfl

theorem length_rowsBytes (pad w : Nat) (rows : List (List Pixel))
    (hw : ∀ row ∈ rows, row.length = w) :
    (rowsBytes pad rows).length = rows.length * (3 * w + pad) := by
  induction rows with
  | nil => simp [rowsBytes]
  | cons r rs ih =>
    have h1 : r.length = w := hw r (List.mem_cons_self _ _)
    have h2 := ih (fun row hrow => hw row (List.mem_cons_of_mem _ hrow))
    simp only [rowsBytes, List.length_append, length_pixelBytes, List.length_replicate, h1, h2,
      List.length_cons]
    ring

/-- The three bytes of pixel `c` of a row start at index `3 c`. -/
theorem getElem?_pixelBytes (row : List Pixel) (c : Nat) (p : Pixel) (hp : row[c]? = some p) :
    (pixelBytes row)[3 * c]? = some (toUChar p.blue) ∧
    (pixelBytes row)[3 * c + 1]? = some (toUChar p.green) ∧
    (pixelBytes row)[3 * c + 2]? = some (toUChar p.red) := by
  induction row generalizing c with
  | nil => simp at hp
  | cons q qs ih =>
    cases c with
    | zero =>
      simp only [List.getElem?_cons_zero, Option.some.injEq] at hp
      subst hp
      simp [pixelBytes]
    | succ c =>
      simp only [List.getElem?_cons_succ] at hp
      obtain ⟨h0, h1, h2⟩ := ih c hp
      have e0 : 3 * (c + 1) = 3 * c + 1 + 1 + 1 := by ring
      have e1 : 3 * (c + 1) + 1 = 3 * c + 1 + 1 + 1 + 1 := by ring
      have e2 : 3 * (c + 1) + 2 = 3 * c + 2 + 1 + 1 + 1 := by ring
      refine ⟨?_, ?_, ?_⟩
      · rw [e0]; simpa [pixelBytes] using h0
      · rw [e1]; simpa [pixelBytes] using h1
      · rw [e2]; simpa [pixelBytes] using h2

/-- Row `r` of an encoded pixel array starts at index `r * (3 w + pad)`. -/
theorem getElem?_rowsBytes (pad w : Nat) (rows : List (List Pixel))
    (hw : ∀ row ∈ rows, row.length = w) (r : Nat) (row : List Pixel) (hr : rows[r]? = some row)
    (t : Nat) (ht : t < 3 * w + pad) :
    (rowsBytes pad rows)[r * (3 * w + pad) + t]? =
      (pixelBytes row ++ List.replicate pad (0 : Byte))[t]? := by
  induction rows generalizing r with
  | nil => simp at hr
  | cons q qs ih =>
    have hq : q.length = w := hw q (List.mem_cons_self _ _)
    have hlen : (pixelBytes q ++ List.replicate pad (0 : Byte)).length = 3 * w + pad := by
      simp [length_pixelBytes, hq]
    cases r with
    | zero =>
      simp only [List.getElem?_cons_zero, Option.some.injEq] at hr
      subst hr
      simp only [rowsBytes, Nat.zero_mul, Nat.zero_add]
      rw [List.getElem?_append_left (by rw [hlen]; exact ht)]
    | succ r =>
      simp only [List.getElem?_cons_succ] at hr
      have := ih (fun row hrow => hw row (List.mem_cons_of_mem _ hrow)) r hr
      simp only [rowsBytes]
      rw [List.getElem?_append_right (by rw [hlen]; nlinarith), hlen, ← this]
      congr 1
      have : (r + 1) * (3 * w + pad) = r * (3 * w + pad) + (3 * w + pad) := by ring
      omega

theorem getElem?_reverse_row {image : Grid} {h : Nat} (hl : image.length = h) {r : Nat}
    (hr : r < h) : image.reverse[h - 1 - r]? = image[r]? := by
  rw [List.getElem?_reverse (by omega)]
  congr 1
  omega

/-- The file that `write_image` writes: 54 header bytes, then the rows from the
last to the first. -/
theorem write_image_bytes {image : Grid} {h w : Nat} (hs : Shape image h w) (hh : 0 < h)
    (hhb : h < 2147483648) (hwb : w < 2147483648) :
    ∃ H : List Byte, H.length = 54 ∧
      write_image image = some (H ++ rowsBytes (padNat w) image.reverse) ∧
      (54 + (3 * w + padNat w) * h < 2147483648 → H = headerBytes h w) :=
  ⟨_, length_headers _ _ _, write_image_eq hs hh hhb hwb, fun hsz => headers_eq h w hh hsz⟩

theorem shape_reverse {image : Grid} {h w : Nat} (hs : Shape image h w) :
    Shape image.reverse h w :=
  ⟨by rw [List.length_reverse, hs.1], fun row hrow => hs.2 row (List.mem_reverse.mp hrow)⟩

theorem length_encoded {image : Grid} {h w : Nat} (hs : Shape image h w) (H : List Byte)
    (hH : H.length = 54) :
    (H ++ rowsBytes (padNat w) image.reverse).length = 54 + (3 * w + padNat w) * h := by
  rw [List.length_append, hH, length_rowsBytes (padNat w) w image.reverse (shape_reverse hs).2,
    (shape_reverse hs).1, Nat.mul_comm]

/-- The byte of an encoded file at offset `t` of the file row that holds grid row `r`. -/
theorem encoded_row_byte {image : Grid} {h w : Nat} (hs : Shape image h w) (H : List Byte)
    (hH : H.length = 54) (r : Nat) (hr : r < h) (row : List Pixel) (hrow : image[r]? = some row)
    (t : Nat) (ht : t < 3 * w + padNat w) :
    (H ++ rowsBytes (padNat w) image.reverse)[54 + (h - 1 - r) * (3 * w + padNat w) + t]? =
      (pixelBytes row ++ List.replicate (padNat w) (0 : Byte))[t]? := by
  have hrev : image.reverse[h - 1 - r]? = some row := by
    rw [getElem?_reverse_row hs.1 hr, hrow]
  rw [List.getElem?_append_right (by rw [hH]; omega), hH]
  have : 54 + (h - 1 - r) * (3 * w + padNat w) + t - 54 = (h - 1 - r) * (3 * w + padNat w) + t := by
    omega
  rw [this]
  exact getElem?_rowsBytes (padNat w) w image.reverse (shape_reverse hs).2 _ row hrev t ht

/-- The three bytes of pixel `[r][c]` in an encoded file. -/
theorem encoded_pixel {image : Grid} {h w : Nat} (hs : Shape image h w) (H : List Byte)
    (hH : H.length = 54) (r c : Nat) (hr : r < h) (hc : c < w) (p : Pixel)
    (hp : pixelAt image r c = some p) :
    (H ++ rowsBytes (padNat w) image.reverse)[54 + (h - 1 - r) * (3 * w + padNat w) + 3 * c]? =
        some (toUChar p.blue) ∧
    (H ++ rowsBytes (padNat w) image.reverse)[54 + (h - 1 - r) * (3 * w + padNat w) + 3 * c + 1]? =
        some (toUChar p.green) ∧
    (H ++ rowsBytes (padNat w) image.reverse)[54 + (h - 1 - r) * (3 * w + padNat w) + 3 * c + 2]? =
        some (toUChar p.red) := by
  have hil : r < image.length := by rw [hs.1]; exact hr
  have hrow : image[r]? = some image[r] := List.getElem?_eq_getElem hil
  have hrl : (image[r]).length = w := hs.2 _ (List.getElem_mem _)
  have hpc : (image[r])[c]? = some p := by rw [← pixelAt_of_row hrow c]; exact hp
  obtain ⟨h0, h1, h2⟩ := getElem?_pixelBytes image[r] c p hpc
  have hlen : (pixelBytes image[r]).length = 3 * w := by rw [length_pixelBytes, hrl]
  have k0 := encoded_row_byte hs H hH r hr _ hrow (3 * c) (by omega)
  have k1 := encoded_row_byte hs H hH r hr _ hrow (3 * c + 1) (by omega)
  have k2 := encoded_row_byte hs H hH r hr _ hrow (3 * c + 2) (by omega)
  have a0 : (pixelBytes image[r] ++ List.replicate (padNat w) (0 : Byte))[3 * c]? =
      some (toUChar p.blue) := by
    rw [← h0]; exact List.getElem?_append_left (by omega)
  have a1 : (pixelBytes image[r] ++ List.replicate (padNat w) (0 : Byte))[3 * c + 1]? =
      some (toUChar p.green) := by
    rw [← h1]; exact List.getElem?_append_left (by omega)
  have a2 : (pixelBytes image[r] ++ List.replicate (padNat w) (0 : Byte))[3 * c + 2]? =
      some (toUChar p.red) := by
    rw [← h2]; exact List.getElem?_append_left (by omega)
  rw [a0] at k0
  rw [a1] at k1
  rw [a2] at k2
  exact ⟨k0, by rw [← k1]; congr 1, by rw [← k2]; congr 1⟩

/-- The padding bytes of every row of an encoded file are zero. -/
theorem encoded_padding {image : Grid} {h w : Nat} (hs : Shape image h w) (H : List Byte)
    (hH : H.length = 54) (r : Nat) (hr : r < h) (t : Nat) (ht : t < padNat w) :
    (H ++ rowsBytes (padNat w) image.reverse)[54 + (h - 1 - r) * (3 * w + padNat w) + 3 * w + t]? =
      some (0 : Byte) := by
  have hil : r < image.length := by rw [hs.1]; exact hr
  have hrow : image[r]? = some image[r] := List.getElem?_eq_getElem hil
  have hrl : (image[r]).length = w := hs.2 _ (List.getElem_mem _)
  have hlen : (pixelBytes image[r]).length = 3 * w := by rw [length_pixelBytes, hrl]
  have k := encoded_row_byte hs H hH r hr _ hrow (3 * w + t) (by omega)
  have a : (pixelBytes image[r] ++ List.replicate (padNat w) (0 : Byte))[3 * w + t]? =
      some (0 : Byte) := by
    have h1 : (pixelBytes image[r]).length ≤ 3 * w + t := by omega
    have h2 : 3 * w + t - 3 * w < padNat w := by omega
    rw [List.getElem?_append_right h1, hlen, List.getElem?_replicate, if_pos h2]
  rw [a] at k
  rw [← k]
  congr 1
  omega

/-- The file written for `wideGrid`: the width read as an `int` is negative, so
no pixel is written. -/
theorem write_image_wideGrid :
    write_image wideGrid =
      some (bmp_header (-2147483648) ++ dib_header (-2147483648) 1 (-2147483648)) := by
  have e1 : wrap32 ((2147483648 : Nat) : Int) = -2147483648 := by decide
  have hp : padding_bytes wideGrid = 0 := by
    simp only [padding_bytes, wideGrid, List.headD_cons, List.length_replicate, e1]
    decide
  unfold write_image
  simp only [wideGrid] at hp ⊢
  simp only [List.length_replicate, List.length_cons, List.length_nil, e1, hp]
  have e3 : wrap32 (wrap32 (-2147483648 * 3) + 0) = -2147483648 := by decide
  have e4 : wrap32 (((0 + 1 : Nat) : Int)) = 1 := by decide
  have e5 : wrap32 (-2147483648 * 1) = -2147483648 := by decide
  have e6 : Int.toNat 1 = 1 := by decide
  have e7 : Int.toNat (-2147483648) = 0 := by decide
  have e8 : Int.toNat 0 = 0 := by decide
  simp only [e3, e4, e5, e6, e7, e8, forDownM, write_row, forUpM_zero,
    List.replicate_zero, List.append_nil]

/-- The header bytes one by one. -/
theorem headerBytes_append (h w : Nat) (rest : List Byte) :
    headerBytes h w ++ rest =
      66 :: 77 :: byteOf (54 + (3 * w + padNat w) * h) ::
      byteOf ((54 + (3 * w + padNat w) * h) / 256) ::
      byteOf ((54 + (3 * w + padNat w) * h) / 65536) ::
      byteOf ((54 + (3 * w + padNat w) * h) / 16777216) ::
      0 :: 0 :: 0 :: 0 :: 54 :: 0 :: 0 :: 0 :: 40 :: 0 :: 0 :: 0 ::
      byteOf w :: byteOf (w / 256) :: byteOf (w / 65536) :: byteOf (w / 16777216) ::
      byteOf h :: byteOf (h / 256) :: byteOf (h / 65536) :: byteOf (h / 16777216) ::
      1 :: 0 :: 24 :: 0 :: 0 :: 0 :: 0 :: 0 ::
      byteOf ((3 * w + padNat w) * h) :: byteOf ((3 * w + padNat w) * h / 256) ::
      byteOf ((3 * w + padNat w) * h / 65536) :: byteOf ((3 * w + padNat w) * h / 16777216) ::
      19 :: 11 :: 0 :: 0 :: 19 :: 11 :: 0 :: 0 :: 0 :: 0 :: 0 :: 0 :: 0 :: 0 :: 0 :: 0 :: rest := by
  have c1 : u32le 54 = [54, 0, 0, 0] := by decide
  have c2 : u32le 40 = [40, 0, 0, 0] := by decide
  have c3 : u16le 1 = [1, 0] := by decide
  have c4 : u16le 24 = [24, 0] := by decide
  have c5 : u32le 0 = [0, 0, 0, 0] := by decide
  have c6 : u32le 2835 = [19, 11, 0, 0] := by decide
  simp only [headerBytes, c1, c2, c3, c4, c5, c6]
  simp only [u32le, List.cons_append, List.nil_append, List.append_assoc]

/-! ## Lemmas: decoding an encoded file -/

theorem byteOrEof_cons_zero (b : Byte) (bs : List Byte) :
    byteOrEof (b :: bs) 0 = (b.val : Int) := by
  simp [byteOrEof]

theorem byteOrEof_cons_succ (b : Byte) (bs : List Byte) (n : Nat) :
    byteOrEof (b :: bs) (n + 1) = byteOrEof bs n := by
  simp [byteOrEof]

theorem byteOf_sum (n : Nat) (hn : n < 2147483648) :
    wrap32 (0 + ((byteOf n).val : Int) * 256 ^ 0 + ((byteOf (n / 256)).val : Int) * 256 ^ 1 +
      ((byteOf (n / 65536)).val : Int) * 256 ^ 2 +
      ((byteOf (n / 16777216)).val : Int) * 256 ^ 3) = (n : Int) := by
  simp only [byteOf]
  rw [wrap32_of_range] <;> push_cast <;> omega

/-- The header fields that `read_image` reads from an encoded file. -/
theorem header_encoded (h w : Nat) (rest : List Byte) (hhb : h < 2147483648)
    (hwb : w < 2147483648) (hsz : 54 + (3 * w + padNat w) * h < 2147483648) :
    header (headerBytes h w ++ rest) =
      { file_size := ((54 + (3 * w + padNat w) * h : Nat) : Int), start := 54,
        width := (w : Int), height := (h : Int), bits_per_pixel := 24 } := by
  have f1 := field_eq (headerBytes h w ++ rest) 2 4
  have f2 := field_eq (headerBytes h w ++ rest) 10 4
  have f3 := field_eq (headerBytes h w ++ rest) 18 4
  have f4 := field_eq (headerBytes h w ++ rest) 22 4
  have f5 := field_eq (headerBytes h w ++ rest) 28 2
  simp only [Nat.cast_ofNat] at f1 f2 f3 f4 f5
  simp only [header, f1, f2, f3, f4, f5]
  simp only [leSum, headerBytes_append, Nat.add_zero, Nat.reduceAdd, byteOrEof_cons_succ,
    byteOrEof_cons_zero]
  have b1 := byteOf_sum (54 + (3 * w + padNat w) * h) hsz
  have b3 := byteOf_sum w hwb
  have b4 := byteOf_sum h hhb
  rw [b1, b3, b4]
  congr 1

theorem read_padding_eq (w : Nat) :
    read_padding ((3 * w : Nat) : Int) = ((padNat w : Nat) : Int) := by
  simp only [read_padding, padNat, tmod_four]
  split_ifs <;> omega

theorem toUChar_val_of_range {x : Int} (h0 : 0 ≤ x) (h1 : x ≤ 255) :
    ((toUChar x).val : Int) = x := by
  simp only [toUChar]
  omega

theorem inRange_of_pixelAt {g : Grid} (hr : ChannelsInRange g) {i j : Nat} {p : Pixel}
    (hp : pixelAt g i j = some p) : Pixel.InRange p := by
  unfold pixelAt at hp
  cases hi : g[i]? with
  | none => simp [hi] at hp
  | some row =>
    simp only [hi] at hp
    exact hr row (List.getElem?_mem hi) p (List.getElem?_mem hp)

/-- A file with the header of an `h` by `w` image of 24 bits per pixel and the
pixels of `g` at their positions decodes to `g`. -/
theorem read_image_of_layout (bytes : List Byte) {g : Grid} {h w : Nat} (hs : Shape g h w)
    (hh : 0 < h) (hsz : 54 + (3 * w + padNat w) * h < 2147483648)
    (hr : ChannelsInRange g) (hlen : bytes.length = 54 + (3 * w + padNat w) * h)
    (hd : header bytes =
      { file_size := ((54 + (3 * w + padNat w) * h : Nat) : Int), start := 54,
        width := (w : Int), height := (h : Int), bits_per_pixel := 24 })
    (hpx : ∀ (i j : Nat) (p : Pixel), i < h → j < w → pixelAt g i j = some p →
      bytes[54 + (h - 1 - i) * (3 * w + padNat w) + 3 * j]? = some (toUChar p.blue) ∧
      bytes[54 + (h - 1 - i) * (3 * w + padNat w) + 3 * j + 1]? = some (toUChar p.green) ∧
      bytes[54 + (h - 1 - i) * (3 * w + padNat w) + 3 * j + 2]? = some (toUChar p.red)) :
    read_image (some bytes) = some g := by
  have hrow : 3 * w + padNat w ≤ (3 * w + padNat w) * h := Nat.le_mul_of_pos_right _ hh
  have hscan : (header bytes).scanline_size =
      ((3 * w : Nat) : Int) := by
    have e : Int.tdiv 24 8 = 3 := by decide
    simp only [Header.scanline_size, hd, e]
    rw [wrap32_of_range (by omega) (by omega)]
    push_cast; ring
  have hpad : (header bytes).padding =
      ((padNat w : Nat) : Int) := by
    simp only [Header.padding, hscan, read_padding_eq]
  have hlay : (header bytes).layout_size =
      ((54 + (3 * w + padNat w) * h : Nat) : Int) := by
    have e1 : wrap32 (((3 * w : Nat) : Int) + ((padNat w : Nat) : Int)) =
        ((3 * w + padNat w : Nat) : Int) := by
      rw [wrap32_of_range (by omega) (by omega)]; push_cast; ring
    have e2 : wrap32 (((3 * w + padNat w : Nat) : Int) * (h : Int)) =
        (((3 * w + padNat w) * h : Nat) : Int) := by
      have : ((3 * w + padNat w : Nat) : Int) * (h : Int) =
          (((3 * w + padNat w) * h : Nat) : Int) := by push_cast; ring
      rw [this, wrap32_of_range (by omega) (by omega)]
    have e3 : wrap32 (54 + (((3 * w + padNat w) * h : Nat) : Int)) =
        ((54 + (3 * w + padNat w) * h : Nat) : Int) := by
      rw [wrap32_of_range (by omega) (by omega)]; push_cast; ring
    simp only [Header.layout_size, hscan, hpad, e1]
    simp only [hd, e2, e3]
  have hF : (header bytes).file_size =
      ((54 + (3 * w + padNat w) * h : Nat) : Int) := by rw [hd]
  have hS : (header bytes).start = 54 := by rw [hd]
  have hW : (header bytes).width = (w : Int) := by
    rw [hd]
  have hHt : (header bytes).height = (h : Int) := by
    rw [hd]
  have hB : (header bytes).bits_per_pixel = 24 := by
    rw [hd]
  have hpos : ∀ i j : Nat, i < h →
      (header bytes).pixelPos i j =
        ((54 + (h - 1 - i) * (3 * w + padNat w) + 3 * j : Nat) : Int) := by
    intro i j hi
    have e : Int.tdiv 24 8 = 3 := by decide
    have hk : ((h - 1 - i : Nat) : Int) = (h : Int) - 1 - (i : Int) := by omega
    simp only [Header.pixelPos, hS, hW, hHt, hB, hpad, e]
    push_cast
    rw [hk]
    ring
  have hbound : ∀ i j : Nat, i < h → j < w →
      54 + (h - 1 - i) * (3 * w + padNat w) + 3 * j + 2 < 54 + (3 * w + padNat w) * h := by
    intro i j hi hj
    have h1 : (h - 1 - i + 1) * (3 * w + padNat w) ≤ h * (3 * w + padNat w) :=
      Nat.mul_le_mul_right _ (by omega)
    rw [Nat.succ_mul] at h1
    have h2 : h * (3 * w + padNat w) = (3 * w + padNat w) * h := Nat.mul_comm _ _
    omega
  have hin : (header bytes).InFile
      bytes.length := by
    intro i j hi hj
    rw [hHt] at hi
    rw [hW] at hj
    have hi' : i < h := by omega
    have hj' : j < w := by omega
    have hb := hbound i j hi' hj'
    rw [hpos i j hi', hlen]
    omega
  obtain ⟨s, hs30, hread⟩ := read_image_eq bytes
  have hneg : ¬ ((header bytes).width < 0 ∨
      (header bytes).height < 0) := by
    rw [hW, hHt]; omega
  rw [if_neg (by rw [hF, hlay]; simp), if_neg hneg] at hread
  rw [hread]
  congr 1
  have hshape : Shape (read_pixels (header bytes) s)
      h w := by
    have := shape_read_rows
      (header bytes).bits_per_pixel
      (header bytes).padding
      (header bytes).width.toNat
      (header bytes).height.toNat
      { stream := s, pos := (header bytes).start,
        image := newImage (header bytes).height.toNat
          (header bytes).width.toNat }
      (shape_newImage _ _)
    simpa [read_pixels, hW, hHt] using this
  apply grid_ext hshape hs
  intro i j hi hj
  rw [read_pixels_eq hs30 (by rw [hlen]; omega) (by rw [hW]; omega) (by rw [hHt]; omega) hin i j
    (by rw [hHt]; omega) (by rw [hW]; omega)]
  obtain ⟨p, hp⟩ := pixelAt_isSome hs hi hj
  obtain ⟨k0, k1, k2⟩ := hpx i j p hi hj hp
  obtain ⟨⟨r0, r1⟩, ⟨g0, g1⟩, ⟨b0, b1⟩⟩ := inRange_of_pixelAt hr hp
  rw [hp, hpos i j hi, Int.toNat_ofNat]
  congr 1
  simp only [pixelFrom, byteOrEof, k0, k1, k2, toUChar_val_of_range r0 r1,
    toUChar_val_of_range g0 g1, toUChar_val_of_range b0 b1]

/-- Decoding the file that `write_image` writes gives the grid back. -/
theorem read_write {g : Grid} {h w : Nat} (hs : Shape g h w) (hh : 0 < h)
    (hhb : h < 2147483648) (hsz : 54 + (3 * w + padNat w) * h < 2147483648)
    (hr : ChannelsInRange g) :
    ∃ bytes : List Byte, write_image g = some bytes ∧ read_image (some bytes) = some g := by
  have hrow : 3 * w + padNat w ≤ (3 * w + padNat w) * h := Nat.le_mul_of_pos_right _ hh
  have hwb : w < 2147483648 := by omega
  obtain ⟨H, hH, hout, hhdr⟩ := write_image_bytes hs hh hhb hwb
  have hH' := hhdr hsz
  subst hH'
  refine ⟨_, hout, ?_⟩
  exact read_image_of_layout _ hs hh hsz hr (length_encoded hs _ hH)
    (header_encoded h w (rowsBytes (padNat w) g.reverse) hhb hwb hsz)
    (fun i j p hi hj hp => encoded_pixel hs (headerBytes h w) hH i j hi hj p hp)

theorem exists_pixelAt_of_mem {g : Grid} {row : List Pixel} {p : Pixel} (hrow : row ∈ g)
    (hp : p ∈ row) : ∃ i j, pixelAt g i j = some p := by
  obtain ⟨i, hi⟩ := List.getElem?_of_mem hrow
  obtain ⟨j, hj⟩ := List.getElem?_of_mem hp
  exact ⟨i, j, by simp [pixelAt, hi, hj]⟩

theorem field_range (bs : List Byte) (o k : Nat) :
    -2147483648 ≤ field bs (o : Int) (k : Int) ∧ field bs (o : Int) (k : Int) < 2147483648 := by
  rw [field_eq]; exact wrap32_range _

/-- A valid 24-bit file decodes to a grid that `write_image` accepts and whose
sizes fit. -/
theorem decode_valid24 (f : List Byte) (hv : Valid24 f) :
    ∃ g : Grid, read_image (some f) = some g ∧
      Shape g (header f).height.toNat (header f).width.toNat ∧ ChannelsInRange g ∧
      0 < (header f).height.toNat ∧ (header f).height.toNat < 2147483648 ∧
      54 + (3 * (header f).width.toNat + padNat (header f).width.toNat) *
        (header f).height.toNat < 2147483648 := by
  obtain ⟨hB, hw1, hh1, hS, hF, hL⟩ := hv
  have hfr : (header f).file_size < 2147483648 := by
    have := (field_range f 2 4).2
    simpa [header] using this
  obtain ⟨wn, hwn⟩ := Int.eq_ofNat_of_zero_le (show 0 ≤ (header f).width by omega)
  obtain ⟨hn, hhn⟩ := Int.eq_ofNat_of_zero_le (show 0 ≤ (header f).height by omega)
  have hwt : (header f).width.toNat = wn := by rw [hwn]; exact Int.toNat_ofNat wn
  have hht : (header f).height.toNat = hn := by rw [hhn]; exact Int.toNat_ofNat hn
  rw [hwt, hht]
  rw [hwt, hwn, hhn] at hF
  have hA : (3 * (wn : Int) + ((padNat wn : Nat) : Int)) * (hn : Int) =
      (((3 * wn + padNat wn) * hn : Nat) : Int) := by push_cast; ring
  rw [hA] at hF
  have hn1 : 0 < hn := by omega
  have hwn1 : 0 < wn := by omega
  have hrow : 3 * wn + padNat wn ≤ (3 * wn + padNat wn) * hn := Nat.le_mul_of_pos_right _ hn1
  have hcol : hn ≤ (3 * wn + padNat wn) * hn := Nat.le_mul_of_pos_left _ (by omega)
  have e : Int.tdiv 24 8 = 3 := by decide
  have hscan : (header f).scanline_size = ((3 * wn : Nat) : Int) := by
    simp only [Header.scanline_size, hB, hwn, e]
    rw [wrap32_of_range (by omega) (by omega)]
    push_cast; ring
  have hpad : (header f).padding = ((padNat wn : Nat) : Int) := by
    simp only [Header.padding, hscan, read_padding_eq]
  have hlay : (header f).layout_size = (header f).file_size := by
    have e1 : wrap32 (((3 * wn : Nat) : Int) + ((padNat wn : Nat) : Int)) =
        ((3 * wn + padNat wn : Nat) : Int) := by
      rw [wrap32_of_range (by omega) (by omega)]; push_cast; ring
    have e2 : wrap32 (((3 * wn + padNat wn : Nat) : Int) * (hn : Int)) =
        (((3 * wn + padNat wn) * hn : Nat) : Int) := by
      have : ((3 * wn + padNat wn : Nat) : Int) * (hn : Int) =
          (((3 * wn + padNat wn) * hn : Nat) : Int) := by push_cast; ring
      rw [this, wrap32_of_range (by omega) (by omega)]
    simp only [Header.layout_size, hscan, hpad, e1, hhn, e2]
    rw [wrap32_of_range (by omega) (by omega), hF]
  have hpos : ∀ i j : Nat, i < hn →
      (header f).pixelPos i j =
        (header f).start + (((hn - 1 - i) * (3 * wn + padNat wn) + 3 * j : Nat) : Int) := by
    intro i j hi
    have hk : ((hn - 1 - i : Nat) : Int) = (hn : Int) - 1 - (i : Int) := by omega
    simp only [Header.pixelPos, hwn, hhn, hB, hpad, e]
    push_cast
    rw [hk]
    ring
  have hbound : ∀ i j : Nat, i < hn → j < wn →
      (hn - 1 - i) * (3 * wn + padNat wn) + 3 * j + 2 < (3 * wn + padNat wn) * hn := by
    intro i j hi hj
    have h1 : (hn - 1 - i + 1) * (3 * wn + padNat wn) ≤ hn * (3 * wn + padNat wn) :=
      Nat.mul_le_mul_right _ (by omega)
    rw [Nat.succ_mul] at h1
    have h2 : hn * (3 * wn + padNat wn) = (3 * wn + padNat wn) * hn := Nat.mul_comm _ _
    omega
  have hin : (header f).InFile f.length := by
    intro i j hi hj
    rw [hhn] at hi
    rw [hwn] at hj
    have hi' : i < hn := by omega
    have hj' : j < wn := by omega
    have hb := hbound i j hi' hj'
    rw [hpos i j hi']
    omega
  obtain ⟨s, hs30, hread⟩ := read_image_eq f
  have hneg : ¬ ((header f).width < 0 ∨ (header f).height < 0) := by omega
  rw [if_neg (by rw [hlay]; simp), if_neg hneg] at hread
  have hshape : Shape (read_pixels (header f) s) hn wn := by
    have := shape_read_rows (header f).bits_per_pixel (header f).padding (header f).width.toNat
      (header f).height.toNat
      { stream := s, pos := (header f).start,
        image := newImage (header f).height.toNat (header f).width.toNat }
      (shape_newImage _ _)
    simpa [read_pixels, hwt, hht] using this
  refine ⟨_, hread, hshape, ?_, hn1, by omega, by omega⟩
  intro row hrow' p hp
  obtain ⟨i, j, hij⟩ := exists_pixelAt_of_mem hrow' hp
  obtain ⟨hi, hj⟩ := pixelAt_some_lt hshape hij
  rw [read_pixels_eq hs30 (by omega) (by omega) (by omega) hin i j (by omega) (by omega)] at hij
  have hb := hbound i j hi hj
  have hp0 := hpos i j hi
  obtain ⟨q, hq⟩ := Int.eq_ofNat_of_zero_le (show 0 ≤ (header f).pixelPos i j by omega)
  rw [hq, Int.toNat_ofNat] at hij
  have hql : q + 2 < f.length := by omega
  have r0 := @byteOrEof_range f q (by omega)
  have r1 := @byteOrEof_range f (q + 1) (by omega)
  have r2 := @byteOrEof_range f (q + 2) (by omega)
  rw [← Option.some.inj hij]
  simp only [Pixel.InRange, pixelFrom]
  omega

/-! ## Lemmas: rotation -/

/-- One step of the rotation loops on a target of the right shape. -/
theorem rotate_step_eq {image : Grid} {h w : Nat} (hs : Shape image h w)
    (hhb : h < 2147483648) {newimg : Grid} (hn : Shape newimg w h) (row col : Nat)
    (hr : row < h) (hc : col < w) :
    ∃ p, pixelAt image row col = some p ∧
      rotate_step image (h : Int) row col newimg =
        some (updPixel newimg col (h - 1 - row) (fun _ => p)) := by
  obtain ⟨p, hp⟩ := pixelAt_isSome hs hr hc
  obtain ⟨q, hq⟩ := pixelAt_isSome hn hc (show h - 1 - row < h by omega)
  have e : (wrap32 (wrap32 ((h : Int) - 1) - (row : Int))).toNat = h - 1 - row := by
    have e1 : wrap32 ((h : Int) - 1) = (h : Int) - 1 := wrap32_of_range (by omega) (by omega)
    have e2 : wrap32 ((h : Int) - 1 - (row : Int)) = (h : Int) - 1 - (row : Int) :=
      wrap32_of_range (by omega) (by omega)
    rw [e1, e2]
    omega
  exact ⟨p, hp, by simp only [rotate_step, hp, e, hq]⟩

/-- The inner rotation loop for source row `r`, after `k` columns. -/
theorem rotate_cols {image : Grid} {h w : Nat} (hs : Shape image h w) (hhb : h < 2147483648)
    (r : Nat) (hr : r < h) (acc : Grid) (ha : Shape acc w h) (k : Nat) (hk : k ≤ w) :
    ∃ acc' : Grid,
      forUpM k (fun col acc1 => rotate_step image (h : Int) r col acc1) acc = some acc' ∧
      Shape acc' w h ∧
      ∀ c' r', pixelAt acc' c' r' =
        (pixelAt acc c' r').map (fun q => if r' = h - 1 - r ∧ c' < k then
          (pixelAt image r c').getD q else q) := by
  induction k with
  | zero =>
    refine ⟨acc, forUpM_zero _ _, ha, ?_⟩
    intro c' r'
    simp
  | succ k ih =>
    obtain ⟨acc1, h1, hs1, hp1⟩ := ih (by omega)
    obtain ⟨p, hp, hstep⟩ := rotate_step_eq hs hhb hs1 r k hr (by omega)
    refine ⟨updPixel acc1 k (h - 1 - r) (fun _ => p), ?_, shape_updPixel hs1 _ _ _, ?_⟩
    · rw [forUpM_succ, h1]
      exact hstep
    · intro c' r'
      rw [pixelAt_updPixel, hp1, Option.map_map]
      congr 1
      funext q
      simp only [Function.comp]
      by_cases hc : c' = k
      · subst hc
        by_cases hr' : r' = h - 1 - r
        · simp [hr', hp]
        · simp [hr']
      · by_cases hlt : c' < k
        · have : c' < k + 1 := by omega
          simp [hc, hlt, this]
        · have : ¬ c' < k + 1 := by omega
          simp [hc, hlt, this]

/-- The outer rotation loop after `k` source rows. -/
theorem rotate_rows {image : Grid} {h w : Nat} (hs : Shape image h w) (hhb : h < 2147483648)
    (k : Nat) (hk : k ≤ h) :
    ∃ acc : Grid,
      forUpM k (fun row acc0 => forUpM w
        (fun col acc1 => rotate_step image (h : Int) row col acc1) acc0) (newImage w h) =
        some acc ∧
      Shape acc w h ∧
      ∀ c' r', pixelAt acc c' r' =
        (pixelAt (newImage w h) c' r').map (fun q => if h - k ≤ r' then
          (pixelAt image (h - 1 - r') c').getD q else q) := by
  induction k with
  | zero =>
    refine ⟨newImage w h, forUpM_zero _ _, shape_newImage _ _, ?_⟩
    intro c' r'
    cases hq : pixelAt (newImage w h) c' r' with
    | none => rfl
    | some q =>
      have := pixelAt_some_lt (shape_newImage w h) hq
      have hn : ¬ (h ≤ r') := by omega
      simp [hn]
  | succ k ih =>
    obtain ⟨acc0, h0, hs0, hp0⟩ := ih (by omega)
    obtain ⟨acc1, h1, hs1, hp1⟩ := rotate_cols hs hhb k (by omega) acc0 hs0 w (Nat.le_refl w)
    refine ⟨acc1, ?_, hs1, ?_⟩
    · rw [forUpM_succ, h0]
      exact h1
    · intro c' r'
      rw [hp1, hp0]
      cases hq : pixelAt (newImage w h) c' r' with
      | none => rfl
      | some q =>
        obtain ⟨hc', hr'⟩ := pixelAt_some_lt (shape_newImage w h) hq
        simp only [Option.map_some']
        congr 1
        by_cases e : r' = h - 1 - k
        · have e1 : h - (k + 1) ≤ r' := by omega
          have e2 : h - 1 - r' = k := by omega
          have e3 : ¬ (h - k ≤ r') := by omega
          simp [e1, e2, e3, hc']
          simp [← e, e2]
        · by_cases e1 : h - k ≤ r'
          · have e2 : h - (k + 1) ≤ r' := by omega
            simp [e, e1, e2]
          · have e2 : ¬ (h - (k + 1) ≤ r') := by omega
            simp [e, e1, e2]

/-- The grid that `rotate_90` returns for an `h` by `w` grid whose dimensions are
`int` values: `w` rows of `h` pixels, with the pixel of `[r][c]` at `[c][h - 1 - r]`. -/
theorem rotate_90_spec {image : Grid} {h w : Nat} (hs : Shape image h w) (hh : 0 < h)
    (hhb : h < 2147483648) (hwb : w < 2147483648) :
    ∃ g' : Grid, rotate_90 image = some g' ∧ Shape g' w h ∧
      ∀ r c, r < h → c < w → pixelAt g' c (h - 1 - r) = pixelAt image r c := by
  obtain ⟨acc, hacc, hsh, hpx⟩ := rotate_rows hs hhb h (Nat.le_refl h)
  refine ⟨acc, ?_, hsh, ?_⟩
  · cases image with
    | nil => simp [Shape] at hs; omega
    | cons row0 rest =>
      have hw0 : row0.length = w := hs.2 row0 (List.mem_cons_self _ _)
      have hlen : (row0 :: rest).length = h := hs.1
      have e1 : wrap32 (w : Int) = (w : Int) := wrap32_of_range (by omega) (by omega)
      have e2 : wrap32 (h : Int) = (h : Int) := wrap32_of_range (by omega) (by omega)
      have hneg : ¬ ((w : Int) < 0 ∨ (h : Int) < 0) := by omega
      simp only [rotate_90, hw0, hlen, e1, e2, if_neg hneg, Int.toNat_ofNat]
      exact hacc
  · intro r c hr hc
    obtain ⟨p, hp⟩ := pixelAt_isSome hs hr hc
    have e1 : h - h ≤ h - 1 - r := by omega
    have e2 : h - 1 - (h - 1 - r) = r := by omega
    rw [hpx, pixelAt_newImage, if_pos ⟨hc, by omega⟩]
    simp [e1, e2, hp]

/-- The function `proc4` runs the computation of `rotate_90` on the decoded image. -/
theorem proc4_eq (file : Option (List Byte)) :
    proc4 file = (read_image file).bind rotate_90 := by
  unfold proc4
  generalize read_image file = r
  cases r with
  | none => rfl
  | some image =>
    simp only [Option.some_bind]
    unfold rotate_90
    rfl

/-! ## Lemmas: the loops of the transformations -/

/-- The inner loop of `fillImage` for row `r`, after `k` columns. -/
theorem fill_cols (body : Nat → Nat → Option Pixel) {rows cols : Nat} (r : Nat)
    (hb : ∀ c, c < cols → ∃ p, body r c = some p) (acc : Grid) (ha : Shape acc rows cols)
    (k : Nat) (hk : k ≤ cols) :
    ∃ acc' : Grid,
      forUpM k (fun col acc1 => fill_step body r col acc1) acc = some acc' ∧
      Shape acc' rows cols ∧
      ∀ r' c', pixelAt acc' r' c' =
        (pixelAt acc r' c').map (fun q => if r' = r ∧ c' < k then (body r c').getD q else q) := by
  induction k with
  | zero =>
    refine ⟨acc, forUpM_zero _ _, ha, ?_⟩
    intro r' c'
    simp
  | succ k ih =>
    obtain ⟨acc1, h1, hs1, hp1⟩ := ih (by omega)
    obtain ⟨p, hp⟩ := hb k (by omega)
    refine ⟨updPixel acc1 r k (fun _ => p), ?_, shape_updPixel hs1 _ _ _, ?_⟩
    · rw [forUpM_succ, h1]
      simp only [Option.some_bind, fill_step, hp]
    · intro r' c'
      rw [pixelAt_updPixel, hp1, Option.map_map]
      congr 1
      funext q
      simp only [Function.comp]
      by_cases hc : c' = k
      · subst hc
        by_cases hr' : r' = r
        · simp [hr', hp]
        · simp [hr']
      · by_cases hlt : c' < k
        · have : c' < k + 1 := by omega
          simp [hc, hlt, this]
        · have : ¬ c' < k + 1 := by omega
          simp [hc, hlt, this]

/-- The outer loop of `fillImage` after `k` rows. -/
theorem fill_rows (body : Nat → Nat → Option Pixel) {rows cols : Nat}
    (hb : ∀ r c, r < rows → c < cols → ∃ p, body r c = some p) (k : Nat) (hk : k ≤ rows) :
    ∃ acc : Grid,
      forUpM k (fun row acc0 => forUpM cols (fun col acc1 => fill_step body row col acc1) acc0)
        (newImage rows cols) = some acc ∧
      Shape acc rows cols ∧
      ∀ r' c', pixelAt acc r' c' =
        (pixelAt (newImage rows cols) r' c').map
          (fun q => if r' < k then (body r' c').getD q else q) := by
  induction k with
  | zero =>
    refine ⟨newImage rows cols, forUpM_zero _ _, shape_newImage _ _, ?_⟩
    intro r' c'
    simp
  | succ k ih =>
    obtain ⟨acc0, h0, hs0, hp0⟩ := ih (by omega)
    obtain ⟨acc1, h1, hs1, hp1⟩ :=
      fill_cols body k (fun c hc => hb k c (by omega) hc) acc0 hs0 cols (Nat.le_refl _)
    refine ⟨acc1, ?_, hs1, ?_⟩
    · rw [forUpM_succ, h0]
      exact h1
    · intro r' c'
      rw [hp1, hp0]
      cases hq : pixelAt (newImage rows cols) r' c' with
      | none => rfl
      | some q =>
        obtain ⟨hr', hc'⟩ := pixelAt_some_lt (shape_newImage rows cols) hq
        simp only [Option.map_some']
        congr 1
        by_cases e : r' = k
        · subst e
          obtain ⟨p, hp⟩ := hb r' c' hr' hc'
          simp [hc', hp]
        · by_cases e1 : r' < k
          · have e2 : r' < k + 1 := by omega
            simp [e, e1, e2]
          · have e2 : ¬ (r' < k + 1) := by omega
            simp [e, e1, e2]

/-- The image that `fillImage` builds when the body never ends the run. -/
theorem fillImage_spec (body : Nat → Nat → Option Pixel) (rows cols : Nat)
    (hb : ∀ r c, r < rows → c < cols → ∃ p, body r c = some p) :
    ∃ g' : Grid, fillImage rows cols body = some g' ∧ Shape g' rows cols ∧
      ∀ r c, r < rows → c < cols → pixelAt g' r c = body r c := by
  obtain ⟨acc, hacc, hsh, hpx⟩ := fill_rows body hb rows (Nat.le_refl _)
  refine ⟨acc, hacc, hsh, ?_⟩
  intro r c hr hc
  obtain ⟨p, hp⟩ := hb r c hr hc
  rw [hpx, pixelAt_newImage, if_pos ⟨hr, hc⟩]
  simp [hr, hp]

/-- The image that the shared frame of the point-wise transformations builds
from an `h` by `w` image whose dimensions are `int` values. -/
theorem pointwise_spec (rule : Int → Int → Nat → Nat → Pixel → Pixel) {image : Grid}
    {h w : Nat} (hs : Shape image h w) (hh : 0 < h) (hhb : h < 2147483648)
    (hwb : w < 2147483648) :
    ∃ g' : Grid, pointwise rule image = some g' ∧ Shape g' h w ∧
      ∀ r c, r < h → c < w →
        pixelAt g' r c = (pixelAt image r c).map (rule (w : Int) (h : Int) r c) := by
  have hb : ∀ r c, r < h → c < w → ∃ p,
      (match pixelAt image r c with
        | some p => some (rule (w : Int) (h : Int) r c p)
        | none => none) = some p := by
    intro r c hr hc
    obtain ⟨p, hp⟩ := pixelAt_isSome hs hr hc
    exact ⟨_, by rw [hp]⟩
  obtain ⟨g', hg', hsh, hpx⟩ := fillImage_spec _ h w hb
  refine ⟨g', ?_, hsh, ?_⟩
  · cases image with
    | nil => simp [Shape] at hs; omega
    | cons row0 rest =>
      have hw0 : row0.length = w := hs.2 row0 (List.mem_cons_self _ _)
      have hlen : (row0 :: rest).length = h := hs.1
      have e1 : wrap32 (w : Int) = (w : Int) := wrap32_of_range (by omega) (by omega)
      have e2 : wrap32 (h : Int) = (h : Int) := wrap32_of_range (by omega) (by omega)
      have hneg : ¬ ((w : Int) < 0 ∨ (h : Int) < 0) := by omega
      simp only [pointwise, hw0, hlen, e1, e2, if_neg hneg, Int.toNat_ofNat]
      exact hg'
  · intro r c hr hc
    rw [hpx r c hr hc]
    cases pixelAt image r c <;> rfl

/-! ## Lemmas: what `read_image` can return -/

theorem read_image_none : read_image none = some [] := by decide

theorem get_range (s : IStream) : -1 ≤ s.get.1 ∧ s.get.1 ≤ 255 := by
  unfold IStream.get
  split
  · simp
  · split
    · simp only; omega
    · simp

theorem allPixels_updPixel {B : Pixel → Prop} {g : Grid} (hg : AllPixels B g) (i j : Nat)
    (f : Pixel → Pixel) (hf : ∀ p, B p → B (f p)) : AllPixels B (updPixel g i j f) := by
  intro i' j' p hp
  rw [pixelAt_updPixel] at hp
  cases hq : pixelAt g i' j' with
  | none => simp [hq] at hp
  | some q =>
    simp only [hq, Option.map_some', Option.some.injEq] at hp
    have hB := hg i' j' q hq
    rw [← hp]
    split
    · exact hf q hB
    · exact hB

theorem allPixels_newImage (B : Pixel → Prop) (hz : B Pixel.zero) (h w : Nat) :
    AllPixels B (newImage h w) := by
  intro i j p hp
  rw [pixelAt_newImage] at hp
  split at hp
  · rw [← Option.some.inj hp]; exact hz
  · simp at hp

theorem decoded_read_pixel (b : Int) (i j : Nat) (st : ReadState)
    (hs : AllPixels Pixel.Decoded st.image) :
    AllPixels Pixel.Decoded (read_pixel b i j st).image := by
  simp only [read_pixel]
  apply allPixels_updPixel
  · apply allPixels_updPixel
    · apply allPixels_updPixel hs
      intro p hp
      have := get_range (st.stream.seekg st.pos)
      exact ⟨hp.1, hp.2.1, this⟩
    · intro p hp
      have := get_range (st.stream.seekg st.pos).get.2
      exact ⟨hp.1, this, hp.2.2⟩
  · intro p hp
    have := get_range (st.stream.seekg st.pos).get.2.get.2
    exact ⟨this, hp.2.1, hp.2.2⟩

theorem decoded_read_row (b pad : Int) (w i : Nat) (st : ReadState)
    (hs : AllPixels Pixel.Decoded st.image) :
    AllPixels Pixel.Decoded (read_row b pad w i st).image := by
  have key : ∀ k, AllPixels Pixel.Decoded
      (forUp k (fun j acc => read_pixel b i j acc) st).image := by
    intro k
    induction k with
    | zero => exact hs
    | succ k ih => rw [forUp_succ]; exact decoded_read_pixel b i k _ ih
  exact key w

theorem decoded_read_rows (b pad : Int) (w : Nat) (k : Nat) (st : ReadState)
    (hs : AllPixels Pixel.Decoded st.image) :
    AllPixels Pixel.Decoded (forDown k (read_row b pad w) st).image := by
  induction k generalizing st with
  | zero => exact hs
  | succ k ih => rw [forDown_succ]; exact ih _ (decoded_read_row b pad w k st hs)

/-- Every grid that `read_image` returns is rectangular, its dimensions are
`int` values, and its channels are byte values or `-1`. -/
theorem read_image_decoded (file : Option (List Byte)) (g : Grid)
    (hread : read_image file = some g) :
    ∃ h w : Nat, Shape g h w ∧ h < 2147483648 ∧ w < 2147483648 ∧ AllPixels Pixel.Decoded g := by
  have hnil : ∃ h w : Nat, Shape ([] : Grid) h w ∧ h < 2147483648 ∧ w < 2147483648 ∧
      AllPixels Pixel.Decoded ([] : Grid) :=
    ⟨0, 0, ⟨rfl, by simp⟩, by omega, by omega, by intro i j p hp; simp [pixelAt] at hp⟩
  cases file with
  | none =>
    rw [read_image_none] at hread
    rw [← Option.some.inj hread]
    exact hnil
  | some bs =>
    obtain ⟨s, -, hr⟩ := read_image_eq bs
    rw [hr] at hread
    split at hread
    · rw [← Option.some.inj hread]
      exact hnil
    · split at hread
      · simp at hread
      · rw [← Option.some.inj hread]
        have hw := (field_range bs 18 4).2
        have hh := (field_range bs 22 4).2
        refine ⟨(header bs).height.toNat, (header bs).width.toNat, ?_, ?_, ?_, ?_⟩
        · exact shape_read_rows _ _ _ _ _ (shape_newImage _ _)
        · have : (header bs).height = field bs 22 4 := rfl
          simp only [Nat.cast_ofNat] at hh
          omega
        · have : (header bs).width = field bs 18 4 := rfl
          simp only [Nat.cast_ofNat] at hw
          omega
        · exact decoded_read_rows _ _ _ _ _
            (allPixels_newImage _ (by simp [Pixel.Decoded, Pixel.zero]) _ _)

/-! ## Lemmas: repeated rotation -/

/-- The pixels of a rotated grid, read from the target side. -/
theorem rotate_90_pixels {image : Grid} {h w : Nat} (hs : Shape image h w) (hh : 0 < h)
    (hhb : h < 2147483648) (hwb : w < 2147483648) :
    ∃ g' : Grid, rotate_90 image = some g' ∧ Shape g' w h ∧
      ∀ i j, i < w → j < h → pixelAt g' i j = pixelAt image (h - 1 - j) i := by
  obtain ⟨g', hg', hsh, hpx⟩ := rotate_90_spec hs hh hhb hwb
  refine ⟨g', hg', hsh, ?_⟩
  intro i j hi hj
  have := hpx (h - 1 - j) i (by omega) hi
  have e : h - 1 - (h - 1 - j) = j := by omega
  rw [e] at this
  exact this

/-- Four rotations give the grid back. -/
theorem rotate_n_four {image : Grid} {h w : Nat} (hs : Shape image h w) (hh : 0 < h)
    (hw : 0 < w) (hhb : h < 2147483648) (hwb : w < 2147483648) :
    rotate_n 4 image = some image := by
  obtain ⟨g1, e1, s1, p1⟩ := rotate_90_pixels hs hh hhb hwb
  obtain ⟨g2, e2, s2, p2⟩ := rotate_90_pixels s1 hw hwb hhb
  obtain ⟨g3, e3, s3, p3⟩ := rotate_90_pixels s2 hh hhb hwb
  obtain ⟨g4, e4, s4, p4⟩ := rotate_90_pixels s3 hw hwb hhb
  simp only [rotate_n, e1, e2, e3, e4, Option.some_bind]
  congr 1
  apply grid_ext s4 hs
  intro i j hi hj
  rw [p4 i j hi hj, p3 (w - 1 - j) i (by omega) hi, p2 (h - 1 - i) (w - 1 - j) (by omega) (by omega),
    p1 (w - 1 - (w - 1 - j)) (h - 1 - i) (by omega) (by omega)]
  have a : h - 1 - (h - 1 - i) = i := by omega
  have b : w - 1 - (w - 1 - j) = j := by omega
  rw [a, b]

theorem rotate_n_add (a b : Nat) (g : Grid) :
    rotate_n (a + b) g = (rotate_n a g).bind (rotate_n b) := by
  induction a generalizing g with
  | zero => simp [rotate_n]
  | succ a ih =>
    have e : a + 1 + b = (a + b) + 1 := by omega
    rw [e]
    simp only [rotate_n]
    cases rotate_90 g with
    | none => rfl
    | some g1 => simp only [Option.some_bind, ih]

/-- The number of rotations only counts modulo 4. -/
theorem rotate_n_mod {image : Grid} {h w : Nat} (hs : Shape image h w) (hh : 0 < h)
    (hw : 0 < w) (hhb : h < 2147483648) (hwb : w < 2147483648) (n : Nat) :
    rotate_n n image = rotate_n (n % 4) image := by
  have key : ∀ q r, rotate_n (4 * q + r) image = rotate_n r image := by
    intro q r
    induction q with
    | zero => simp
    | succ q ih =>
      have e : 4 * (q + 1) + r = 4 + (4 * q + r) := by omega
      rw [e, rotate_n_add, rotate_n_four hs hh hw hhb hwb, Option.some_bind, ih]
  have := key (n / 4) (n % 4)
  rw [Nat.div_add_mod] at this
  exact this

theorem rotate_n_one (g : Grid) : rotate_n 1 g = rotate_90 g := by
  simp only [rotate_n]
  cases rotate_90 g <;> rfl

theorem rotate_n_two (g : Grid) : rotate_n 2 g = (rotate_90 g).bind rotate_90 := by
  simp only [rotate_n]
  cases rotate_90 g with
  | none => rfl
  | some g1 =>
    simp only [Option.some_bind]
    cases rotate_90 g1 <;> rfl

theorem rotate_n_three (g : Grid) :
    rotate_n 3 g = ((rotate_90 g).bind rotate_90).bind rotate_90 := by
  simp only [rotate_n]
  cases rotate_90 g with
  | none => rfl
  | some g1 =>
    simp only [Option.some_bind]
    cases rotate_90 g1 with
    | none => rfl
    | some g2 =>
      simp only [Option.some_bind]
      cases rotate_90 g2 <;> rfl

/-- The branch that `proc5` takes for a count `n ≥ 0` with `90 n` an `int`. -/
theorem proc5_image_eq (image : Grid) (n : Nat) (hn : 90 * n < 2147483648) :
    proc5_image image (n : Int) = rotate_n (n % 4) image := by
  have hang : wrap32 ((n : Int) * 90) = ((90 * n : Nat) : Int) := by
    rw [wrap32_of_range (by omega) (by omega)]; push_cast; ring
  have h90 : Int.tmod ((90 * n : Nat) : Int) 90 = 0 := by
    have := tmod_eq_ite ((90 * n : Nat) : Int) 90
    simp only [Nat.cast_ofNat] at this
    rw [this]
    split <;> omega
  have h360 : Int.tmod ((90 * n : Nat) : Int) 360 = ((90 * (n % 4) : Nat) : Int) := by
    have := tmod_eq_ite ((90 * n : Nat) : Int) 360
    simp only [Nat.cast_ofNat] at this
    rw [this]
    split <;> omega
  simp only [proc5_image, hang, h90, h360]
  have hcases : n % 4 = 0 ∨ n % 4 = 1 ∨ n % 4 = 2 ∨ n % 4 = 3 := by omega
  rcases hcases with e | e | e | e
  · simp [e, rotate_n]
  · simp [e, rotate_n_one]
  · simp [e, rotate_n_two]
  · simp [e, rotate_n_three]

/-! ## Lemmas: the transformations on a decoded image -/

theorem shape_wideGrid : Shape wideGrid 1 2147483648 := by
  refine ⟨rfl, ?_⟩
  intro row hrow
  simp only [wideGrid, List.mem_singleton] at hrow
  rw [hrow, List.length_replicate]

theorem rotate_90_wideGrid : rotate_90 wideGrid = none := by
  have e1 : wrap32 ((2147483648 : Nat) : Int) = -2147483648 := by decide
  unfold rotate_90 wideGrid
  simp only [List.length_replicate, e1]
  exact if_pos (Or.inl (by decide))

theorem shape_unique {g : Grid} {h w h' w' : Nat} (hs : Shape g h w) (hs' : Shape g h' w')
    (hh : 0 < h) : h = h' ∧ w = w' := by
  refine ⟨by rw [← hs.1, ← hs'.1], ?_⟩
  cases g with
  | nil => simp [Shape] at hs; omega
  | cons row0 rest =>
    rw [← hs.2 row0 (List.mem_cons_self _ _), ← hs'.2 row0 (List.mem_cons_self _ _)]

/-- The dimensions of a decoded image are `int` values, and its channels are
byte values or `-1`. -/
theorem decoded_bounds {file : Option (List Byte)} {g : Grid} {h w : Nat}
    (hread : read_image file = some g) (hs : Shape g h w) (hh : 0 < h) :
    h < 2147483648 ∧ w < 2147483648 ∧ AllPixels Pixel.Decoded g := by
  obtain ⟨h', w', hs', hb, wb, hd⟩ := read_image_decoded file g hread
  obtain ⟨e1, e2⟩ := shape_unique hs hs' hh
  subst e1 e2
  exact ⟨hb, wb, hd⟩

/-- A point-wise transformation of a decoded image. -/
theorem pointwise_decoded (rule : Int → Int → Nat → Nat → Pixel → Pixel)
    {file : Option (List Byte)} {g : Grid} {h w : Nat} (hread : read_image file = some g)
    (hs : Shape g h w) (hh : 0 < h) :
    ∃ g' : Grid, pointwise rule g = some g' ∧ Shape g' h w ∧
      ∀ r c p, pixelAt g r c = some p → pixelAt g' r c = some (rule (w : Int) (h : Int) r c p) := by
  obtain ⟨hb, wb, -⟩ := decoded_bounds hread hs hh
  obtain ⟨g', hg', hsh, hpx⟩ := pointwise_spec rule hs hh hb wb
  refine ⟨g', hg', hsh, ?_⟩
  intro r c p hp
  obtain ⟨hr, hc⟩ := pixelAt_some_lt hs hp
  rw [hpx r c hr hc, hp]
  rfl

theorem sum_of_decoded {p : Pixel} (hp : Pixel.Decoded p) :
    wrap32 (wrap32 (p.red + p.green) + p.blue) = p.red + p.green + p.blue := by
  obtain ⟨⟨r0, r1⟩, ⟨g0, g1⟩, ⟨b0, b1⟩⟩ := hp
  rw [wrap32_add_left, wrap32_of_range (by omega) (by omega)]

theorem sum_of_decoded' {p : Pixel} (hp : Pixel.Decoded p) :
    wrap32 (wrap32 (p.red + p.blue) + p.green) = p.red + p.green + p.blue := by
  obtain ⟨⟨r0, r1⟩, ⟨g0, g1⟩, ⟨b0, b1⟩⟩ := hp
  rw [wrap32_add_left, wrap32_of_range (by omega) (by omega)]
  omega

theorem decoded_of_inRange {p : Pixel} (hp : Pixel.InRange p) : Pixel.Decoded p := by
  obtain ⟨⟨r0, r1⟩, ⟨g0, g1⟩, ⟨b0, b1⟩⟩ := hp
  exact ⟨⟨by omega, r1⟩, ⟨by omega, g1⟩, ⟨by omega, b1⟩⟩

theorem tdiv_three_of_nonneg {x : Int} (hx : 0 ≤ x) : Int.tdiv x 3 = x / 3 :=
  Int.tdiv_eq_ediv hx (by decide)

/-- The high-contrast rule applied to its own result changes nothing. -/
theorem proc7_pixel_idem (p : Pixel) : proc7_pixel (proc7_pixel p) = proc7_pixel p := by
  have hw : proc7_pixel ⟨255, 255, 255⟩ = ⟨255, 255, 255⟩ := by decide
  have hk : proc7_pixel ⟨0, 0, 0⟩ = ⟨0, 0, 0⟩ := by decide
  by_cases hc : Int.tdiv (wrap32 (wrap32 (p.red + p.green) + p.blue)) 3 ≥ Int.tdiv 255 2
  · have : proc7_pixel p = ⟨255, 255, 255⟩ := by simp only [proc7_pixel, if_pos hc]
    rw [this, hw]
  · have : proc7_pixel p = ⟨0, 0, 0⟩ := by simp only [proc7_pixel, if_neg hc]
    rw [this, hk]

theorem proc5_of_read {file : Option (List Byte)} {g : Grid} (hread : read_image file = some g)
    (n : Int) : proc5 file n = proc5_image g n := by
  unfold proc5
  generalize read_image file = r at hread
  subst hread
  rfl

theorem proc1_of_read {F : FloatModel} {file : Option (List Byte)} {g : Grid}
    (hread : read_image file = some g) : proc1 F file = proc1_image F g := by
  unfold proc1
  generalize read_image file = r at hread
  subst hread
  rfl

theorem proc2_of_read {F : FloatModel} {file : Option (List Byte)} {g : Grid}
    (hread : read_image file = some g) (s : F.D) : proc2 F file s = proc2_image F s g := by
  unfold proc2
  generalize read_image file = r at hread
  subst hread
  rfl

theorem proc3_of_read {file : Option (List Byte)} {g : Grid}
    (hread : read_image file = some g) : proc3 file = proc3_image g := by
  unfold proc3
  generalize read_image file = r at hread
  subst hread
  rfl

theorem proc6_of_read {file : Option (List Byte)} {g : Grid}
    (hread : read_image file = some g) (xscale yscale : Int) : proc6 file xscale yscale = proc6_image g xscale yscale := by
  unfold proc6
  generalize read_image file = r at hread
  subst hread
  rfl

theorem proc7_of_read {file : Option (List Byte)} {g : Grid}
    (hread : read_image file = some g) : proc7 file = proc7_image g := by
  unfold proc7
  generalize read_image file = r at hread
  subst hread
  rfl

theorem proc8_of_read {F : FloatModel} {file : Option (List Byte)} {g : Grid}
    (hread : read_image file = some g) (s : F.D) : proc8 F file s = proc8_image F s g := by
  unfold proc8
  generalize read_image file = r at hread
  subst hread
  rfl

theorem proc9_of_read {F : FloatModel} {file : Option (List Byte)} {g : Grid}
    (hread : read_image file = some g) (s : F.D) : proc9 F file s = proc9_image F s g := by
  unfold proc9
  generalize read_image file = r at hread
  subst hread
  rfl

theorem proc10_of_read {file : Option (List Byte)} {g : Grid}
    (hread : read_image file = some g) : proc10 file = proc10_image g := by
  unfold proc10
  generalize read_image file = r at hread
  subst hread
  rfl

/-- The enlarged image that `proc6` builds when the enlarged sizes are `int` values. -/
theorem proc6_image_spec {image : Grid} {h w : Nat} (hs : Shape image h w) (hh : 0 < h)
    (hhb : h < 2147483648) (hwb : w < 2147483648) (xs ys : Nat) (hx : 0 < xs) (hy : 0 < ys)
    (hrows : h * ys < 2147483648) (hcols : w * xs < 2147483648) :
    ∃ g' : Grid, proc6_image image (xs : Int) (ys : Int) = some g' ∧
      Shape g' (h * ys) (w * xs) ∧
      ∀ r c, r < h * ys → c < w * xs → pixelAt g' r c = pixelAt image (r / ys) (c / xs) := by
  have hidx : ∀ (a b : Nat), (Int.tdiv (a : Int) (b : Int)).toNat = a / b := by
    intro a b
    rw [Int.tdiv_eq_ediv (Int.ofNat_nonneg a) (Int.ofNat_nonneg b)]
    have : (a : Int) / (b : Int) = ((a / b : Nat) : Int) := by norm_cast
    rw [this, Int.toNat_ofNat]
  have hb : ∀ r c, r < h * ys → c < w * xs → ∃ p,
      pixelAt image (Int.tdiv (r : Int) (ys : Int)).toNat (Int.tdiv (c : Int) (xs : Int)).toNat =
        some p := by
    intro r c hr hc
    rw [hidx, hidx]
    exact pixelAt_isSome hs (Nat.div_lt_of_lt_mul (by rw [Nat.mul_comm]; exact hr))
      (Nat.div_lt_of_lt_mul (by rw [Nat.mul_comm]; exact hc))
  obtain ⟨g', hg', hsh, hpx⟩ := fillImage_spec
    (fun row col => pixelAt image (Int.tdiv (row : Int) (ys : Int)).toNat
      (Int.tdiv (col : Int) (xs : Int)).toNat) (h * ys) (w * xs) hb
  refine ⟨g', ?_, hsh, ?_⟩
  · cases image with
    | nil => simp [Shape] at hs; omega
    | cons row0 rest =>
      have hw0 : row0.length = w := hs.2 row0 (List.mem_cons_self _ _)
      have hlen : (row0 :: rest).length = h := hs.1
      have e1 : wrap32 (w : Int) = (w : Int) := wrap32_of_range (by omega) (by omega)
      have e2 : wrap32 (h : Int) = (h : Int) := wrap32_of_range (by omega) (by omega)
      have c1 : ((w * xs : Nat) : Int) < 2147483648 := by exact_mod_cast hcols
      have c2 : ((h * ys : Nat) : Int) < 2147483648 := by exact_mod_cast hrows
      have c3 : (0 : Int) ≤ ((w * xs : Nat) : Int) := Int.ofNat_nonneg _
      have c4 : (0 : Int) ≤ ((h * ys : Nat) : Int) := Int.ofNat_nonneg _
      have e3 : wrap32 ((w : Int) * (xs : Int)) = ((w * xs : Nat) : Int) := by
        have : (w : Int) * (xs : Int) = ((w * xs : Nat) : Int) := by push_cast; ring
        rw [this]
        exact wrap32_of_range (le_trans (by decide) c3) c1
      have e4 : wrap32 ((h : Int) * (ys : Int)) = ((h * ys : Nat) : Int) := by
        have : (h : Int) * (ys : Int) = ((h * ys : Nat) : Int) := by push_cast; ring
        rw [this]
        exact wrap32_of_range (le_trans (by decide) c4) c2
      have hscale : ¬ ((xs : Int) ≤ 0 ∨ (ys : Int) ≤ 0) := by omega
      have hneg : ¬ (((w * xs : Nat) : Int) < 0 ∨ ((h * ys : Nat) : Int) < 0) := by
        intro hc
        rcases hc with hc | hc
        · exact absurd c3 (not_le.mpr hc)
        · exact absurd c4 (not_le.mpr hc)
      simp only [proc6_image, hw0, hlen, e1, e2, e3, e4, if_neg hscale, if_neg hneg,
        Int.toNat_ofNat]
      exact hg'
  · intro r c hr hc
    rw [hpx r c hr hc, hidx, hidx]

/-! ## Lemmas: composition of enlargements -/

theorem shape_cons_replicate (row : List Pixel) (n : Nat) :
    Shape (row :: List.replicate n row) (n + 1) row.length := by
  refine ⟨by rw [List.length_cons, List.length_replicate], ?_⟩
  intro r hr
  rcases List.mem_cons.mp hr with hr | hr
  · rw [hr]
  · rw [List.eq_of_mem_replicate hr]

theorem shape_tallGrid : Shape tallGrid 65537 1 :=
  shape_cons_replicate [⟨1, 1, 1⟩] 65536

/-- Two enlargements in a row are the enlargement by the products of the scales,
when the final sizes are `int` values. -/
theorem proc6_image_comp {g : Grid} {h w : Nat} (hs : Shape g h w) (hh : 0 < h)
    (a b c d : Nat) (ha : 0 < a) (hb : 0 < b) (hc : 0 < c) (hd : 0 < d)
    (hrows : h * (b * d) < 2147483648) (hcols : w * (a * c) < 2147483648) :
    ∃ g1 g2 : Grid, proc6_image g (a : Int) (b : Int) = some g1 ∧
      proc6_image g1 (c : Int) (d : Int) = some g2 ∧
      proc6_image g ((a * c : Nat) : Int) ((b * d : Nat) : Int) = some g2 ∧
      Shape g2 (h * (b * d)) (w * (a * c)) := by
  have hbd : 0 < b * d := Nat.mul_pos hb hd
  have hac : 0 < a * c := Nat.mul_pos ha hc
  have hhb : h < 2147483648 := lt_of_le_of_lt (Nat.le_mul_of_pos_right h hbd) hrows
  have hwb : w < 2147483648 := lt_of_le_of_lt (Nat.le_mul_of_pos_right w hac) hcols
  have r1 : h * b * d < 2147483648 := by rw [Nat.mul_assoc]; exact hrows
  have c1 : w * a * c < 2147483648 := by rw [Nat.mul_assoc]; exact hcols
  have r0 : h * b < 2147483648 := lt_of_le_of_lt (Nat.le_mul_of_pos_right (h * b) hd) r1
  have c0 : w * a < 2147483648 := lt_of_le_of_lt (Nat.le_mul_of_pos_right (w * a) hc) c1
  obtain ⟨g1, e1, s1, p1⟩ := proc6_image_spec hs hh hhb hwb a b ha hb r0 c0
  obtain ⟨g2, e2, s2, p2⟩ := proc6_image_spec s1 (Nat.mul_pos hh hb) r0 c0 c d hc hd r1 c1
  obtain ⟨g3, e3, s3, p3⟩ := proc6_image_spec hs hh hhb hwb (a * c) (b * d) hac hbd hrows hcols
  have s2' : Shape g2 (h * (b * d)) (w * (a * c)) := by
    rw [← Nat.mul_assoc, ← Nat.mul_assoc]; exact s2
  have e : g3 = g2 := by
    apply grid_ext s3 s2'
    intro i j hi hj
    have hi' : i < h * b * d := by rw [Nat.mul_assoc]; exact hi
    have hj' : j < w * a * c := by rw [Nat.mul_assoc]; exact hj
    have hi1 : i / d < h * b := Nat.div_lt_of_lt_mul (by rw [Nat.mul_comm]; exact hi')
    have hj1 : j / c < w * a := Nat.div_lt_of_lt_mul (by rw [Nat.mul_comm]; exact hj')
    rw [p3 i j hi hj, p2 i j hi' hj', p1 _ _ hi1 hj1, Nat.div_div_eq_div_mul,
      Nat.div_div_eq_div_mul, Nat.mul_comm d b, Nat.mul_comm c a]
  exact ⟨g1, g2, e1, e2, by rw [e3, e], s2'⟩

/-- The enlargement by `(1, 1)` returns the image. -/
theorem proc6_image_one {g : Grid} {h w : Nat} (hs : Shape g h w) (hh : 0 < h)
    (hhb : h < 2147483648) (hwb : w < 2147483648) : proc6_image g 1 1 = some g := by
  obtain ⟨g1, e1, s1, p1⟩ := proc6_image_spec hs hh hhb hwb 1 1 Nat.one_pos Nat.one_pos
    (by omega) (by omega)
  have e1 : proc6_image g 1 1 = some g1 := e1
  have e : g1 = g := by
    apply grid_ext (h := h) (w := w) (by rw [Nat.mul_one, Nat.mul_one] at s1; exact s1) hs
    intro i j hi hj
    rw [p1 i j (by omega) (by omega), Nat.div_one, Nat.div_one]
  rw [e] at e1
  exact e1

/-- The enlargement throws when the new height is negative as an `int`. -/
theorem proc6_image_negative {image : Grid} {h w : Nat} (hs : Shape image h w) (hh : 0 < h)
    (xscale yscale : Int) (hx : 0 < xscale) (hy : 0 < yscale)
    (hneg : wrap32 (wrap32 (h : Int) * yscale) < 0) : proc6_image image xscale yscale = none := by
  cases image with
  | nil => simp [Shape] at hs; omega
  | cons row0 rest =>
    have hlen : (row0 :: rest).length = h := hs.1
    have hscale : ¬ (xscale ≤ 0 ∨ yscale ≤ 0) := by omega
    simp only [proc6_image, hlen, if_neg hscale]
    exact if_pos (Or.inr hneg)

/-- The enlargement with the sizes that the `int` products reduce to. -/
theorem proc6_image_wrapped {image : Grid} {h w : Nat} (hs : Shape image h w) (hh : 0 < h)
    (xs ys R C : Nat) (hx : 0 < xs) (hy : 0 < ys)
    (hR : wrap32 (wrap32 (h : Int) * (ys : Int)) = (R : Int))
    (hC : wrap32 (wrap32 (w : Int) * (xs : Int)) = (C : Int))
    (hRle : R ≤ h * ys) (hCle : C ≤ w * xs) :
    ∃ g' : Grid, proc6_image image (xs : Int) (ys : Int) = some g' ∧ Shape g' R C := by
  have hidx : ∀ (a b : Nat), (Int.tdiv (a : Int) (b : Int)).toNat = a / b := by
    intro a b
    rw [Int.tdiv_eq_ediv (Int.ofNat_nonneg a) (Int.ofNat_nonneg b), ← Int.ofNat_ediv,
      Int.toNat_ofNat]
  have hb : ∀ r c, r < R → c < C → ∃ p,
      pixelAt image (Int.tdiv (r : Int) (ys : Int)).toNat (Int.tdiv (c : Int) (xs : Int)).toNat =
        some p := by
    intro r c hr hc
    rw [hidx, hidx]
    exact pixelAt_isSome hs
      (Nat.div_lt_of_lt_mul (by rw [Nat.mul_comm]; exact lt_of_lt_of_le hr hRle))
      (Nat.div_lt_of_lt_mul (by rw [Nat.mul_comm]; exact lt_of_lt_of_le hc hCle))
  obtain ⟨g', hg', hsh, -⟩ := fillImage_spec
    (fun row col => pixelAt image (Int.tdiv (row : Int) (ys : Int)).toNat
      (Int.tdiv (col : Int) (xs : Int)).toNat) R C hb
  refine ⟨g', ?_, hsh⟩
  cases image with
  | nil => simp [Shape] at hs; omega
  | cons row0 rest =>
    have hw0 : row0.length = w := hs.2 row0 (List.mem_cons_self _ _)
    have hlen : (row0 :: rest).length = h := hs.1
    have hscale : ¬ ((xs : Int) ≤ 0 ∨ (ys : Int) ≤ 0) := by omega
    have hneg : ¬ ((C : Int) < 0 ∨ (R : Int) < 0) := by omega
    simp only [proc6_image, hw0, hlen, hR, hC, if_neg hscale, if_neg hneg, Int.toNat_ofNat]
    exact hg'

/-- The enlargement of `tallGrid` by `(1, 32768)` throws: the new height is
negative as an `int`. -/
theorem proc6_tallGrid_first : proc6_image tallGrid 1 32768 = none :=
  proc6_image_negative shape_tallGrid (by decide) 1 32768 (by decide) (by decide)
    (by unfold wrap32; omega)

/-- The enlargement of `tallGrid` by `(1, 65536)` returns 65536 rows: the new
height `65537 * 65536` is reduced to 65536 as an `int`. -/
theorem proc6_tallGrid_single :
    ∃ g2 : Grid, proc6_image tallGrid 1 65536 = some g2 ∧ Shape g2 65536 1 :=
  proc6_image_wrapped shape_tallGrid (by decide) 1 65536 65536 1 (by decide) (by decide)
    (by unfold wrap32; omega) (by unfold wrap32; omega) (by decide) (by decide)
/-! ## Lemmas: faithful floating point -/

theorem truncQ_between (q : ℚ) (a b : Int) (ha : (a : ℚ) ≤ q) (hb : q ≤ (b : ℚ)) :
    a ≤ truncQ q ∧ truncQ q ≤ b := by
  unfold truncQ
  rcases le_or_lt 0 q.num with hn | hn
  · rw [Int.tdiv_eq_ediv hn (Int.ofNat_nonneg _), ← Rat.floor_def]
    exact ⟨Int.le_floor.mpr ha, Int.cast_le.mp (le_trans (Int.floor_le q) hb)⟩
  · have e : Int.tdiv q.num (q.den : Int) = -⌊-q⌋ := by
      rw [Rat.floor_def, Rat.neg_num, Rat.neg_den,
        ← Int.tdiv_eq_ediv (by omega) (Int.ofNat_nonneg _), Int.neg_tdiv, neg_neg]
    rw [e]
    have h1 : ⌊-q⌋ ≤ -a := Int.cast_le.mp
      (le_trans (Int.floor_le (-q)) (by push_cast; linarith))
    have h2 : -b ≤ ⌊-q⌋ := Int.le_floor.mpr (by push_cast; linarith)
    omega

set_option maxRecDepth 4096 in
theorem vignetteFile_decoded : read_image (some vignetteFile) = some vignetteGrid := by
  decide

theorem exactModel_sqrt_between (x : ℚ) (a b : Int) (ha : 0 ≤ a) (hb : 0 ≤ b)
    (h1 : (a : ℚ) ^ 2 ≤ x) (h2 : x ≤ (b : ℚ) ^ 2) :
    (a : ℚ) ≤ (Nat.sqrt (x.num.toNat * x.den) : ℚ) / (x.den : ℚ) ∧
      (Nat.sqrt (x.num.toNat * x.den) : ℚ) / (x.den : ℚ) ≤ (b : ℚ) := by
  have hx0 : 0 ≤ x := le_trans (sq_nonneg _) h1
  have hn0 : 0 ≤ x.num := Rat.num_nonneg.mpr hx0
  have hd0 : (0 : ℚ) < (x.den : ℚ) := by exact_mod_cast x.den_pos
  obtain ⟨A, rfl⟩ := Int.eq_ofNat_of_zero_le ha
  obtain ⟨B, rfl⟩ := Int.eq_ofNat_of_zero_le hb
  obtain ⟨n, hn⟩ := Int.eq_ofNat_of_zero_le hn0
  have hnum : x.num.toNat = n := by rw [hn, Int.toNat_ofNat]
  have hx : x = (n : ℚ) / (x.den : ℚ) := by
    have h := (Rat.num_div_den x).symm
    rw [hn, Int.cast_natCast] at h
    exact h
  rw [hnum]
  have k1 : (A * x.den) ^ 2 ≤ n * x.den := by
    have : ((A : ℚ)) ^ 2 * (x.den : ℚ) ≤ (n : ℚ) := by
      have h1' : ((A : Int) : ℚ) ^ 2 ≤ (n : ℚ) / (x.den : ℚ) := by rw [← hx]; exact h1
      have := (le_div_iff₀ hd0).mp h1'
      exact_mod_cast this
    have : (((A * x.den) ^ 2 : Nat) : ℚ) ≤ ((n * x.den : Nat) : ℚ) := by
      push_cast
      nlinarith
    exact_mod_cast this
  have k2 : n * x.den ≤ (B * x.den) ^ 2 := by
    have : (n : ℚ) ≤ ((B : ℚ)) ^ 2 * (x.den : ℚ) := by
      have h2' : (n : ℚ) / (x.den : ℚ) ≤ ((B : Int) : ℚ) ^ 2 := by rw [← hx]; exact h2
      have := (div_le_iff₀ hd0).mp h2'
      exact_mod_cast this
    have : ((n * x.den : Nat) : ℚ) ≤ (((B * x.den) ^ 2 : Nat) : ℚ) := by
      push_cast
      nlinarith
    exact_mod_cast this
  have s1 : A * x.den ≤ Nat.sqrt (n * x.den) := Nat.le_sqrt'.mpr k1
  have s2 : Nat.sqrt (n * x.den) ≤ B * x.den := by
    have := Nat.sqrt_le_sqrt k2
    rwa [Nat.sqrt_eq'] at this
  constructor
  · rw [le_div_iff₀ hd0]
    exact_mod_cast s1
  · rw [div_le_iff₀ hd0]
    exact_mod_cast s2

theorem exactModel_pow_two (x : ℚ) : (exactModel.pow x (2 : ℚ) : ℚ) = x ^ 2 := by
  show x ^ (Rat.floor 2).toNat = x ^ 2
  have : Rat.floor 2 = 2 := by decide
  rw [this]
  rfl

theorem exactModel_faithful : Faithful exactModel (fun x => x) where
  ofInt_val := fun _ _ _ => rfl
  add_between := fun _ _ _ _ _ _ h1 h2 => ⟨h1, h2⟩
  sub_between := fun _ _ _ _ _ _ h1 h2 => ⟨h1, h2⟩
  mul_between := fun _ _ _ _ _ _ h1 h2 => ⟨h1, h2⟩
  div_between := fun _ _ _ _ _ _ _ h1 h2 => ⟨h1, h2⟩
  pow_two_between := by
    intro x y a b _ _ hy h1 h2
    have hy' : y = (2 : ℚ) := hy
    subst hy'
    have e : (exactModel.pow x (2 : ℚ) : ℚ) = (fun t : ℚ => t) x ^ 2 := exactModel_pow_two x
    rw [e]
    exact ⟨h1, h2⟩
  sqrt_between := fun x a b ha hb _ h1 h2 => exactModel_sqrt_between x a b ha hb h1 h2
  toInt_val := fun _ _ _ => rfl

/-- The darkening `c * s` of a channel `c` in `[0, 255]` by a factor in `[0, 1]`. -/
theorem darken_between {F : FloatModel} {val : F.D → ℚ} (hF : Faithful F val) (s : F.D)
    (hs0 : 0 ≤ val s) (hs1 : val s ≤ 1) (c : Int) (hc0 : 0 ≤ c) (hc1 : c ≤ 255) :
    0 ≤ F.toInt (F.mul (F.ofInt c) s) ∧ F.toInt (F.mul (F.ofInt c) s) ≤ c := by
  have hc : val (F.ofInt c) = (c : ℚ) := hF.ofInt_val c (by omega) (by omega)
  have c0 : (0 : ℚ) ≤ (c : ℚ) := by exact_mod_cast hc0
  have c1 : (c : ℚ) ≤ 255 := by exact_mod_cast hc1
  have hm := hF.mul_between (F.ofInt c) s 0 c (by omega) (by omega)
    (by rw [hc]; push_cast; exact mul_nonneg c0 hs0)
    (by rw [hc]; exact mul_le_of_le_one_right c0 hs1)
  have hm0 : (0 : ℚ) ≤ val (F.mul (F.ofInt c) s) := by
    have := hm.1
    rw [Int.cast_zero] at this
    exact this
  have ht := hF.toInt_val (F.mul (F.ofInt c) s)
    (le_trans (by norm_num : (-2147483648 : ℚ) ≤ 0) hm0)
    (lt_of_le_of_lt hm.2 (lt_of_le_of_lt c1 (by norm_num)))
  rw [ht]
  exact truncQ_between _ 0 c hm.1 hm.2

/-- The lightening `255 - (255 - c) * s` of a channel `c` in `[0, 255]` by a
factor in `[0, 1]`. -/
theorem lighten_between {F : FloatModel} {val : F.D → ℚ} (hF : Faithful F val) (s : F.D)
    (hs0 : 0 ≤ val s) (hs1 : val s ≤ 1) (c : Int) (hc0 : 0 ≤ c) (hc1 : c ≤ 255) :
    c ≤ F.toInt (F.sub (F.ofInt 255) (F.mul (F.ofInt (wrap32 (255 - c))) s)) ∧
      F.toInt (F.sub (F.ofInt 255) (F.mul (F.ofInt (wrap32 (255 - c))) s)) ≤ 255 := by
  have hw : wrap32 (255 - c) = 255 - c := wrap32_of_range (by omega) (by omega)
  rw [hw]
  have hd : val (F.ofInt (255 - c)) = ((255 - c : Int) : ℚ) :=
    hF.ofInt_val (255 - c) (by omega) (by omega)
  have h255 : val (F.ofInt 255) = ((255 : Int) : ℚ) := hF.ofInt_val 255 (by omega) (by omega)
  have c0 : (0 : ℚ) ≤ (c : ℚ) := by exact_mod_cast hc0
  have c1 : (c : ℚ) ≤ 255 := by exact_mod_cast hc1
  have d0 : (0 : ℚ) ≤ ((255 - c : Int) : ℚ) := by push_cast; linarith
  have hm := hF.mul_between (F.ofInt (255 - c)) s 0 (255 - c) (by omega) (by omega)
    (by rw [hd]; push_cast; exact mul_nonneg (by linarith) hs0)
    (by rw [hd]; exact mul_le_of_le_one_right d0 hs1)
  have hsub := hF.sub_between (F.ofInt 255) (F.mul (F.ofInt (255 - c)) s) c 255 (by omega)
    (by omega)
    (by rw [h255]; have := hm.2; push_cast at this ⊢; linarith)
    (by rw [h255]; have := hm.1; push_cast at this ⊢; linarith)
  have ht := hF.toInt_val (F.sub (F.ofInt 255) (F.mul (F.ofInt (255 - c)) s))
    (le_trans (by norm_num : (-2147483648 : ℚ) ≤ 0) (le_trans c0 hsub.1))
    (lt_of_le_of_lt hsub.2 (by norm_num))
  rw [ht]
  exact truncQ_between _ c 255 hsub.1 (by exact_mod_cast hsub.2)

theorem proc9_pixel_range {F : FloatModel} {val : F.D → ℚ} (hF : Faithful F val) (s : F.D)
    (hs0 : 0 ≤ val s) (hs1 : val s ≤ 1) (p : Pixel) (hp : p.InRange) :
    (proc9_pixel F s p).InRange ∧ (proc9_pixel F s p).le p := by
  obtain ⟨⟨r0, r1⟩, ⟨g0, g1⟩, ⟨b0, b1⟩⟩ := hp
  have hr := darken_between hF s hs0 hs1 p.red r0 r1
  have hg := darken_between hF s hs0 hs1 p.green g0 g1
  have hb := darken_between hF s hs0 hs1 p.blue b0 b1
  exact ⟨⟨⟨hr.1, le_trans hr.2 r1⟩, ⟨hg.1, le_trans hg.2 g1⟩, ⟨hb.1, le_trans hb.2 b1⟩⟩,
    ⟨hr.2, hg.2, hb.2⟩⟩

theorem proc8_pixel_range {F : FloatModel} {val : F.D → ℚ} (hF : Faithful F val) (s : F.D)
    (hs0 : 0 ≤ val s) (hs1 : val s ≤ 1) (p : Pixel) (hp : p.InRange) :
    (proc8_pixel F s p).InRange ∧ p.le (proc8_pixel F s p) := by
  obtain ⟨⟨r0, r1⟩, ⟨g0, g1⟩, ⟨b0, b1⟩⟩ := hp
  have hr := lighten_between hF s hs0 hs1 p.red r0 r1
  have hg := lighten_between hF s hs0 hs1 p.green g0 g1
  have hb := lighten_between hF s hs0 hs1 p.blue b0 b1
  exact ⟨⟨⟨le_trans r0 hr.1, hr.2⟩, ⟨le_trans g0 hg.1, hg.2⟩, ⟨le_trans b0 hb.1, hb.2⟩⟩,
    ⟨hr.1, hg.1, hb.1⟩⟩

theorem proc2_pixel_range {F : FloatModel} {val : F.D → ℚ} (hF : Faithful F val) (s : F.D)
    (hs0 : 0 ≤ val s) (hs1 : val s ≤ 1) (p : Pixel) (hp : p.InRange) :
    (proc2_pixel F s p).InRange := by
  have h8 := (proc8_pixel_range hF s hs0 hs1 p hp).1
  have h9 := (proc9_pixel_range hF s hs0 hs1 p hp).1
  unfold proc2_pixel
  simp only
  split
  · exact h8
  · split
    · exact h9
    · exact hp

/-- A point-wise transformation whose rule keeps the channels in `[0, 255]`
keeps every channel of a decoded image in `[0, 255]`. -/
theorem pointwise_inRange (rule : Int → Int → Nat → Nat → Pixel → Pixel)
    (hrule : ∀ w h r c p, Pixel.InRange p → Pixel.InRange (rule w h r c p))
    {file : Option (List Byte)} {g : Grid} {h w : Nat} (hread : read_image file = some g)
    (hs : Shape g h w) (hh : 0 < h) (hr : ChannelsInRange g) :
    ∃ g' : Grid, pointwise rule g = some g' ∧ Shape g' h w ∧ ChannelsInRange g' := by
  obtain ⟨g', hg', hsh, hpx⟩ := pointwise_decoded rule hread hs hh
  refine ⟨g', hg', hsh, ?_⟩
  intro row hrow q hq
  obtain ⟨i, j, hij⟩ := exists_pixelAt_of_mem hrow hq
  obtain ⟨hi, hj⟩ := pixelAt_some_lt hsh hij
  obtain ⟨p, hp⟩ := pixelAt_isSome hs hi hj
  have := hpx i j p hp
  rw [hij] at this
  rw [Option.some.inj this]
  exact hrule _ _ _ _ _ (inRange_of_pixelAt hr hp)

/-- The pixel that `proc1` computes at column 0 of a row of ten pixels. -/
theorem proc1_pixel_corner {F : FloatModel} {val : F.D → ℚ} (hF : Faithful F val) :
    (proc1_pixel F 10 1 0 0 ⟨255, 255, 255⟩).red = -1020 := by
  have ex : wrap32 (((0 : Nat) : Int) - Int.tdiv 10 2) = -5 := by decide
  have ey : wrap32 (((0 : Nat) : Int) - Int.tdiv 1 2) = 0 := by decide
  have v5 : val (F.ofInt (-5)) = ((-5 : Int) : ℚ) := hF.ofInt_val (-5) (by omega) (by omega)
  have v0 : val (F.ofInt 0) = ((0 : Int) : ℚ) := hF.ofInt_val 0 (by omega) (by omega)
  have v1 : val (F.ofInt 1) = ((1 : Int) : ℚ) := hF.ofInt_val 1 (by omega) (by omega)
  have v2 : val (F.ofInt 2) = 2 := by
    have := hF.ofInt_val 2 (by omega) (by omega)
    rw [this]; norm_num
  have v255 : val (F.ofInt 255) = ((255 : Int) : ℚ) := hF.ofInt_val 255 (by omega) (by omega)
  have px := hF.pow_two_between (F.ofInt (-5)) (F.ofInt 2) 25 25 (by omega) (by omega) v2
    (by rw [v5]; norm_num) (by rw [v5]; norm_num)
  have py := hF.pow_two_between (F.ofInt 0) (F.ofInt 2) 0 0 (by omega) (by omega) v2
    (by rw [v0]; norm_num) (by rw [v0]; norm_num)
  have epx : val (F.pow (F.ofInt (-5)) (F.ofInt 2)) = 25 := by
    have := le_antisymm px.2 px.1; rw [this]; norm_num
  have epy : val (F.pow (F.ofInt 0) (F.ofInt 2)) = 0 := by
    have := le_antisymm py.2 py.1; rw [this]; norm_num
  have ha := hF.add_between (F.pow (F.ofInt (-5)) (F.ofInt 2)) (F.pow (F.ofInt 0) (F.ofInt 2))
    25 25 (by omega) (by omega) (by rw [epx, epy]; norm_num) (by rw [epx, epy]; norm_num)
  have ea : val (F.add (F.pow (F.ofInt (-5)) (F.ofInt 2)) (F.pow (F.ofInt 0) (F.ofInt 2))) = 25 := by
    have := le_antisymm ha.2 ha.1; rw [this]; norm_num
  have hq := hF.sqrt_between
    (F.add (F.pow (F.ofInt (-5)) (F.ofInt 2)) (F.pow (F.ofInt 0) (F.ofInt 2))) 5 5
    (by omega) (by omega) (by omega) (by rw [ea]; norm_num) (by rw [ea]; norm_num)
  have eq5 : val (F.sqrt
      (F.add (F.pow (F.ofInt (-5)) (F.ofInt 2)) (F.pow (F.ofInt 0) (F.ofInt 2)))) = 5 := by
    have := le_antisymm hq.2 hq.1; rw [this]; norm_num
  have hsb := hF.sub_between (F.ofInt 1) (F.sqrt
      (F.add (F.pow (F.ofInt (-5)) (F.ofInt 2)) (F.pow (F.ofInt 0) (F.ofInt 2)))) (-4) (-4)
    (by omega) (by omega) (by rw [v1, eq5]; norm_num) (by rw [v1, eq5]; norm_num)
  have es : val (F.sub (F.ofInt 1) (F.sqrt
      (F.add (F.pow (F.ofInt (-5)) (F.ofInt 2)) (F.pow (F.ofInt 0) (F.ofInt 2))))) = -4 := by
    have := le_antisymm hsb.2 hsb.1; rw [this]; norm_num
  have hdv := hF.div_between (F.sub (F.ofInt 1) (F.sqrt
      (F.add (F.pow (F.ofInt (-5)) (F.ofInt 2)) (F.pow (F.ofInt 0) (F.ofInt 2))))) (F.ofInt 1)
    (-4) (-4) (by omega) (by omega) (by rw [v1]; norm_num) (by rw [v1, es]; norm_num)
    (by rw [v1, es]; norm_num)
  have ed : val (F.div (F.sub (F.ofInt 1) (F.sqrt
      (F.add (F.pow (F.ofInt (-5)) (F.ofInt 2)) (F.pow (F.ofInt 0) (F.ofInt 2)))))
      (F.ofInt 1)) = -4 := by
    have := le_antisymm hdv.2 hdv.1; rw [this]; norm_num
  have hml := hF.mul_between (F.ofInt 255) (F.div (F.sub (F.ofInt 1) (F.sqrt
      (F.add (F.pow (F.ofInt (-5)) (F.ofInt 2)) (F.pow (F.ofInt 0) (F.ofInt 2)))))
      (F.ofInt 1)) (-1020) (-1020) (by omega) (by omega) (by rw [v255, ed]; norm_num)
    (by rw [v255, ed]; norm_num)
  have ht := hF.toInt_val _
    (le_trans (by norm_num : (-2147483648 : ℚ) ≤ ((-1020 : Int) : ℚ)) hml.1)
    (lt_of_le_of_lt hml.2 (by norm_num))
  have hb := truncQ_between _ (-1020) (-1020) hml.1 hml.2
  show F.toInt (F.mul (F.ofInt 255) (F.div (F.sub (F.ofInt 1) (F.sqrt
      (F.add (F.pow (F.ofInt (wrap32 (((0 : Nat) : Int) - Int.tdiv 10 2))) (F.ofInt 2))
        (F.pow (F.ofInt (wrap32 (((0 : Nat) : Int) - Int.tdiv 1 2))) (F.ofInt 2)))))
      (F.ofInt 1))) = -1020
  rw [ex, ey, ht]
  omega

/-! ## Lemmas: reads at the end of the file -/

theorem get_failed (s : IStream) (h : s.fail = true) : s.get = (-1, s) := by
  simp [IStream.get, h]

theorem get_eof (s : IStream) (h : s.fail = false) (hp : s.data.length ≤ s.pos) :
    s.get = (-1, { s with fail := true }) := by
  simp [IStream.get, h, List.getElem?_eq_none hp]

/-- A pixel read on a failed stream, or at a position at or past the end of the
file, stores the end-of-file value in the three channels and leaves the stream
failed. -/
theorem read_pixel_eof (b : Int) (i j : Nat) (st : ReadState)
    (hd : st.stream.fail = true ∨ (0 ≤ st.pos ∧ st.stream.data.length ≤ st.pos.toNat)) :
    (read_pixel b i j st).stream.fail = true ∧
    ∀ i' j', pixelAt (read_pixel b i j st).image i' j' =
      (pixelAt st.image i' j').map (fun p => if i' = i ∧ j' = j then ⟨-1, -1, -1⟩ else p) := by
  have key : ∃ s1 : IStream, s1.fail = true ∧ (st.stream.seekg st.pos).get = (-1, s1) := by
    by_cases hf : st.stream.fail = true
    · refine ⟨st.stream, hf, ?_⟩
      have : st.stream.seekg st.pos = st.stream := by simp [IStream.seekg, hf]
      rw [this, get_failed _ hf]
    · have hf' : st.stream.fail = false := by simpa using hf
      obtain ⟨h0, hl⟩ := hd.resolve_left hf
      have hs : st.stream.seekg st.pos = ⟨st.stream.data, st.pos.toNat, false⟩ :=
        seekg_live ⟨rfl, hf'⟩ h0
      refine ⟨⟨st.stream.data, st.pos.toNat, true⟩, rfl, ?_⟩
      rw [hs, get_eof ⟨st.stream.data, st.pos.toNat, false⟩ rfl hl]
  obtain ⟨s1, hs1, hg⟩ := key
  have e1 : (st.stream.seekg st.pos).get.1 = -1 := by rw [hg]
  have e2 : (st.stream.seekg st.pos).get.2 = s1 := by rw [hg]
  have e3 : s1.get = (-1, s1) := get_failed s1 hs1
  constructor
  · simp only [read_pixel, e2, e3, hs1]
  · intro i' j'
    simp only [read_pixel, e1, e2, e3, pixelAt_updPixel]
    cases pixelAt st.image i' j' with
    | none => rfl
    | some p =>
      simp only [Option.map_some']
      split <;> rfl

/-- A row read that starts on a failed stream or at the end of the file leaves
the end-of-file value in the three channels of the first pixel of the row. -/
theorem read_row_eof (b : Int) (i : Nat) (st : ReadState)
    (hd : st.stream.fail = true ∨ (0 ≤ st.pos ∧ st.stream.data.length ≤ st.pos.toNat))
    (p0 : Pixel) (h0 : pixelAt st.image i 0 = some p0) (k : Nat) :
    (forUp (k + 1) (fun j acc => read_pixel b i j acc) st).stream.fail = true ∧
    pixelAt (forUp (k + 1) (fun j acc => read_pixel b i j acc) st).image i 0 =
      some ⟨-1, -1, -1⟩ := by
  induction k with
  | zero =>
    rw [forUp_succ, forUp_zero]
    obtain ⟨hf, hp⟩ := read_pixel_eof b i 0 st hd
    refine ⟨hf, ?_⟩
    rw [hp, h0]
    simp
  | succ k ih =>
    rw [forUp_succ]
    obtain ⟨hf, hp⟩ := read_pixel_eof b i (k + 1) _ (Or.inl ih.1)
    refine ⟨hf, ?_⟩
    rw [hp, ih.2]
    simp

/-- The first pixel of a one-row image whose pixel array starts at or past the
end of the file. -/
theorem read_pixels_eof (hd : Header) (s : IStream) (k : Nat) (hh : hd.height.toNat = 0 + 1)
    (hw : hd.width.toNat = k + 1) (hst : 0 ≤ hd.start)
    (hlen : s.data.length ≤ hd.start.toNat) :
    pixelAt (read_pixels hd s) 0 0 = some ⟨-1, -1, -1⟩ := by
  have hdead : s.fail = true ∨ (0 ≤ hd.start ∧ s.data.length ≤ hd.start.toNat) :=
    Or.inr ⟨hst, hlen⟩
  have h0 : pixelAt (newImage (0 + 1) (k + 1)) 0 0 = some Pixel.zero := by
    rw [pixelAt_newImage, if_pos ⟨by omega, by omega⟩]
  have key := read_row_eof hd.bits_per_pixel 0
    { stream := s, pos := hd.start, image := newImage (0 + 1) (k + 1) } hdead Pixel.zero h0 k
  have e0 : ∀ (body : Nat → ReadState → ReadState) (st : ReadState), forDown 0 body st = st :=
    fun _ _ => rfl
  have e1 : ∀ (b pad : Int) (w i : Nat) (st : ReadState),
      (read_row b pad w i st).image = (forUp w (fun j acc => read_pixel b i j acc) st).image :=
    fun _ _ _ _ _ => rfl
  unfold read_pixels
  rw [hh, hw, forDown_succ, e0, e1]
  exact key.2

/-- The first pixel that `read_image` decodes from `overflowFile`. -/
theorem read_image_overflowFile :
    ∃ g : Grid, read_image (some overflowFile) = some g ∧
      pixelAt g 0 0 = some ⟨-1, -1, -1⟩ := by
  obtain ⟨s, hs, hr⟩ := read_image_eq overflowFile
  have hpass : (header overflowFile).file_size = (header overflowFile).layout_size := by decide
  have hneg : ¬ ((header overflowFile).width < 0 ∨ (header overflowFile).height < 0) := by
    decide
  rw [if_neg (by simpa using hpass), if_neg hneg] at hr
  refine ⟨_, hr, ?_⟩
  have hlen : overflowFile.length = 54 := rfl
  exact read_pixels_eof (header overflowFile) s 1073741823 (by decide) (by decide) (by decide)
    (by rw [hs.1, hlen]; decide)

/-! ## Lemmas: files that hold their whole pixel array -/

/-- A file whose bits-per-pixel field is read as a non-negative value has the
30 bytes of the header fields. -/
theorem header_complete (bs : List Byte) (hb : 0 ≤ (header bs).bits_per_pixel) :
    30 ≤ bs.length := by
  by_contra hlt
  have hf := field_eq bs 28 2
  simp only [Nat.cast_ofNat] at hf
  have hbpp : (header bs).bits_per_pixel = field bs 28 2 := rfl
  have e29 : byteOrEof bs (28 + 1) = -1 := byteOrEof_of_le (by omega)
  have h28 : -1 ≤ byteOrEof bs (28 + 0) ∧ byteOrEof bs (28 + 0) ≤ 255 := by
    by_cases h : 28 + 0 < bs.length
    · have := byteOrEof_range h; omega
    · rw [byteOrEof_of_le (by omega)]; omega
  have hs : leSum bs 28 2 = 0 + byteOrEof bs (28 + 0) * 256 ^ 0 + byteOrEof bs (28 + 1) * 256 ^ 1 :=
    rfl
  rw [hbpp, hf, hs, e29, wrap32_of_range (by omega) (by omega)] at hb
  omega

/-- The arithmetic of the size cross-check and of the pixel positions when the
declared size is the exact size of the layout. -/
theorem layout_arith (fs st w h B P : Int) (hB : B = 3 ∨ B = 4) (hw : 1 ≤ w) (hh : 1 ≤ h)
    (hst : 0 ≤ st) (hP : 0 ≤ P) (hsize : fs = st + (w * B + P) * h) (hfs : fs < 2147483648) :
    wrap32 (w * B) = w * B ∧
    wrap32 (st + wrap32 (wrap32 (w * B + P) * h)) = fs ∧
    ∀ i j : Nat, (i : Int) < h → (j : Int) < w →
      0 ≤ st + (h - 1 - (i : Int)) * (w * B + P) + (j : Int) * B ∧
      st + (h - 1 - (i : Int)) * (w * B + P) + (j : Int) * B + 2 < fs ∧
      st + (h - 1 - (i : Int)) * (w * B + P) + (j : Int) * B < 2147483648 := by
  have hB3 : 3 ≤ B := by omega
  have hB4 : B ≤ 4 := by omega
  have hwB : 3 ≤ w * B := by nlinarith
  have hS : w * B ≤ w * B + P := by omega
  have hSh : w * B + P ≤ (w * B + P) * h := by nlinarith
  have e1 : wrap32 (w * B) = w * B := wrap32_of_range (by omega) (by omega)
  have e2 : wrap32 (w * B + P) = w * B + P := wrap32_of_range (by omega) (by omega)
  have e3 : wrap32 ((w * B + P) * h) = (w * B + P) * h := wrap32_of_range (by omega) (by omega)
  have e4 : wrap32 (st + (w * B + P) * h) = st + (w * B + P) * h :=
    wrap32_of_range (by omega) (by omega)
  refine ⟨e1, by rw [e2, e3, e4, hsize], ?_⟩
  intro i j hi hj
  have hi0 : (0 : Int) ≤ (i : Int) := Int.ofNat_nonneg i
  have hj0 : (0 : Int) ≤ (j : Int) := Int.ofNat_nonneg j
  have k1 : 0 ≤ (h - 1 - (i : Int)) * (w * B + P) := mul_nonneg (by omega) (by omega)
  have k2 : 0 ≤ (j : Int) * B := mul_nonneg hj0 (by omega)
  have k3 : (h - 1 - (i : Int)) * (w * B + P) ≤ (h - 1) * (w * B + P) :=
    mul_le_mul_of_nonneg_right (by omega) (by omega)
  have k4 : (j : Int) * B ≤ (w - 1) * B := mul_le_mul_of_nonneg_right (by omega) (by omega)
  have k5 : (h - 1) * (w * B + P) = (w * B + P) * h - (w * B + P) := by ring
  have k6 : (w - 1) * B = w * B - B := by ring
  refine ⟨by omega, by omega, by omega⟩

/-- A file whose declared size is the exact size of its layout, with 24 or 32
bits per pixel, and which is at least as long as declared, passes the size
cross-check and holds every pixel position. -/
theorem inFile_of_exact (bs : List Byte)
    (hb : (header bs).bits_per_pixel = 24 ∨ (header bs).bits_per_pixel = 32)
    (hw : 1 ≤ (header bs).width) (hh : 1 ≤ (header bs).height) (hst : 0 ≤ (header bs).start)
    (hsize : (header bs).file_size = (header bs).start +
      ((header bs).width * Int.tdiv (header bs).bits_per_pixel 8 + (header bs).padding) *
        (header bs).height)
    (hlen : (header bs).file_size ≤ (bs.length : Int)) :
    (header bs).file_size = (header bs).layout_size ∧ (header bs).InFile bs.length := by
  have hB : Int.tdiv (header bs).bits_per_pixel 8 = 3 ∨
      Int.tdiv (header bs).bits_per_pixel 8 = 4 := by
    rcases hb with h | h
    · left; rw [h]; rfl
    · right; rw [h]; rfl
  have hP : 0 ≤ (header bs).padding := (read_padding_range _).1
  have hfs : (header bs).file_size < 2147483648 := by
    have := (field_range bs 2 4).2
    simp only [Nat.cast_ofNat] at this
    exact this
  obtain ⟨e1, e2, e3⟩ := layout_arith _ _ _ _ _ _ hB hw hh hst hP hsize hfs
  have hsc : (header bs).scanline_size =
      (header bs).width * Int.tdiv (header bs).bits_per_pixel 8 := e1
  refine ⟨?_, ?_⟩
  · unfold Header.layout_size
    rw [hsc, e2]
  · intro i j hi hj
    obtain ⟨p0, p1, p2⟩ := e3 i j hi hj
    exact ⟨p0, lt_of_lt_of_le p1 hlen, p2⟩

/-- The channels of the image decoded from a file that holds every pixel
position. -/
theorem read_image_inFile (bs : List Byte)
    (hpass : (header bs).file_size = (header bs).layout_size)
    (hw : 0 ≤ (header bs).width) (hh : 0 ≤ (header bs).height) (hlen : 30 ≤ bs.length)
    (hin : (header bs).InFile bs.length) :
    ∃ g : Grid, read_image (some bs) = some g ∧
      Shape g (header bs).height.toNat (header bs).width.toNat ∧ ChannelsInRange g := by
  obtain ⟨s, hs, hr⟩ := read_image_eq bs
  have hneg : ¬ ((header bs).width < 0 ∨ (header bs).height < 0) := by omega
  rw [if_neg (by simpa using hpass), if_neg hneg] at hr
  have hshape : Shape (read_pixels (header bs) s) (header bs).height.toNat
      (header bs).width.toNat := shape_read_rows _ _ _ _ _ (shape_newImage _ _)
  refine ⟨_, hr, hshape, ?_⟩
  intro row hrow q hq
  obtain ⟨i, j, hij⟩ := exists_pixelAt_of_mem hrow hq
  obtain ⟨hi, hj⟩ := pixelAt_some_lt hshape hij
  have hi' : (i : Int) < (header bs).height := by omega
  have hj' : (j : Int) < (header bs).width := by omega
  have hpx := read_pixels_eq hs hlen hw hh hin i j hi' hj'
  obtain ⟨hp0, hp2, -⟩ := hin i j hi' hj'
  obtain ⟨b0, b1, b2, -, -, -, e⟩ :=
    pixelFrom_bytes bs ((header bs).pixelPos i j).toNat (by omega)
  rw [hij, e] at hpx
  rw [Option.some.inj hpx]
  have h0 := b0.isLt
  have h1 := b1.isLt
  have h2 := b2.isLt
  show (0 ≤ (b2.val : Int) ∧ (b2.val : Int) ≤ 255) ∧ (0 ≤ (b1.val : Int) ∧ (b1.val : Int) ≤ 255) ∧
    (0 ≤ (b0.val : Int) ∧ (b0.val : Int) ≤ 255)
  exact ⟨⟨by omega, by omega⟩, ⟨by omega, by omega⟩, ⟨by omega, by omega⟩⟩

/-! ## Lemmas: files that pass the size cross-check -/

/-- A file that passes the size cross-check with non-negative width and height
at least 1 is decoded to a non-empty grid, whatever its length. -/
theorem read_image_accepts (bs : List Byte)
    (hpass : (header bs).file_size = (header bs).layout_size)
    (hw : 0 ≤ (header bs).width) (hh : 1 ≤ (header bs).height) :
    ∃ g : Grid, read_image (some bs) = some g ∧
      Shape g (header bs).height.toNat (header bs).width.toNat ∧ g ≠ [] := by
  obtain ⟨s, -, hr⟩ := read_image_eq bs
  have hneg : ¬ ((header bs).width < 0 ∨ (header bs).height < 0) := by omega
  rw [if_neg (by simpa using hpass), if_neg hneg] at hr
  have hshape : Shape (read_pixels (header bs) s) (header bs).height.toNat
      (header bs).width.toNat := shape_read_rows _ _ _ _ _ (shape_newImage _ _)
  refine ⟨_, hr, hshape, ?_⟩
  intro hnil
  have hl := hshape.1
  rw [hnil] at hl
  have : (header bs).height.toNat = 0 := hl.symm
  omega

theorem toneFile_decoded : read_image (some toneFile) = some toneGrid := by decide

theorem proc8_pixel_light :
    proc8_pixel exactModel (1 / 2 : ℚ) ⟨201, 201, 201⟩ = ⟨228, 228, 228⟩ := by
  have e : wrap32 (255 - 201) = 54 := by decide
  have v : ((255 : Int) : ℚ) - ((54 : Int) : ℚ) * (1 / 2 : ℚ) = ((228 : Int) : ℚ) := by norm_num
  have t : Int.tdiv (((228 : Int) : ℚ)).num ((((228 : Int) : ℚ)).den : Int) = 228 := by
    rw [Rat.num_intCast, Rat.den_intCast]; decide
  have k : exactModel.toInt (exactModel.sub (exactModel.ofInt 255)
      (exactModel.mul (exactModel.ofInt (wrap32 (255 - 201))) (1 / 2 : ℚ))) = 228 := by
    rw [e]
    show Int.tdiv (((255 : Int) : ℚ) - ((54 : Int) : ℚ) * (1 / 2 : ℚ)).num
      ((((255 : Int) : ℚ) - ((54 : Int) : ℚ) * (1 / 2 : ℚ)).den : Int) = 228
    rw [v, t]
  show Pixel.mk _ _ _ = _
  rw [k]

theorem proc9_pixel_dark :
    proc9_pixel exactModel (1 / 2 : ℚ) ⟨40, 40, 40⟩ = ⟨20, 20, 20⟩ := by
  have v : ((40 : Int) : ℚ) * (1 / 2 : ℚ) = ((20 : Int) : ℚ) := by norm_num
  have t : Int.tdiv (((20 : Int) : ℚ)).num ((((20 : Int) : ℚ)).den : Int) = 20 := by
    rw [Rat.num_intCast, Rat.den_intCast]; decide
  have k : exactModel.toInt (exactModel.mul (exactModel.ofInt 40) (1 / 2 : ℚ)) = 20 := by
    show Int.tdiv (((40 : Int) : ℚ) * (1 / 2 : ℚ)).num
      ((((40 : Int) : ℚ) * (1 / 2 : ℚ)).den : Int) = 20
    rw [v, t]
  show Pixel.mk _ _ _ = _
  rw [k]

/-- The empty grid is returned exactly when the size cross-check fails or the
declared height is 0 (with a non-negative width). -/
theorem read_image_empty_iff (bs : List Byte) :
    read_image (some bs) = some [] ↔
      ((header bs).file_size ≠ (header bs).layout_size ∨
        (0 ≤ (header bs).width ∧ (header bs).height = 0)) := by
  obtain ⟨s, -, hr⟩ := read_image_eq bs
  have hshape : Shape (read_pixels (header bs) s) (header bs).height.toNat
      (header bs).width.toNat := shape_read_rows _ _ _ _ _ (shape_newImage _ _)
  by_cases h1 : (header bs).file_size ≠ (header bs).layout_size
  · rw [if_pos h1] at hr
    exact ⟨fun _ => Or.inl h1, fun _ => hr⟩
  · rw [if_neg h1] at hr
    by_cases h2 : (header bs).width < 0 ∨ (header bs).height < 0
    · rw [if_pos h2] at hr
      rw [hr]
      constructor
      · intro h; exact absurd h (by simp)
      · intro h
        rcases h with h | ⟨h3, h4⟩
        · exact absurd h h1
        · omega
    · rw [if_neg h2] at hr
      rw [hr]
      constructor
      · intro h
        right
        have hl := hshape.1
        rw [Option.some.inj h] at hl
        have : (header bs).height.toNat = 0 := hl.symm
        omega
      · intro h
        rcases h with h | ⟨h3, h4⟩
        · exact absurd h h1
        · have hl := hshape.1
          rw [h4] at hl
          have : (read_pixels (header bs) s).length = 0 := hl
          rw [List.length_eq_zero.mp this]

/-! ## The claims -/

/-- C1: round trip. For every rectangular grid `g` with height and width at
least 1, every channel in `[0, 255]` and sizes (height, width, file size) that
fit a 32-bit signed int, `read_image` applied to the bytes that `write_image`
produces for `g` returns exactly `g`; consequently, for every valid 24-bit file
`f`, decoding the re-encoded decoding of `f` gives the decoding of `f`. -/
theorem read_write_round_trip (g : Grid) (h w : Nat) (f : List Byte) (hs : Shape g h w)
    (hh : 1 ≤ h) (_hw : 1 ≤ w) (hr : ChannelsInRange g) (hhb : h < 2147483648)
    (hsz : 14 + 40 + (3 * w + padNat w) * h < 2147483648) (hv : Valid24 f) :
    (∃ bytes : List Byte, write_image g = some bytes ∧ read_image (some bytes) = some g) ∧
      ∃ (g' : Grid) (bytes' : List Byte), read_image (some f) = some g' ∧
        write_image g' = some bytes' ∧ read_image (some bytes') = read_image (some f) := by
  constructor
  · exact read_write hs hh hhb (by omega) hr
  · obtain ⟨g', hg', hs', hr', h1, h2, h3⟩ := decode_valid24 f hv
    obtain ⟨bytes', hw', hrd'⟩ := read_write hs' h1 h2 h3 hr'
    exact ⟨g', bytes', hg', hw', by rw [hrd', hg']⟩

theorem read_write_round_trip_witness :
    (∃ bytes : List Byte, write_image sampleGrid = some bytes ∧
        read_image (some bytes) = some sampleGrid) ∧
      ∃ (g' : Grid) (bytes' : List Byte), read_image (some sampleFile) = some g' ∧
        write_image g' = some bytes' ∧ read_image (some bytes') = read_image (some sampleFile) :=
  read_write_round_trip sampleGrid 2 2 sampleFile (by decide) (by decide) (by decide) (by decide)
    (by decide) (by decide) (by decide)

/-- C2, as stated, fails: `wrapFile` declares 54 bytes, while
`start + (width * (bits_per_pixel / 8) + padding) * height` computed from its
header fields is `54 + 2 ^ 20 * 4096 = 4294967350`; the code computes the
scan-line size `2 ^ 20 * 4096` as the `int` 0, finds the two sizes equal and
returns a grid of one row, not the empty grid. -/
theorem read_image_accepts_wrapped_size :
    (header wrapFile).file_size = 54 ∧
    (header wrapFile).start +
      ((header wrapFile).width * Int.tdiv (header wrapFile).bits_per_pixel 8 +
        read_padding ((header wrapFile).width * Int.tdiv (header wrapFile).bits_per_pixel 8)) *
        (header wrapFile).height = 4294967350 ∧
    (header wrapFile).layout_size = 54 ∧
    ∃ g : Grid, read_image (some wrapFile) = some g ∧ Shape g 1 1048576 ∧ g ≠ [] := by
  refine ⟨by decide, by decide, by decide, ?_⟩
  obtain ⟨g, hg, hs, hne⟩ := read_image_accepts wrapFile (by decide) (by decide) (by decide)
  have hh : (header wrapFile).height.toNat = 1 := by decide
  have hw : (header wrapFile).width.toNat = 1048576 := by decide
  rw [hh, hw] at hs
  exact ⟨g, hg, hs, hne⟩

/-- C2, amended: structural-mismatch rejection. For every input byte sequence,
if the declared file-size field (four bytes little-endian at offset 2) differs
from `start + (width * (bits_per_pixel / 8) + padding) * height` computed from
the header fields in the 32-bit two's-complement `int` arithmetic of the code,
`read_image` returns the empty grid. -/
theorem read_image_rejects_size_mismatch (bs : List Byte)
    (h : (header bs).file_size ≠ (header bs).layout_size) :
    read_image (some bs) = some [] := by
  obtain ⟨s, -, hs⟩ := read_image_eq bs
  rw [hs, if_pos h]

theorem read_image_rejects_size_mismatch_witness :
    (header misdeclaredFile).file_size ≠ (header misdeclaredFile).layout_size ∧
      read_image (some misdeclaredFile) = some [] :=
  ⟨by decide, read_image_rejects_size_mismatch misdeclaredFile (by decide)⟩

/-- C3, as stated, fails: the file `truncatedFile` has 56 bytes while
`start + (scanline_size + padding) * height` computed from its header is 58
(also as an exact integer), and `read_image` returns a 1 x 1 grid (whose red
channel is the end-of-file value), not the empty grid. -/
theorem read_image_accepts_truncated_file :
    (truncatedFile.length : Int) = 56 ∧
    (header truncatedFile).start +
      ((header truncatedFile).width * Int.tdiv (header truncatedFile).bits_per_pixel 8 +
        read_padding
          ((header truncatedFile).width * Int.tdiv (header truncatedFile).bits_per_pixel 8)) *
        (header truncatedFile).height = 58 ∧
    (truncatedFile.length : Int) ≠ (header truncatedFile).layout_size ∧
      read_image (some truncatedFile) = some [[⟨-1, 2, 3⟩]] :=
  ⟨by decide, by decide, by decide, by decide⟩

/-- C3, amended: `read_image` never measures the file. For every input file,
whatever its actual number of bytes: if the declared file-size field differs
from `start + (scanline_size + padding) * height` computed from its header in
the `int` arithmetic of the code, `read_image` returns the empty grid; if the
declared field agrees with it, with width at least 0 and height at least 1,
`read_image` returns a grid of `height` rows of `width` pixels, not the empty
grid, also when the pixel data is truncated or followed by trailing bytes; and
two files with the same header fields are rejected or accepted alike. -/
theorem read_image_ignores_length (bs : List Byte) :
    ((header bs).file_size ≠ (header bs).layout_size → read_image (some bs) = some []) ∧
    ((header bs).file_size = (header bs).layout_size → 0 ≤ (header bs).width →
      1 ≤ (header bs).height →
      ∃ g : Grid, read_image (some bs) = some g ∧
        Shape g (header bs).height.toNat (header bs).width.toNat ∧ g ≠ []) ∧
    ∀ bs' : List Byte, header bs' = header bs →
      (read_image (some bs') = some [] ↔ read_image (some bs) = some []) := by
  refine ⟨?_, read_image_accepts bs, ?_⟩
  · intro h
    obtain ⟨s, -, hs⟩ := read_image_eq bs
    rw [hs, if_pos h]
  · intro bs' hhd
    rw [read_image_empty_iff, read_image_empty_iff, hhd]

theorem read_image_ignores_length_witness :
    ((misdeclaredLongFile.length : Int) = 60 ∧ (header misdeclaredLongFile).file_size = 57 ∧
      (header misdeclaredLongFile).layout_size = 58 ∧
      read_image (some misdeclaredLongFile) = some []) ∧
    ((truncatedFile.length : Int) = 56 ∧ (header truncatedFile).layout_size = 58 ∧
      ∃ g : Grid, read_image (some truncatedFile) = some g ∧ Shape g 1 1 ∧ g ≠ []) ∧
    ((trailingFile.length : Int) = 60 ∧ (header trailingFile).layout_size = 58 ∧
      ∃ g : Grid, read_image (some trailingFile) = some g ∧ Shape g 1 1 ∧ g ≠ []) ∧
    ((shortFile.length : Int) = 58 ∧ (header shortFile).file_size = 58 ∧
      (header shortFile).layout_size = 62 ∧ read_image (some shortFile) = some []) :=
  ⟨⟨by decide, by decide, by decide,
      (read_image_ignores_length misdeclaredLongFile).1 (by decide)⟩,
    ⟨by decide, by decide,
      (read_image_ignores_length truncatedFile).2.1 (by decide) (by decide) (by decide)⟩,
    ⟨by decide, by decide,
      (read_image_ignores_length trailingFile).2.1 (by decide) (by decide) (by decide)⟩,
    ⟨by decide, by decide, by decide, (read_image_ignores_length shortFile).1 (by decide)⟩⟩

/-- C9: little-endian integer codec. Over `k` bytes (`1 ≤ k ≤ 4`) inside the
file, `get_int` returns the sum of `byte[i] * 256 ^ i` for `i < k` whenever that
sum is below `2 ^ 31`; and for every value `v` with `0 ≤ v < 2 ^ 31` and
`v < 2 ^ (8 k)`, `get_int` reading the `k` bytes that `set_bytes` wrote at the
offset returns `v`. -/
theorem get_int_little_endian (bs arr : List Byte) (o o' k : Nat) (v : Int)
    (_hk : 1 ≤ k ∧ k ≤ 4) (hlen : o + k ≤ bs.length)
    (hsum : (∑ i ∈ Finset.range k, ((bs.getD (o + i) 0).val : Int) * 256 ^ i) < 2147483648)
    (hlen' : o' + k ≤ arr.length) (hv0 : 0 ≤ v) (hv1 : v < 2147483648)
    (hv2 : v < 2 ^ (8 * k)) :
    (get_int (IStream.openFile (some bs)) (o : Int) (k : Int)).1 =
        ∑ i ∈ Finset.range k, ((bs.getD (o + i) 0).val : Int) * 256 ^ i ∧
      (get_int (IStream.openFile (some (set_bytes arr (o' : Int) (k : Int) v)))
        (o' : Int) (k : Int)).1 = v := by
  constructor
  · have hf := field_eq bs o k
    unfold field at hf
    have hs : leSum bs o k = ∑ i ∈ Finset.range k, ((bs.getD (o + i) 0).val : Int) * 256 ^ i := by
      rw [leSum_eq_sum]
      apply Finset.sum_congr rfl
      intro i hi
      have hik : i < k := Finset.mem_range.mp hi
      rw [byteOrEof_of_lt (by omega)]
    rw [hf, hs]
    apply wrap32_of_range _ hsum
    have : (0 : Int) ≤ ∑ i ∈ Finset.range k, ((bs.getD (o + i) 0).val : Int) * 256 ^ i :=
      Finset.sum_nonneg (fun i _ => by positivity)
    omega
  · obtain ⟨n, rfl⟩ := Int.eq_ofNat_of_zero_le hv0
    have hf := field_eq (set_bytes arr (o' : Int) (k : Int) (n : Int)) o' k
    unfold field at hf
    rw [hf, leSum_set_bytes arr o' k n hlen']
    have hn : n < 256 ^ k := by
      have h256 : (256 : Nat) ^ k = 2 ^ (8 * k) := by rw [pow_mul]; norm_num
      rw [h256]
      exact_mod_cast hv2
    rw [Nat.mod_eq_of_lt hn]
    exact wrap32_of_range (by omega) hv1

theorem get_int_little_endian_witness :
    (get_int (IStream.openFile (some [7, 1, 2, 9])) ((1 : Nat) : Int) ((2 : Nat) : Int)).1 =
        ∑ i ∈ Finset.range 2, (((([7, 1, 2, 9] : List Byte).getD (1 + i) 0).val : Int)) * 256 ^ i ∧
      (get_int (IStream.openFile (some (set_bytes [0, 0, 0, 0, 0, 0] ((2 : Nat) : Int)
        ((2 : Nat) : Int) 4660))) ((2 : Nat) : Int) ((2 : Nat) : Int)).1 = 4660 :=
  get_int_little_endian [7, 1, 2, 9] [0, 0, 0, 0, 0, 0] 1 2 2 4660 (by decide) (by decide)
    (by decide) (by decide) (by decide) (by decide) (by decide)

/-- C5, as stated, fails: `truncatedFile` passes the size cross-check with width
1, height 1 and 24 bits per pixel, the position of pixel `[0][0]` is 54, and the
file has no byte at position 56; the red channel that `read_image` returns is
the end-of-file value `-1`, not a byte of the file. -/
theorem read_image_pixel_past_end :
    (header truncatedFile).file_size = (header truncatedFile).layout_size ∧
      (header truncatedFile).width = 1 ∧ (header truncatedFile).height = 1 ∧
      (header truncatedFile).bits_per_pixel = 24 ∧
      (header truncatedFile).pixelPos 0 0 = 54 ∧
      truncatedFile[56]? = none ∧
      read_image (some truncatedFile) = some [[⟨-1, 2, 3⟩]] :=
  ⟨by decide, by decide, by decide, by decide, by decide, by decide, by decide⟩

/-- C5, amended: for every byte sequence that passes the size cross-check with
width `w ≥ 0` and height `h ≥ 0`, `read_image` returns a grid of exactly `h`
rows of `w` pixels; and when the file has a complete header (30 bytes) and every
position `p = start + (h - 1 - i) * (w * (b / 8) + padding) + j * (b / 8)` lies
inside the file with the two bytes after it (`0 ≤ p`, `p + 2 < length`,
`p < 2 ^ 31`), pixel `[i][j]` has blue, green, red equal to the bytes at
positions `p`, `p + 1`, `p + 2`. -/
theorem read_image_layout (bs : List Byte)
    (hpass : (header bs).file_size = (header bs).layout_size)
    (hw : 0 ≤ (header bs).width) (hh : 0 ≤ (header bs).height) :
    ∃ g : Grid, read_image (some bs) = some g ∧
      Shape g (header bs).height.toNat (header bs).width.toNat ∧
      (30 ≤ bs.length → (header bs).InFile bs.length →
        ∀ i j : Nat, (i : Int) < (header bs).height → (j : Int) < (header bs).width →
          ∃ b0 b1 b2 : Byte,
            bs[((header bs).pixelPos i j).toNat]? = some b0 ∧
            bs[((header bs).pixelPos i j).toNat + 1]? = some b1 ∧
            bs[((header bs).pixelPos i j).toNat + 2]? = some b2 ∧
            pixelAt g i j = some ⟨(b2.val : Int), (b1.val : Int), (b0.val : Int)⟩) := by
  obtain ⟨s, hs, hr⟩ := read_image_eq bs
  have hneg : ¬ ((header bs).width < 0 ∨ (header bs).height < 0) := by omega
  rw [if_neg (by simpa using hpass), if_neg hneg] at hr
  refine ⟨_, hr, ?_, ?_⟩
  · exact shape_read_rows _ _ _ _ _ (shape_newImage _ _)
  · intro hlen hin i j hi hj
    have hpx := read_pixels_eq hs hlen hw hh hin i j hi hj
    obtain ⟨hp0, hp2, -⟩ := hin i j hi hj
    obtain ⟨b0, b1, b2, e0, e1, e2, e⟩ :=
      pixelFrom_bytes bs ((header bs).pixelPos i j).toNat (by omega)
    exact ⟨b0, b1, b2, e0, e1, e2, by rw [hpx, e]⟩

theorem read_image_layout_witness :
    ∃ g : Grid, read_image (some sampleFile) = some g ∧ Shape g 2 2 ∧
      pixelAt g 0 1 = some ⟨0, 255, 0⟩ := by
  obtain ⟨g, hg, hshape, hpix⟩ :=
    read_image_layout sampleFile (by decide) (by decide) (by decide)
  refine ⟨g, hg, hshape, ?_⟩
  have hin : (header sampleFile).InFile sampleFile.length := by
    intro i j hi hj
    have hi2 : i < 2 := by
      have : (header sampleFile).height = 2 := by decide
      omega
    have hj2 : j < 2 := by
      have : (header sampleFile).width = 2 := by decide
      omega
    interval_cases i <;> interval_cases j <;> decide
  obtain ⟨b0, b1, b2, e0, e1, e2, e⟩ := hpix (by decide) hin 0 1 (by decide) (by decide)
  have p : ((header sampleFile).pixelPos 0 1).toNat = 65 := by decide
  rw [p] at e0 e1 e2
  have v0 : b0 = 0 := by
    have : sampleFile[65]? = some 0 := by decide
    rw [this] at e0; exact (Option.some.inj e0).symm
  have v1 : b1 = 255 := by
    have : sampleFile[65 + 1]? = some 255 := by decide
    rw [this] at e1; exact (Option.some.inj e1).symm
  have v2 : b2 = 0 := by
    have : sampleFile[65 + 2]? = some 0 := by decide
    rw [this] at e2; exact (Option.some.inj e2).symm
  rw [e, v0, v1, v2]
  rfl

/-- C4, as stated, fails: `wideGrid` is a rectangular grid of height 1 and width
`2 ^ 31`; its width read as an `int` is negative, so `write_image` writes the 54
header bytes and no pixel, and there is no byte at offset
`54 + (1 - 1 - 0) * (3 w + P) + 3 * 0 + 0`. -/
theorem write_image_wide_grid_no_pixels :
    Shape wideGrid 1 2147483648 ∧ pixelAt wideGrid 0 0 = some ⟨1, 1, 1⟩ ∧
      ∃ out : List Byte, write_image wideGrid = some out ∧
        out[54 + (1 - 1 - 0) * (3 * 2147483648 + padNat 2147483648) + 3 * 0 + 0]? = none := by
  refine ⟨⟨rfl, ?_⟩, ?_, _, write_image_wideGrid, ?_⟩
  · intro row hrow
    simp only [wideGrid, List.mem_singleton] at hrow
    rw [hrow, List.length_replicate]
  · simp only [pixelAt, wideGrid, List.getElem?_cons_zero, List.getElem?_replicate]
    rw [if_pos (by decide)]
  · apply List.getElem?_eq_none
    rw [length_headers]
    omega

/-- C4, amended: for every non-empty rectangular grid of height `h` and width `w`
that fit a 32-bit signed int, with `P = (4 - (3 w mod 4)) mod 4`, the bytes
written by `write_image` at file offsets `54 + (h - 1 - r) * (3 w + P) + 3 c + k`
for `k = 0, 1, 2` are the blue, green, red channel of `grid[r][c]` reduced
modulo 256. -/
theorem write_image_pixel_layout (image : Grid) (h w : Nat) (hs : Shape image h w)
    (hh : 0 < h) (hhb : h < 2147483648) (hwb : w < 2147483648) :
    ∃ out : List Byte, write_image image = some out ∧
      ∀ (r c : Nat) (p : Pixel), r < h → c < w → pixelAt image r c = some p →
        out[54 + (h - 1 - r) * (3 * w + padNat w) + 3 * c + 0]? = some (toUChar p.blue) ∧
        out[54 + (h - 1 - r) * (3 * w + padNat w) + 3 * c + 1]? = some (toUChar p.green) ∧
        out[54 + (h - 1 - r) * (3 * w + padNat w) + 3 * c + 2]? = some (toUChar p.red) := by
  obtain ⟨H, hH, hout, -⟩ := write_image_bytes hs hh hhb hwb
  exact ⟨_, hout, fun r c p hr hc hp => encoded_pixel hs H hH r c hr hc p hp⟩

theorem write_image_pixel_layout_witness :
    ∃ out : List Byte, write_image rowGrid = some out ∧
      ∀ (r c : Nat) (p : Pixel), r < 1 → c < 3 → pixelAt rowGrid r c = some p →
        out[54 + (1 - 1 - r) * (3 * 3 + padNat 3) + 3 * c + 0]? = some (toUChar p.blue) ∧
        out[54 + (1 - 1 - r) * (3 * 3 + padNat 3) + 3 * c + 1]? = some (toUChar p.green) ∧
        out[54 + (1 - 1 - r) * (3 * 3 + padNat 3) + 3 * c + 2]? = some (toUChar p.red) :=
  write_image_pixel_layout rowGrid 1 3 (by decide) (by decide) (by decide) (by decide)

/-- C6, as stated, fails: for `wideGrid`, of width `w = 2 ^ 31`, the padding is 0
and the single encoded row occupies no byte at all instead of `3 w + padding`:
the whole file has 54 bytes. -/
theorem write_image_wide_grid_row_length :
    Shape wideGrid 1 2147483648 ∧ padding_bytes wideGrid = 0 ∧
      ∃ out : List Byte, write_image wideGrid = some out ∧ out.length = 54 ∧
        out.length ≠ 54 + 1 * (3 * 2147483648 + 0) := by
  refine ⟨⟨rfl, ?_⟩, ?_, _, write_image_wideGrid, length_headers _ _ _, ?_⟩
  · intro row hrow
    simp only [wideGrid, List.mem_singleton] at hrow
    rw [hrow, List.length_replicate]
  · have e1 : wrap32 ((2147483648 : Nat) : Int) = -2147483648 := by decide
    simp only [padding_bytes, wideGrid, List.headD_cons, List.length_replicate, e1]
    decide
  · rw [length_headers]
    omega

/-- C6, amended: for every non-empty rectangular grid of height `h` and width `w`
that fit a 32-bit signed int, the padding count computed by `write_image` is in
`{0, 1, 2, 3}`, `3 w + padding` is a multiple of 4, the file consists of the 54
header bytes and `h` rows of `3 w + padding` bytes each, and every padding byte
written after a row's pixel bytes is zero. -/
theorem write_image_padding (image : Grid) (h w : Nat) (hs : Shape image h w)
    (hh : 0 < h) (hhb : h < 2147483648) (hwb : w < 2147483648) :
    (0 ≤ padding_bytes image ∧ padding_bytes image < 4) ∧
      (3 * (w : Int) + padding_bytes image) % 4 = 0 ∧
      ∃ out : List Byte, write_image image = some out ∧
        (out.length : Int) = 54 + (h : Int) * (3 * (w : Int) + padding_bytes image) ∧
        ∀ (f t : Nat), f < h → (t : Int) < padding_bytes image →
          out[54 + f * (3 * w + (padding_bytes image).toNat) + 3 * w + t]? = some (0 : Byte) := by
  have hp : padding_bytes image = ((padNat w : Nat) : Int) := by
    apply padding_bytes_eq
    cases image with
    | nil => simp [Shape] at hs; omega
    | cons row0 rest => simpa using hs.2 row0 (List.mem_cons_self _ _)
  have hlt := padNat_lt w
  have hrow := padNat_row w
  obtain ⟨H, hH, hout, -⟩ := write_image_bytes hs hh hhb hwb
  refine ⟨by omega, by omega, _, hout, ?_, ?_⟩
  · rw [length_encoded hs H hH, hp]
    push_cast
    ring
  · intro f t hf ht
    rw [hp] at ht ⊢
    have ht' : t < padNat w := by omega
    have := encoded_padding hs H hH (h - 1 - f) (by omega) t ht'
    have e : h - 1 - (h - 1 - f) = f := by omega
    rw [e] at this
    simpa using this

theorem write_image_padding_witness :
    (0 ≤ padding_bytes rowGrid ∧ padding_bytes rowGrid < 4) ∧
      (3 * ((3 : Nat) : Int) + padding_bytes rowGrid) % 4 = 0 ∧
      ∃ out : List Byte, write_image rowGrid = some out ∧
        (out.length : Int) = 54 + ((1 : Nat) : Int) * (3 * ((3 : Nat) : Int) + padding_bytes rowGrid) ∧
        ∀ (f t : Nat), f < 1 → (t : Int) < padding_bytes rowGrid →
          out[54 + f * (3 * 3 + (padding_bytes rowGrid).toNat) + 3 * 3 + t]? = some (0 : Byte) :=
  write_image_padding rowGrid 1 3 (by decide) (by decide) (by decide) (by decide)

/-- C7: encoder self-consistency. For every non-empty rectangular grid whose
sizes (height, width, file size) fit a 32-bit signed int, the total number of
bytes `write_image` emits equals the value stored little-endian in bytes 2-5 of
the file, and both equal `14 + 40 + (3 * width + padding) * height`. -/
theorem write_image_size_consistent (image : Grid) (h w : Nat) (hs : Shape image h w)
    (hh : 0 < h) (hhb : h < 2147483648)
    (hsz : 14 + 40 + (3 * w + padNat w) * h < 2147483648) :
    ∃ out : List Byte, write_image image = some out ∧
      (∃ b2 b3 b4 b5 : Byte, out[2]? = some b2 ∧ out[3]? = some b3 ∧ out[4]? = some b4 ∧
        out[5]? = some b5 ∧
        out.length = b2.val + 256 * b3.val + 65536 * b4.val + 16777216 * b5.val) ∧
      out.length = 14 + 40 + (3 * w + padNat w) * h := by
  have hrow : 3 * w + padNat w ≤ (3 * w + padNat w) * h := Nat.le_mul_of_pos_right _ hh
  obtain ⟨H, hH, hout, hhdr⟩ := write_image_bytes hs hh hhb (by omega)
  have hH' := hhdr (by omega)
  have hlen := length_encoded hs H hH
  refine ⟨_, hout, ⟨byteOf (54 + (3 * w + padNat w) * h),
    byteOf ((54 + (3 * w + padNat w) * h) / 256), byteOf ((54 + (3 * w + padNat w) * h) / 65536),
    byteOf ((54 + (3 * w + padNat w) * h) / 16777216), ?_, ?_, ?_, ?_, ?_⟩, by omega⟩
  · rw [hH', headerBytes_append]; rfl
  · rw [hH', headerBytes_append]; rfl
  · rw [hH', headerBytes_append]; rfl
  · rw [hH', headerBytes_append]; rfl
  · rw [hlen]
    simp only [byteOf]
    omega

theorem write_image_size_consistent_witness :
    ∃ out : List Byte, write_image rowGrid = some out ∧
      (∃ b2 b3 b4 b5 : Byte, out[2]? = some b2 ∧ out[3]? = some b3 ∧ out[4]? = some b4 ∧
        out[5]? = some b5 ∧
        out.length = b2.val + 256 * b3.val + 65536 * b4.val + 16777216 * b5.val) ∧
      out.length = 14 + 40 + (3 * 3 + padNat 3) * 1 :=
  write_image_size_consistent rowGrid 1 3 (by decide) (by decide) (by decide) (by decide)

/-- C8: encoder header contents. For every non-empty rectangular grid whose
sizes (height, width, file size) fit a 32-bit signed int, the first 54 bytes
written by `write_image` are: 'B', 'M'; the file size; four zero reserved bytes;
the pixel-array offset 54; then header size 40, width, height, planes 1 and
bits-per-pixel 24 (16 bits each), compression 0, image data size
`(3 * width + padding) * height`, horizontal and vertical resolution 2835,
palette size 0, important colours 0, all little-endian. -/
theorem write_image_header (image : Grid) (h w : Nat) (hs : Shape image h w)
    (hh : 0 < h) (hhb : h < 2147483648)
    (hsz : 14 + 40 + (3 * w + padNat w) * h < 2147483648) :
    ∃ out : List Byte, write_image image = some out ∧
      out.take 54 =
        [66, 77] ++ u32le (14 + 40 + (3 * w + padNat w) * h) ++ [0, 0, 0, 0] ++ u32le 54 ++
          u32le 40 ++ u32le w ++ u32le h ++ u16le 1 ++ u16le 24 ++ u32le 0 ++
          u32le ((3 * w + padNat w) * h) ++ u32le 2835 ++ u32le 2835 ++ u32le 0 ++ u32le 0 := by
  have hrow : 3 * w + padNat w ≤ (3 * w + padNat w) * h := Nat.le_mul_of_pos_right _ hh
  obtain ⟨H, hH, hout, hhdr⟩ := write_image_bytes hs hh hhb (by omega)
  have hH' := hhdr (by omega)
  refine ⟨_, hout, ?_⟩
  rw [List.take_left' hH, hH']
  rfl

theorem write_image_header_witness :
    ∃ out : List Byte, write_image rowGrid = some out ∧
      out.take 54 =
        [66, 77] ++ u32le (14 + 40 + (3 * 3 + padNat 3) * 1) ++ [0, 0, 0, 0] ++ u32le 54 ++
          u32le 40 ++ u32le 3 ++ u32le 1 ++ u16le 1 ++ u16le 24 ++ u32le 0 ++
          u32le ((3 * 3 + padNat 3) * 1) ++ u32le 2835 ++ u32le 2835 ++ u32le 0 ++ u32le 0 :=
  write_image_header rowGrid 1 3 (by decide) (by decide) (by decide) (by decide)

/-- C10, as stated, fails: `wideGrid` is a rectangular grid of height 1 and width
`2 ^ 31`; its width read as an `int` is negative, the `vector` constructor of
`rotate_90` throws, and no grid of `w` rows is returned. -/
theorem rotate_90_wide_grid_throws :
    Shape wideGrid 1 2147483648 ∧ rotate_90 wideGrid = none := by
  refine ⟨⟨rfl, ?_⟩, ?_⟩
  · intro row hrow
    simp only [wideGrid, List.mem_singleton] at hrow
    rw [hrow, List.length_replicate]
  · have e1 : wrap32 ((2147483648 : Nat) : Int) = -2147483648 := by decide
    unfold rotate_90 wideGrid
    simp only [List.length_replicate, e1]
    exact if_pos (Or.inl (by decide))

/-- C10, amended: for every rectangular grid `g` of height `h ≥ 1` and width
`w ≥ 1` that fit a 32-bit signed int, `rotate_90 g` has `w` rows of `h` pixels
and `rotate_90(g)[c][h - 1 - r] = g[r][c]` for all `r < h`, `c < w`; and `proc4`
runs the same computation as `rotate_90` on the image it reads. -/
theorem rotate_90_rule (g : Grid) (h w : Nat) (file : Option (List Byte))
    (hs : Shape g h w) (hh : 1 ≤ h) (_hw : 1 ≤ w) (hhb : h < 2147483648)
    (hwb : w < 2147483648) :
    (∃ g' : Grid, rotate_90 g = some g' ∧ Shape g' w h ∧
      ∀ r c, r < h → c < w → ∃ p, pixelAt g r c = some p ∧ pixelAt g' c (h - 1 - r) = some p) ∧
      proc4 file = (read_image file).bind rotate_90 := by
  obtain ⟨g', hg', hs', hpx⟩ := rotate_90_spec hs hh hhb hwb
  refine ⟨⟨g', hg', hs', ?_⟩, proc4_eq file⟩
  intro r c hr hc
  obtain ⟨p, hp⟩ := pixelAt_isSome hs hr hc
  exact ⟨p, hp, by rw [hpx r c hr hc, hp]⟩

theorem rotate_90_rule_witness :
    (∃ g' : Grid, rotate_90 sampleGrid = some g' ∧ Shape g' 2 2 ∧
      ∀ r c, r < 2 → c < 2 →
        ∃ p, pixelAt sampleGrid r c = some p ∧ pixelAt g' c (2 - 1 - r) = some p) ∧
      proc4 (some sampleFile) = (read_image (some sampleFile)).bind rotate_90 :=
  rotate_90_rule sampleGrid 2 2 (some sampleFile) (by decide) (by decide) (by decide)
    (by decide) (by decide)

/-- C11, as stated, fails: `wideGrid` is a rectangular grid of height 1 and width
`2 ^ 31`; already the first `rotate_90` throws, so four applications do not
return the grid. -/
theorem rotate_90_four_times_wide_grid :
    Shape wideGrid 1 2147483648 ∧
      (((rotate_90 wideGrid).bind rotate_90).bind rotate_90).bind rotate_90 = none := by
  refine ⟨shape_wideGrid, ?_⟩
  rw [rotate_90_wideGrid]
  rfl

/-- C11, amended: for every rectangular grid `g` with height and width at least
1 that fit a 32-bit signed int,
`rotate_90(rotate_90(rotate_90(rotate_90(g)))) = g`. -/
theorem rotate_90_four_times (g : Grid) (h w : Nat) (hs : Shape g h w) (hh : 1 ≤ h)
    (hw : 1 ≤ w) (hhb : h < 2147483648) (hwb : w < 2147483648) :
    (((rotate_90 g).bind rotate_90).bind rotate_90).bind rotate_90 = some g := by
  have h4 := rotate_n_four hs hh hw hhb hwb
  have e : rotate_n (3 + 1) g = (rotate_n 3 g).bind (rotate_n 1) := rotate_n_add 3 1 g
  have e1 : rotate_n 1 = rotate_90 := funext rotate_n_one
  rw [e1, rotate_n_three] at e
  rw [← e]
  exact h4

theorem rotate_90_four_times_witness :
    (((rotate_90 sampleGrid).bind rotate_90).bind rotate_90).bind rotate_90 = some sampleGrid :=
  rotate_90_four_times sampleGrid 2 2 (by decide) (by decide) (by decide) (by decide)
    (by decide)

/-- C12: multi-step rotation. For every rotation count `n ≥ 0` with `90 n`
representable as a 32-bit signed int and every image `g` that `proc5` reads with
height and width at least 1, `proc5` with count `n` returns `rotate_90` applied
`n` times to `g`, equivalently `n mod 4` times. -/
theorem proc5_rotates (file : Option (List Byte)) (g : Grid) (h w : Nat) (n : Int)
    (hread : read_image file = some g) (hs : Shape g h w) (hh : 1 ≤ h) (hw : 1 ≤ w)
    (hn : 0 ≤ n) (hrep : 90 * n < 2147483648) :
    proc5 file n = rotate_n n.toNat g ∧ proc5 file n = rotate_n (n.toNat % 4) g := by
  obtain ⟨hhb, hwb, -⟩ := decoded_bounds hread hs hh
  obtain ⟨k, rfl⟩ := Int.eq_ofNat_of_zero_le hn
  have hk : 90 * k < 2147483648 := by omega
  have hp : proc5 file (k : Int) = rotate_n (k % 4) g := by
    rw [proc5_of_read hread]
    exact proc5_image_eq g k hk
  rw [Int.toNat_ofNat]
  exact ⟨by rw [hp, ← rotate_n_mod hs hh hw hhb hwb k], hp⟩

theorem proc5_rotates_witness :
    proc5 (some sampleFile) 5 = rotate_n (5 : Int).toNat sampleGrid ∧
      proc5 (some sampleFile) 5 = rotate_n ((5 : Int).toNat % 4) sampleGrid :=
  proc5_rotates (some sampleFile) sampleGrid 2 2 5 (by decide) (by decide) (by decide)
    (by decide) (by decide) (by decide)

/-- C13, as stated, fails: `sampleFile` decodes to the 2 x 2 grid `sampleGrid`;
with `xscale = 1` and `yscale = 2 ^ 30` the product `height_pixels * yscale`
is not a 32-bit signed int, it is negative as an `int`, and the grid
computation of `proc6` throws instead of returning a grid of `2 * 2 ^ 30` rows. -/
theorem proc6_overflow_throws :
    read_image (some sampleFile) = some sampleGrid ∧ Shape sampleGrid 2 2 ∧
      (1 : Int) ≤ 1 ∧ (1 : Int) ≤ 1073741824 ∧
      proc6_image sampleGrid 1 1073741824 = none ∧
      proc6 (some sampleFile) 1 1073741824 = none :=
  ⟨by decide, by decide, by decide, by decide, by decide, by decide⟩

/-- C13, amended: for every rectangular grid `g` of height `h ≥ 1` and width
`w`, and all `xscale ≥ 1`, `yscale ≥ 1` such that `h * yscale` and `w * xscale`
fit a 32-bit signed int, the grid computation of `proc6` (and `proc6` itself on
every file that decodes to `g`) returns a grid with exactly `h * yscale` rows of
`w * xscale` pixels whose pixel `(r, c)` equals `g[r div yscale][c div xscale]`. -/
theorem proc6_upscales (g : Grid) (h w xscale yscale : Nat) (hs : Shape g h w) (hh : 1 ≤ h)
    (hx : 1 ≤ xscale) (hy : 1 ≤ yscale) (hrows : h * yscale < 2147483648)
    (hcols : w * xscale < 2147483648) :
    ∃ g' : Grid, proc6_image g (xscale : Int) (yscale : Int) = some g' ∧
      (∀ file, read_image file = some g → proc6 file (xscale : Int) (yscale : Int) = some g') ∧
      Shape g' (h * yscale) (w * xscale) ∧
      ∀ r c, r < h * yscale → c < w * xscale →
        ∃ p, pixelAt g (r / yscale) (c / xscale) = some p ∧ pixelAt g' r c = some p := by
  have hhb : h < 2147483648 := lt_of_le_of_lt (Nat.le_mul_of_pos_right h hy) hrows
  have hwb : w < 2147483648 := lt_of_le_of_lt (Nat.le_mul_of_pos_right w hx) hcols
  obtain ⟨g', hg', hsh, hpx⟩ := proc6_image_spec hs hh hhb hwb xscale yscale hx hy hrows hcols
  refine ⟨g', hg', fun file hread => by rw [proc6_of_read hread, hg'], hsh, ?_⟩
  intro r c hr hc
  obtain ⟨p, hp⟩ := pixelAt_isSome hs
    (Nat.div_lt_of_lt_mul (by rw [Nat.mul_comm]; exact hr))
    (Nat.div_lt_of_lt_mul (by rw [Nat.mul_comm]; exact hc))
  exact ⟨p, hp, by rw [hpx r c hr hc, hp]⟩

theorem proc6_upscales_witness :
    ∃ g' : Grid, proc6_image sampleGrid ((2 : Nat) : Int) ((3 : Nat) : Int) = some g' ∧
      (∀ file, read_image file = some sampleGrid →
        proc6 file ((2 : Nat) : Int) ((3 : Nat) : Int) = some g') ∧
      Shape g' (2 * 3) (2 * 2) ∧
      ∀ r c, r < 2 * 3 → c < 2 * 2 →
        ∃ p, pixelAt sampleGrid (r / 3) (c / 2) = some p ∧ pixelAt g' r c = some p :=
  proc6_upscales sampleGrid 2 2 2 3 (by decide) (by decide) (by decide) (by decide)
    (by decide) (by decide)

/-- C14: upscale parameter errors. For every grid `g`, if `g` is empty, or
`xscale ≤ 0`, or `yscale ≤ 0`, the grid computation of `proc6` returns `g`
unchanged, and so does `proc6` on every file that decodes to `g`. -/
theorem proc6_parameter_errors (g : Grid) (xscale yscale : Int)
    (hbad : g = [] ∨ xscale ≤ 0 ∨ yscale ≤ 0) :
    proc6_image g xscale yscale = some g ∧
      ∀ file, read_image file = some g → proc6 file xscale yscale = some g := by
  have key : proc6_image g xscale yscale = some g := by
    cases g with
    | nil => rfl
    | cons row0 rest =>
      have hscale : xscale ≤ 0 ∨ yscale ≤ 0 := by
        rcases hbad with h | h
        · exact absurd h (List.cons_ne_nil _ _)
        · exact h
      simp only [proc6_image, if_pos hscale]
  exact ⟨key, fun file hread => by rw [proc6_of_read hread, key]⟩

theorem proc6_parameter_errors_witness :
    proc6_image sampleGrid 0 5 = some sampleGrid ∧
      ∀ file, read_image file = some sampleGrid → proc6 file 0 5 = some sampleGrid :=
  proc6_parameter_errors sampleGrid 0 5 (by decide)

/-- C15: dimension invariant. For every non-empty image `g` that is read, each of
`proc1`, `proc2`, `proc3`, `proc7`, `proc8`, `proc9` and `proc10` returns a grid
with the same number of rows as `g` and the same number of pixels in every row
as `g`, whatever the interpretation of the floating-point arithmetic. -/
theorem transformations_keep_dimensions (F : FloatModel) (s : F.D)
    (file : Option (List Byte)) (g : Grid) (h w : Nat) (hread : read_image file = some g)
    (hs : Shape g h w) (hh : 1 ≤ h) :
    (∃ g', proc1 F file = some g' ∧ Shape g' h w) ∧
    (∃ g', proc2 F file s = some g' ∧ Shape g' h w) ∧
    (∃ g', proc3 file = some g' ∧ Shape g' h w) ∧
    (∃ g', proc7 file = some g' ∧ Shape g' h w) ∧
    (∃ g', proc8 F file s = some g' ∧ Shape g' h w) ∧
    (∃ g', proc9 F file s = some g' ∧ Shape g' h w) ∧
    (∃ g', proc10 file = some g' ∧ Shape g' h w) := by
  have key : ∀ rule : Int → Int → Nat → Nat → Pixel → Pixel,
      ∃ g', pointwise rule g = some g' ∧ Shape g' h w := by
    intro rule
    obtain ⟨g', hg', hsh, -⟩ := pointwise_decoded rule hread hs hh
    exact ⟨g', hg', hsh⟩
  refine ⟨?_, ?_, ?_, ?_, ?_, ?_, ?_⟩
  · rw [proc1_of_read hread]; exact key _
  · rw [proc2_of_read hread]; exact key _
  · rw [proc3_of_read hread]; exact key _
  · rw [proc7_of_read hread]; exact key _
  · rw [proc8_of_read hread]; exact key _
  · rw [proc9_of_read hread]; exact key _
  · rw [proc10_of_read hread]; exact key _

theorem transformations_keep_dimensions_witness :
    (∃ g', proc1 exactModel (some sampleFile) = some g' ∧ Shape g' 2 2) ∧
    (∃ g', proc2 exactModel (some sampleFile) (1 / 2 : ℚ) = some g' ∧ Shape g' 2 2) ∧
    (∃ g', proc3 (some sampleFile) = some g' ∧ Shape g' 2 2) ∧
    (∃ g', proc7 (some sampleFile) = some g' ∧ Shape g' 2 2) ∧
    (∃ g', proc8 exactModel (some sampleFile) (1 / 2 : ℚ) = some g' ∧ Shape g' 2 2) ∧
    (∃ g', proc9 exactModel (some sampleFile) (1 / 2 : ℚ) = some g' ∧ Shape g' 2 2) ∧
    (∃ g', proc10 (some sampleFile) = some g' ∧ Shape g' 2 2) :=
  transformations_keep_dimensions exactModel (1 / 2 : ℚ) (some sampleFile) sampleGrid 2 2
    (by decide) (by decide) (by decide)

/-- C16: grayscale. For every non-empty image `g` that is read, with channels in
`[0, 255]`, and every position `(r, c)`, `proc3` outputs a pixel with
red = green = blue = floor((red + green + blue) / 3) of `g[r][c]`; in
particular the grid `[[(255,0,0),(0,255,0)],[(0,0,255),(255,255,255)]]` maps to
`[[(85,85,85),(85,85,85)],[(85,85,85),(255,255,255)]]`. -/
theorem proc3_grayscale (file : Option (List Byte)) (g : Grid) (h w r c : Nat) (p : Pixel)
    (hread : read_image file = some g) (hs : Shape g h w) (hh : 1 ≤ h)
    (hrange : ChannelsInRange g) (hp : pixelAt g r c = some p) :
    (∃ g' : Grid, proc3 file = some g' ∧
      pixelAt g' r c = some ⟨(p.red + p.green + p.blue) / 3, (p.red + p.green + p.blue) / 3,
        (p.red + p.green + p.blue) / 3⟩) ∧
    (read_image (some sampleFile) =
        some [[⟨255, 0, 0⟩, ⟨0, 255, 0⟩], [⟨0, 0, 255⟩, ⟨255, 255, 255⟩]] ∧
      proc3 (some sampleFile) =
        some [[⟨85, 85, 85⟩, ⟨85, 85, 85⟩], [⟨85, 85, 85⟩, ⟨255, 255, 255⟩]]) := by
  refine ⟨?_, by decide, by decide⟩
  obtain ⟨g', hg', -, hpx⟩ := pointwise_decoded (fun _ _ _ _ q => proc3_pixel q) hread hs hh
  refine ⟨g', by rw [proc3_of_read hread]; exact hg', ?_⟩
  have hin := inRange_of_pixelAt hrange hp
  have hsum := sum_of_decoded' (decoded_of_inRange hin)
  obtain ⟨⟨r0, r1⟩, ⟨g0, g1⟩, ⟨b0, b1⟩⟩ := hin
  rw [hpx r c p hp]
  simp only [proc3_pixel, hsum, tdiv_three_of_nonneg (show 0 ≤ p.red + p.green + p.blue by omega)]

theorem proc3_grayscale_witness :
    (∃ g' : Grid, proc3 (some sampleFile) = some g' ∧
      pixelAt g' 0 1 = some ⟨((0 : Int) + 255 + 0) / 3, ((0 : Int) + 255 + 0) / 3,
        ((0 : Int) + 255 + 0) / 3⟩) ∧
    (read_image (some sampleFile) =
        some [[⟨255, 0, 0⟩, ⟨0, 255, 0⟩], [⟨0, 0, 255⟩, ⟨255, 255, 255⟩]] ∧
      proc3 (some sampleFile) =
        some [[⟨85, 85, 85⟩, ⟨85, 85, 85⟩], [⟨85, 85, 85⟩, ⟨255, 255, 255⟩]]) :=
  proc3_grayscale (some sampleFile) sampleGrid 2 2 0 1 ⟨0, 255, 0⟩ (by decide) (by decide)
    (by decide) (by decide) (by decide)

/-- C17: the threshold of `proc7` is off by one. `grayFile` decodes to the
single pixel (127, 127, 127), whose channel average 127 is below 128, and
`proc7` outputs pure white where the claim says pure black: the code compares
with `255 / 2`, the midpoint 127.5 that the `int` division truncates to 127. -/
theorem proc7_white_at_127 :
    read_image (some grayFile) = some [[⟨127, 127, 127⟩]] ∧
      ((127 : Int) + 127 + 127) / 3 = 127 ∧ ¬ ((127 : Int) ≥ 128) ∧
      Int.tdiv 255 2 = 127 ∧
      proc7 (some grayFile) = some [[⟨255, 255, 255⟩]] :=
  ⟨by decide, by decide, by decide, by decide, by decide⟩

/-- The rule that the code of `proc7` applies. For every pixel with channels in
`[0, 255]` of a non-empty image that is read, the output is pure white when the
integer channel average `(red + green + blue) div 3` is at least 127, the `int`
value of `255 / 2`, and pure black otherwise; so the output is the one of the
rule "white from 128 on" for every pixel whose average is not 127. -/
theorem proc7_threshold (file : Option (List Byte)) (g : Grid) (h w r c : Nat) (p : Pixel)
    (hread : read_image file = some g) (hs : Shape g h w) (hh : 1 ≤ h)
    (hin : Pixel.InRange p) (hp : pixelAt g r c = some p) :
    ∃ g' : Grid, proc7 file = some g' ∧
      pixelAt g' r c =
        some (if (p.red + p.green + p.blue) / 3 ≥ 127 then ⟨255, 255, 255⟩ else ⟨0, 0, 0⟩) ∧
      ((p.red + p.green + p.blue) / 3 ≠ 127 →
        pixelAt g' r c =
          some (if (p.red + p.green + p.blue) / 3 ≥ 128 then ⟨255, 255, 255⟩ else ⟨0, 0, 0⟩)) := by
  obtain ⟨g', hg', -, hpx⟩ := pointwise_decoded (fun _ _ _ _ q => proc7_pixel q) hread hs hh
  have hsum := sum_of_decoded (decoded_of_inRange hin)
  obtain ⟨⟨r0, r1⟩, ⟨g0, g1⟩, ⟨b0, b1⟩⟩ := hin
  have h127 : Int.tdiv 255 2 = 127 := by decide
  have key : pixelAt g' r c =
      some (if (p.red + p.green + p.blue) / 3 ≥ 127 then ⟨255, 255, 255⟩ else ⟨0, 0, 0⟩) := by
    rw [hpx r c p hp]
    simp only [proc7_pixel, hsum, h127,
      tdiv_three_of_nonneg (show 0 ≤ p.red + p.green + p.blue by omega)]
  refine ⟨g', by rw [proc7_of_read hread]; exact hg', key, ?_⟩
  intro hne
  rw [key]
  by_cases h8 : (p.red + p.green + p.blue) / 3 ≥ 128
  · rw [if_pos h8, if_pos (by omega)]
  · rw [if_neg h8, if_neg (by omega)]

/-- C18: threshold idempotence. For every non-empty image `g` that is read,
applying the grid computation of `proc7` to the output of `proc7` yields that
output again. -/
theorem proc7_idempotent (file : Option (List Byte)) (g : Grid) (h w : Nat)
    (hread : read_image file = some g) (hs : Shape g h w) (hh : 1 ≤ h) :
    ∃ g1 : Grid, proc7 file = some g1 ∧ proc7_image g1 = some g1 := by
  obtain ⟨hhb, hwb, -⟩ := decoded_bounds hread hs hh
  obtain ⟨g1, e1, s1, p1⟩ := pointwise_spec (fun _ _ _ _ q => proc7_pixel q) hs hh hhb hwb
  obtain ⟨g2, e2, s2, p2⟩ := pointwise_spec (fun _ _ _ _ q => proc7_pixel q) s1 hh hhb hwb
  refine ⟨g1, by rw [proc7_of_read hread]; exact e1, ?_⟩
  have e : g2 = g1 := by
    apply grid_ext s2 s1
    intro i j hi hj
    rw [p2 i j hi hj, p1 i j hi hj]
    cases pixelAt g i j with
    | none => rfl
    | some q => simp only [Option.map_some', proc7_pixel_idem]
  show pointwise (fun _ _ _ _ q => proc7_pixel q) g1 = some g1
  rw [e2, e]

theorem proc7_idempotent_witness :
    ∃ g1 : Grid, proc7 (some sampleFile) = some g1 ∧ proc7_image g1 = some g1 :=
  proc7_idempotent (some sampleFile) sampleGrid 2 2 (by decide) (by decide) (by decide)

/-- C19: palette reduction. For every pixel `(r, g, b)` with channels in
`[0, 255]` of a non-empty image that is read, `proc10` outputs white if
`r + g + b ≥ 550`; else black if `r + g + b ≤ 150`; else pure red if
`r = max(r, g, b)`; else pure green if `g = max(r, g, b)`; else pure blue. -/
theorem proc10_palette (file : Option (List Byte)) (g : Grid) (h w r c : Nat) (p : Pixel)
    (hread : read_image file = some g) (hs : Shape g h w) (hh : 1 ≤ h)
    (hin : Pixel.InRange p) (hp : pixelAt g r c = some p) :
    ∃ g' : Grid, proc10 file = some g' ∧
      pixelAt g' r c =
        some (if p.red + p.green + p.blue ≥ 550 then ⟨255, 255, 255⟩
          else if p.red + p.green + p.blue ≤ 150 then ⟨0, 0, 0⟩
          else if p.red = max p.red (max p.green p.blue) then ⟨255, 0, 0⟩
          else if p.green = max p.red (max p.green p.blue) then ⟨0, 255, 0⟩
          else ⟨0, 0, 255⟩) := by
  obtain ⟨g', hg', -, hpx⟩ := pointwise_decoded (fun _ _ _ _ q => proc10_pixel q) hread hs hh
  refine ⟨g', by rw [proc10_of_read hread]; exact hg', ?_⟩
  have hsum := sum_of_decoded (decoded_of_inRange hin)
  rw [hpx r c p hp]
  simp only [proc10_pixel, hsum, eq_comm]

theorem proc10_palette_witness :
    ∃ g' : Grid, proc10 (some grayFile) = some g' ∧
      pixelAt g' 0 0 =
        some (if (127 : Int) + 127 + 127 ≥ 550 then ⟨255, 255, 255⟩
          else if (127 : Int) + 127 + 127 ≤ 150 then ⟨0, 0, 0⟩
          else if (127 : Int) = max 127 (max 127 127) then ⟨255, 0, 0⟩
          else if (127 : Int) = max 127 (max 127 127) then ⟨0, 255, 0⟩
          else ⟨0, 0, 255⟩) :=
  proc10_palette (some grayFile) [[⟨127, 127, 127⟩]] 1 1 0 0 ⟨127, 127, 127⟩ (by decide)
    (by decide) (by decide) (by decide) (by decide)

/-- C20: tone curve. For every scale factor `s`, every interpretation of the
floating-point arithmetic and every pixel `p` of a non-empty image that is read,
with integer channel average `a = (red + green + blue) / 3` (the division of
C++), `proc2` outputs exactly what `proc8` outputs for `p` and `s` when
`a ≥ 170`, exactly what `proc9` outputs for `p` and `s` when `a < 90`, and `p`
unchanged when `90 ≤ a < 170`. -/
theorem proc2_tone_curve (F : FloatModel) (s : F.D) (file : Option (List Byte)) (g : Grid)
    (h w r c : Nat) (p : Pixel) (hread : read_image file = some g) (hs : Shape g h w)
    (hh : 1 ≤ h) (hp : pixelAt g r c = some p) :
    ∃ g2 g8 g9 : Grid, proc2 F file s = some g2 ∧ proc8 F file s = some g8 ∧
      proc9 F file s = some g9 ∧
      (Int.tdiv (p.red + p.green + p.blue) 3 ≥ 170 → pixelAt g2 r c = pixelAt g8 r c) ∧
      (Int.tdiv (p.red + p.green + p.blue) 3 < 90 → pixelAt g2 r c = pixelAt g9 r c) ∧
      (90 ≤ Int.tdiv (p.red + p.green + p.blue) 3 → Int.tdiv (p.red + p.green + p.blue) 3 < 170 →
        pixelAt g2 r c = some p) := by
  obtain ⟨-, -, hdec⟩ := decoded_bounds hread hs hh
  have hsum := sum_of_decoded (hdec r c p hp)
  obtain ⟨g2, e2, -, p2⟩ := pointwise_decoded (fun _ _ _ _ q => proc2_pixel F s q) hread hs hh
  obtain ⟨g8, e8, -, p8⟩ := pointwise_decoded (fun _ _ _ _ q => proc8_pixel F s q) hread hs hh
  obtain ⟨g9, e9, -, p9⟩ := pointwise_decoded (fun _ _ _ _ q => proc9_pixel F s q) hread hs hh
  refine ⟨g2, g8, g9, by rw [proc2_of_read hread]; exact e2,
    by rw [proc8_of_read hread]; exact e8, by rw [proc9_of_read hread]; exact e9, ?_, ?_, ?_⟩
  · intro ha
    rw [p2 r c p hp, p8 r c p hp]
    simp only [proc2_pixel, proc8_pixel, hsum, if_pos ha]
  · intro ha
    have hna : ¬ (Int.tdiv (p.red + p.green + p.blue) 3 ≥ 170) := by omega
    rw [p2 r c p hp, p9 r c p hp]
    simp only [proc2_pixel, proc9_pixel, hsum, if_neg hna, if_pos ha]
  · intro ha1 ha2
    have hna : ¬ (Int.tdiv (p.red + p.green + p.blue) 3 ≥ 170) := by omega
    have hnb : ¬ (Int.tdiv (p.red + p.green + p.blue) 3 < 90) := by omega
    rw [p2 r c p hp]
    simp only [proc2_pixel, hsum, if_neg hna, if_neg hnb]

theorem proc2_tone_curve_witness :
    (∃ g2 g8 : Grid, proc2 exactModel (some toneFile) (1 / 2 : ℚ) = some g2 ∧
      proc8 exactModel (some toneFile) (1 / 2 : ℚ) = some g8 ∧
      Int.tdiv ((201 : Int) + 201 + 201) 3 ≥ 170 ∧
      pixelAt g2 0 0 = pixelAt g8 0 0 ∧ pixelAt g8 0 0 = some ⟨228, 228, 228⟩) ∧
    (∃ g2 g9 : Grid, proc2 exactModel (some toneFile) (1 / 2 : ℚ) = some g2 ∧
      proc9 exactModel (some toneFile) (1 / 2 : ℚ) = some g9 ∧
      Int.tdiv ((40 : Int) + 40 + 40) 3 < 90 ∧
      pixelAt g2 0 1 = pixelAt g9 0 1 ∧ pixelAt g9 0 1 = some ⟨20, 20, 20⟩) ∧
    (∃ g2 : Grid, proc2 exactModel (some toneFile) (1 / 2 : ℚ) = some g2 ∧
      90 ≤ Int.tdiv ((127 : Int) + 127 + 127) 3 ∧ Int.tdiv ((127 : Int) + 127 + 127) 3 < 170 ∧
      pixelAt g2 0 2 = some ⟨127, 127, 127⟩) := by
  have hs : Shape toneGrid 1 3 := by decide
  obtain ⟨a2, a8, -, ea2, ea8, -, ha, -, -⟩ := proc2_tone_curve exactModel (1 / 2 : ℚ)
    (some toneFile) toneGrid 1 3 0 0 ⟨201, 201, 201⟩ toneFile_decoded hs (by decide) (by decide)
  obtain ⟨b2, -, b9, eb2, -, eb9, -, hb, -⟩ := proc2_tone_curve exactModel (1 / 2 : ℚ)
    (some toneFile) toneGrid 1 3 0 1 ⟨40, 40, 40⟩ toneFile_decoded hs (by decide) (by decide)
  obtain ⟨c2, -, -, ec2, -, -, -, -, hc⟩ := proc2_tone_curve exactModel (1 / 2 : ℚ)
    (some toneFile) toneGrid 1 3 0 2 ⟨127, 127, 127⟩ toneFile_decoded hs (by decide) (by decide)
  obtain ⟨g8, e8, -, p8⟩ := pointwise_decoded
    (fun _ _ _ _ q => proc8_pixel exactModel (1 / 2 : ℚ) q) toneFile_decoded hs (by decide)
  obtain ⟨g9, e9, -, p9⟩ := pointwise_decoded
    (fun _ _ _ _ q => proc9_pixel exactModel (1 / 2 : ℚ) q) toneFile_decoded hs (by decide)
  have k8 : a8 = g8 := by
    rw [proc8_of_read toneFile_decoded] at ea8
    exact Option.some.inj (ea8.symm.trans e8)
  have k9 : b9 = g9 := by
    rw [proc9_of_read toneFile_decoded] at eb9
    exact Option.some.inj (eb9.symm.trans e9)
  refine ⟨⟨a2, a8, ea2, ea8, by decide, ha (by decide), ?_⟩,
    ⟨b2, b9, eb2, eb9, by decide, hb (by decide), ?_⟩,
    ⟨c2, ec2, by decide, by decide, hc (by decide) (by decide)⟩⟩
  · rw [k8, p8 0 0 ⟨201, 201, 201⟩ rfl, proc8_pixel_light]
  · rw [k9, p9 0 1 ⟨40, 40, 40⟩ rfl, proc9_pixel_dark]

/-- C21: the rotation count `-2` on the 2 x 2 sample image. The count reduced
mod 4 with the non-negative remainder is 2, and the count `2 = -2 + 4` gives
two rotations, but for `-2` the remainder `angle % 360` is `-180`, which falls
through to the last branch: `proc5` returns three rotations. -/
theorem proc5_negative_count :
    read_image (some sampleFile) = some sampleGrid ∧
    (-2 : Int) % 4 = 2 ∧
    Int.tmod (wrap32 (-2 * 90)) 360 = -180 ∧
    proc5 (some sampleFile) (-2) = rotate_n 3 sampleGrid ∧
    proc5 (some sampleFile) (-2 + 4) = rotate_n 2 sampleGrid ∧
    proc5 (some sampleFile) (-2) ≠ proc5 (some sampleFile) (-2 + 4) := by
  decide

/-- C22: unopenable source. On a file that cannot be opened every `get()` after
a `seekg` yields `-1`, the header fields are read as `-16843009` (four bytes)
and `-257` (two bytes), the size cross-check fails in 32-bit two's-complement
arithmetic, and `read_image` returns the empty grid. -/
theorem read_image_unopenable :
    (∀ offset : Int, ((IStream.openFile none).seekg offset).get = (-1, IStream.openFile none)) ∧
    (get_int (IStream.openFile none) 2 4).1 = -16843009 ∧
    (get_int (IStream.openFile none) 28 2).1 = -257 ∧
    (-16843009 : Int) ≠
      wrap32 (-16843009 +
        wrap32 (wrap32 (wrap32 (-16843009 * Int.tdiv (-257) 8) +
          read_padding (wrap32 (-16843009 * Int.tdiv (-257) 8))) * -16843009)) ∧
    read_image none = some [] := by
  refine ⟨?_, by decide, by decide, by decide, by decide⟩
  intro offset
  simp [IStream.openFile, IStream.seekg, IStream.get]

/-- C23: unclamped vignette. The row of ten white pixels `vignetteGrid`, the
image of `vignetteFile`, has every channel in `[0, 255]`; at column 0 the
distance from the midpoint is 5 and the scale factor is `(1 - 5) / 1 = -4`, and
`proc1` outputs the red value `-1020`, outside `[0, 255]`, under every faithful
interpretation of the `double` arithmetic. -/
theorem proc1_unclamped (F : FloatModel) (val : F.D → ℚ) (hF : Faithful F val) :
    read_image (some vignetteFile) = some vignetteGrid ∧ Shape vignetteGrid 1 10 ∧
    ChannelsInRange vignetteGrid ∧
    ∃ (g' : Grid) (p : Pixel), proc1 F (some vignetteFile) = some g' ∧
      pixelAt g' 0 0 = some p ∧ p.red = -1020 ∧ ¬ p.InRange := by
  refine ⟨vignetteFile_decoded, by decide, by decide, ?_⟩
  obtain ⟨g', hg', -, hpx⟩ := pointwise_decoded
    (fun width_pixels height_pixels row col p =>
      proc1_pixel F width_pixels height_pixels row col p)
    vignetteFile_decoded (show Shape vignetteGrid 1 10 by decide) (by decide)
  have h00 := hpx 0 0 ⟨255, 255, 255⟩ rfl
  have hred : (proc1_pixel F ((10 : Nat) : Int) ((1 : Nat) : Int) 0 0 ⟨255, 255, 255⟩).red =
      -1020 := proc1_pixel_corner hF
  refine ⟨g', _, by rw [proc1_of_read vignetteFile_decoded]; exact hg', h00, hred, ?_⟩
  intro hin
  have := hin.1.1
  rw [hred] at this
  omega

theorem proc1_unclamped_witness :
    read_image (some vignetteFile) = some vignetteGrid ∧ Shape vignetteGrid 1 10 ∧
    ChannelsInRange vignetteGrid ∧
    ∃ (g' : Grid) (p : Pixel), proc1 exactModel (some vignetteFile) = some g' ∧
      pixelAt g' 0 0 = some p ∧ p.red = -1020 ∧ ¬ p.InRange :=
  proc1_unclamped exactModel (fun x => x) exactModel_faithful

/-- C24: lighten and darken stay in range. For every faithful interpretation of
the `double` arithmetic, every scale factor `s` with `0 ≤ s ≤ 1` and every
pixel with channels in `[0, 255]`: each channel `c` of the pixel is darkened by
`proc9` to a value in `[0, c]` and lightened by `proc8` to a value in
`[c, 255]`, and `proc2` gives channels in `[0, 255]`; hence `proc8`, `proc9`
and `proc2` map every image read with channels in `[0, 255]` to an image with
channels in `[0, 255]`. -/
theorem lighten_darken_in_range (F : FloatModel) (val : F.D → ℚ) (hF : Faithful F val)
    (s : F.D) (hs0 : 0 ≤ val s) (hs1 : val s ≤ 1) :
    (∀ p : Pixel, p.InRange →
      ((proc9_pixel F s p).InRange ∧ (proc9_pixel F s p).le p) ∧
      ((proc8_pixel F s p).InRange ∧ p.le (proc8_pixel F s p)) ∧
      (proc2_pixel F s p).InRange) ∧
    ∀ (file : Option (List Byte)) (g : Grid) (h w : Nat), read_image file = some g →
      Shape g h w → 1 ≤ h → ChannelsInRange g →
      (∃ g8, proc8 F file s = some g8 ∧ Shape g8 h w ∧ ChannelsInRange g8) ∧
      (∃ g9, proc9 F file s = some g9 ∧ Shape g9 h w ∧ ChannelsInRange g9) ∧
      (∃ g2, proc2 F file s = some g2 ∧ Shape g2 h w ∧ ChannelsInRange g2) := by
  refine ⟨fun p hp => ⟨proc9_pixel_range hF s hs0 hs1 p hp, proc8_pixel_range hF s hs0 hs1 p hp,
    proc2_pixel_range hF s hs0 hs1 p hp⟩, ?_⟩
  intro file g h w hread hs hh hr
  refine ⟨?_, ?_, ?_⟩
  · rw [proc8_of_read hread]
    exact pointwise_inRange (fun _ _ _ _ p => proc8_pixel F s p)
      (fun _ _ _ _ p hp => (proc8_pixel_range hF s hs0 hs1 p hp).1) hread hs hh hr
  · rw [proc9_of_read hread]
    exact pointwise_inRange (fun _ _ _ _ p => proc9_pixel F s p)
      (fun _ _ _ _ p hp => (proc9_pixel_range hF s hs0 hs1 p hp).1) hread hs hh hr
  · rw [proc2_of_read hread]
    exact pointwise_inRange (fun _ _ _ _ p => proc2_pixel F s p)
      (fun _ _ _ _ p hp => proc2_pixel_range hF s hs0 hs1 p hp) hread hs hh hr

theorem lighten_darken_in_range_witness :
    (∀ p : Pixel, p.InRange →
      ((proc9_pixel exactModel (1 / 2 : ℚ) p).InRange ∧
        (proc9_pixel exactModel (1 / 2 : ℚ) p).le p) ∧
      ((proc8_pixel exactModel (1 / 2 : ℚ) p).InRange ∧
        p.le (proc8_pixel exactModel (1 / 2 : ℚ) p)) ∧
      (proc2_pixel exactModel (1 / 2 : ℚ) p).InRange) ∧
    ∀ (file : Option (List Byte)) (g : Grid) (h w : Nat), read_image file = some g →
      Shape g h w → 1 ≤ h → ChannelsInRange g →
      (∃ g8, proc8 exactModel file (1 / 2 : ℚ) = some g8 ∧ Shape g8 h w ∧ ChannelsInRange g8) ∧
      (∃ g9, proc9 exactModel file (1 / 2 : ℚ) = some g9 ∧ Shape g9 h w ∧ ChannelsInRange g9) ∧
      (∃ g2, proc2 exactModel file (1 / 2 : ℚ) = some g2 ∧ Shape g2 h w ∧ ChannelsInRange g2) :=
  lighten_darken_in_range exactModel (fun x => x) exactModel_faithful (1 / 2 : ℚ)
    (by norm_num) (by norm_num)

/-- C25, as stated, fails: `overflowFile` has 32 bits per pixel, width `2 ^ 30`,
height 1 and pixel-array offset 54; its scan-line size `2 ^ 30 * 4` is 0 as an
`int`, so that its declared size 54 passes the size cross-check, and it has the
54 bytes it declares; the first pixel is read at the end of the file and its
channels are the end-of-file value `-1`. -/
theorem read_image_overflow_channel :
    ((header overflowFile).bits_per_pixel = 32 ∧ (header overflowFile).width = 1073741824 ∧
      (header overflowFile).height = 1 ∧ (header overflowFile).start = 54 ∧
      (header overflowFile).file_size = 54 ∧
      (header overflowFile).file_size = (header overflowFile).layout_size ∧
      (header overflowFile).file_size ≤ (overflowFile.length : Int)) ∧
    ∃ g : Grid, read_image (some overflowFile) = some g ∧
      pixelAt g 0 0 = some ⟨-1, -1, -1⟩ :=
  ⟨⟨by decide, by decide, by decide, by decide, by decide, by decide, by decide⟩,
    read_image_overflowFile⟩

/-- C25, amended: for every byte sequence with bits-per-pixel 24 or 32, width
at least 1, height at least 1 and pixel-array offset at least 0, whose declared
file size is the exact value of
`start + (width * (bits_per_pixel / 8) + padding) * height` (the size
cross-check passes without 32-bit overflow) and whose actual length is at least
the declared file size, `read_image` returns a grid of `height` rows of `width`
pixels in which every red, green and blue value lies in `[0, 255]`. -/
theorem read_image_channels_in_range (bs : List Byte)
    (hb : (header bs).bits_per_pixel = 24 ∨ (header bs).bits_per_pixel = 32)
    (hw : 1 ≤ (header bs).width) (hh : 1 ≤ (header bs).height) (hst : 0 ≤ (header bs).start)
    (hsize : (header bs).file_size = (header bs).start +
      ((header bs).width * Int.tdiv (header bs).bits_per_pixel 8 + (header bs).padding) *
        (header bs).height)
    (hlen : (header bs).file_size ≤ (bs.length : Int)) :
    ∃ g : Grid, read_image (some bs) = some g ∧
      Shape g (header bs).height.toNat (header bs).width.toNat ∧ ChannelsInRange g := by
  obtain ⟨hpass, hin⟩ := inFile_of_exact bs hb hw hh hst hsize hlen
  exact read_image_inFile bs hpass (by omega) (by omega)
    (header_complete bs (by rcases hb with h | h <;> rw [h] <;> decide)) hin

theorem read_image_channels_in_range_witness :
    ∃ g : Grid, read_image (some sampleFile) = some g ∧
      Shape g (header sampleFile).height.toNat (header sampleFile).width.toNat ∧
      ChannelsInRange g :=
  read_image_channels_in_range sampleFile (by decide) (by decide) (by decide) (by decide)
    (by decide) (by decide)

/-- C26, as stated, fails: `tallGrid` has 65537 rows of one pixel. Its
enlargement by `(1, 32768)` throws, the new height `65537 * 32768` being
negative as an `int`, so that the two enlargements by `(1, 32768)` and `(1, 2)`
yield no grid; the single enlargement by `(1 * 1, 32768 * 2)` returns a grid,
of 65536 rows. -/
theorem proc6_composition_overflow :
    Shape tallGrid 65537 1 ∧
    (proc6_image tallGrid 1 32768).bind (fun g1 => proc6_image g1 1 2) = none ∧
    ∃ g2 : Grid, proc6_image tallGrid (1 * 1) (32768 * 2) = some g2 ∧ Shape g2 65536 1 := by
  refine ⟨shape_tallGrid, by rw [proc6_tallGrid_first]; rfl, ?_⟩
  have e1 : ((1 : Int) * 1) = 1 := by decide
  have e2 : ((32768 : Int) * 2) = 65536 := by decide
  rw [e1, e2]
  exact proc6_tallGrid_single

/-- C26, amended: for every rectangular grid `g` of height `h ≥ 1` and width `w`
and all `a, b, c, d ≥ 1` such that `h * (b * d)` and `w * (a * c)` fit a 32-bit
signed int, the enlargement of `g` by `(xscale = a, yscale = b)` followed by
the enlargement of the result by `(c, d)` yields the same grid as the single
enlargement of `g` by `(a * c, b * d)`, a grid of `h * (b * d)` rows of
`w * (a * c)` pixels; and the enlargement by `(1, 1)` returns `g`. -/
theorem proc6_composes (g : Grid) (h w a b c d : Nat) (hs : Shape g h w) (hh : 1 ≤ h)
    (ha : 1 ≤ a) (hb : 1 ≤ b) (hc : 1 ≤ c) (hd : 1 ≤ d)
    (hrows : h * (b * d) < 2147483648) (hcols : w * (a * c) < 2147483648) :
    (∃ g2 : Grid,
      (proc6_image g (a : Int) (b : Int)).bind (fun g1 => proc6_image g1 (c : Int) (d : Int)) =
        some g2 ∧
      proc6_image g ((a : Int) * (c : Int)) ((b : Int) * (d : Int)) = some g2 ∧
      Shape g2 (h * (b * d)) (w * (a * c))) ∧
    proc6_image g 1 1 = some g := by
  have hbd : 0 < b * d := Nat.mul_pos hb hd
  have hac : 0 < a * c := Nat.mul_pos ha hc
  have hhb : h < 2147483648 := lt_of_le_of_lt (Nat.le_mul_of_pos_right h hbd) hrows
  have hwb : w < 2147483648 := lt_of_le_of_lt (Nat.le_mul_of_pos_right w hac) hcols
  obtain ⟨g1, g2, e1, e2, e3, s2⟩ := proc6_image_comp hs hh a b c d ha hb hc hd hrows hcols
  refine ⟨⟨g2, by rw [e1]; exact e2, ?_, s2⟩, proc6_image_one hs hh hhb hwb⟩
  rw [← Nat.cast_mul, ← Nat.cast_mul]
  exact e3

theorem proc6_composes_witness :
    (∃ g2 : Grid,
      (proc6_image sampleGrid ((2 : Nat) : Int) ((3 : Nat) : Int)).bind
        (fun g1 => proc6_image g1 ((2 : Nat) : Int) ((1 : Nat) : Int)) = some g2 ∧
      proc6_image sampleGrid (((2 : Nat) : Int) * ((2 : Nat) : Int))
        (((3 : Nat) : Int) * ((1 : Nat) : Int)) = some g2 ∧
      Shape g2 (2 * (3 * 1)) (2 * (2 * 2))) ∧
    proc6_image sampleGrid 1 1 = some sampleGrid :=
  proc6_composes sampleGrid 2 2 2 3 2 1 (by decide) (by decide) (by decide) (by decide)
    (by decide) (by decide) (by decide) (by decide)

/-- C27: the error path of `proc5` is dead. For every rotation count `n` with
`90 n` representable as a 32-bit signed int, the condition `angle % 90 != 0`
of the first branch is false, so that `proc5` goes on to the rotation branches. -/
theorem proc5_error_dead (n : Int) (hlo : -2147483648 ≤ 90 * n) (hhi : 90 * n < 2147483648) :
    ¬ proc5_error n ∧
    ∀ image : Grid, proc5_image image n =
      if Int.tmod (wrap32 (n * 90)) 360 = 0 then some image
      else if Int.tmod (wrap32 (n * 90)) 360 = 90 then rotate_90 image
      else if Int.tmod (wrap32 (n * 90)) 360 = 180 then (rotate_90 image).bind rotate_90
      else ((rotate_90 image).bind rotate_90).bind rotate_90 := by
  have e : wrap32 (n * 90) = n * 90 := wrap32_of_range (by omega) (by omega)
  have h0 : Int.tmod (wrap32 (n * 90)) 90 = 0 := by
    rw [e]
    exact Int.mul_tmod_left n 90
  refine ⟨fun h => h h0, ?_⟩
  intro image
  have hne : ¬ (Int.tmod (wrap32 (n * 90)) 90 ≠ 0) := fun h => h h0
  simp only [proc5_image, if_neg hne]

theorem proc5_error_dead_witness :
    ¬ proc5_error (-7) ∧
    ∀ image : Grid, proc5_image image (-7) =
      if Int.tmod (wrap32 (-7 * 90)) 360 = 0 then some image
      else if Int.tmod (wrap32 (-7 * 90)) 360 = 90 then rotate_90 image
      else if Int.tmod (wrap32 (-7 * 90)) 360 = 180 then (rotate_90 image).bind rotate_90
      else ((rotate_90 image).bind rotate_90).bind rotate_90 :=
  proc5_error_dead (-7) (by decide) (by decide)

end ImageProcessor
